import Mathlib

/-!
HP-TimeTest 7.3: spike buffer encoding and sampling loops.

A shallow embedding of the spike-recording core of `HP-TimeTest7.3.c`:
the record buffer `spikes[MAX_SPIKES+3]`, the encoder `process_big_diff`,
the decoder `print_big_diff`, and the sampling loops of `main`.

Conventions of the embedding.

* `unsigned long` values are naturals reduced modulo `2^64`, `unsigned int`
  values are naturals reduced modulo `2^32`; `time_t` and `suseconds_t`
  (signed 64-bit) are integers.
* The array `spikes` is a map from indices to cells; every access checks the
  index against the array dimension `MAX_SPIKES + 3` and the operation
  returns `none` when an index falls outside (undefined behaviour in C).
* The program is x86-64 only (it executes `rdtsc`), so the cast
  `*(unsigned long *)(&spikes[i].time)` sees the field `time` as the low
  32 bits and the field `spike` as the high 32 bits of one 64-bit value.
* What `printf` renders is out of scope: each data line printed by
  `print_big_diff` is kept as a `Row` holding the values it is computed from.
-/

namespace HPTimeTest

/-! ## Data model -/

/-- The C constant `MAX_SPIKES` (`#define MAX_SPIKES 1021`). -/
def MAX_SPIKES : Nat := 1021

/-- Modulus of `unsigned int`. -/
def UINT_MOD : Nat := 2 ^ 32

/-- Modulus of `unsigned long`. -/
def ULONG_MOD : Nat := 2 ^ 64

/-- The C constant `ULONG_MAX`. -/
def ULONG_MAX : Nat := 2 ^ 64 - 1

/-- One cell of the buffer: `struct spike_data` with two `unsigned int` fields. -/
structure spike_data_struct where
  time : Nat
  spike : Nat
deriving DecidableEq, Repr

/-- The C type `struct timeval`: both fields are signed 64-bit integers. -/
structure timeval where
  tv_sec : Int
  tv_usec : Int
deriving DecidableEq, Repr

/-- One data line printed by `print_big_diff`: the value of `cumulative`
after the record was added, the `spike` field printed, and `this_time`
(the decoded gap). The line shows `cumulative` as `elapsed_absolute_time` gives it,
seconds modulo `2^32` and microseconds, and shows `this_time` only when
`cumulative != this_time`. -/
structure Row where
  cumulative : Nat
  spike : Nat
  this_time : Nat
deriving DecidableEq, Repr

/-- The variables shared by `process_big_diff` and `print_big_diff`:
the array `spikes`, the cursor `spike_ndx`, the function-static `cumulative`
of `print_big_diff`, the data lines written to standard output so far, and
`last_spike_time` of `main`. Two history fields record what the code did:
`drained` lists every value added to `cumulative` (one per decoded record,
whether or not a line was printed) and `drains` counts the calls of
`print_big_diff`. -/
structure State where
  spikes : Nat → spike_data_struct
  spike_ndx : Nat
  cumulative : Nat
  out : List Row
  last_spike_time : timeval
  drained : List Nat
  drains : Nat

/-- The cast `(unsigned long) x` of a signed 64-bit value. -/
def to_ulong (x : Int) : Nat := (x % (2 ^ 64 : Int)).toNat

/-- The conversion to `unsigned int` done by an assignment to a 32-bit field. -/
def to_uint (x : Nat) : Nat := x % UINT_MOD

/-- Checked read of `spikes[i]`. -/
def load (spikes : Nat → spike_data_struct) (i : Nat) : Option spike_data_struct :=
  if i < MAX_SPIKES + 3 then some (spikes i) else none

/-- Checked write of `spikes[i]`. -/
def store (spikes : Nat → spike_data_struct) (i : Nat) (c : spike_data_struct) :
    Option (Nat → spike_data_struct) :=
  if i < MAX_SPIKES + 3 then some (fun j => if j = i then c else spikes j) else none

/-- The value read by `*(unsigned long *)(&(c.time))`: `time` is the low half,
`spike` the high half. -/
def as_ulong (c : spike_data_struct) : Nat := c.time + UINT_MOD * c.spike

/-- The cell contents after `*(unsigned long *)(&(c.time)) = v`. -/
def of_ulong (v : Nat) : spike_data_struct :=
  { time := v % UINT_MOD, spike := v / UINT_MOD % UINT_MOD }

/-- The microsecond count `(unsigned long)t.tv_sec * 1000000L + (unsigned long)t.tv_usec`. -/
def usec_of (t : timeval) : Nat :=
  (to_ulong t.tv_sec * 1000000 + to_ulong t.tv_usec) % ULONG_MOD

/-- The C function `tt_time_diff`: `a - b` in microseconds, as `unsigned long`. -/
def tt_time_diff (a b : timeval) : Nat :=
  (usec_of a + (ULONG_MOD - usec_of b)) % ULONG_MOD

/-! ## The decoder `print_big_diff` -/

/-- The `for (ndx=0; ndx<*spike_ndx; ndx++)` loop of `print_big_diff`, entered at
index `ndx`. Each unit of fuel pays for one iteration. A cell whose two fields
are both zero makes the iteration read the gap from the next cell, print the
spike of the cell after it, and skip both (`ndx+=2`). The cell `ndx+2` is read
only inside the `printf`, that is only when `chatty > 0`. -/
def print_big_diff_loop (chatty : Nat) : Nat → Nat → State → Option State
  | 0, ndx, st => if ndx < st.spike_ndx then none else some st
  | fuel + 1, ndx, st =>
    if ndx < st.spike_ndx then
      match load st.spikes ndx with
      | none => none
      | some c =>
        if as_ulong c = 0 then
          match load st.spikes (ndx + 1) with
          | none => none
          | some c1 =>
            let this_time := as_ulong c1
            let cumulative1 := (st.cumulative + this_time) % ULONG_MOD
            if 0 < chatty then
              match load st.spikes (ndx + 2) with
              | none => none
              | some c2 =>
                print_big_diff_loop chatty fuel (ndx + 2 + 1)
                  { st with
                    cumulative := cumulative1
                    drained := st.drained ++ [this_time]
                    out := st.out ++
                      [{ cumulative := cumulative1, spike := c2.spike, this_time := this_time }] }
            else
              print_big_diff_loop chatty fuel (ndx + 2 + 1)
                { st with cumulative := cumulative1, drained := st.drained ++ [this_time] }
        else
          let this_time := c.time
          let cumulative1 := (st.cumulative + this_time) % ULONG_MOD
          if 0 < chatty then
            print_big_diff_loop chatty fuel (ndx + 1)
              { st with
                cumulative := cumulative1
                drained := st.drained ++ [this_time]
                out := st.out ++
                  [{ cumulative := cumulative1, spike := c.spike, this_time := this_time }] }
          else
            print_big_diff_loop chatty fuel (ndx + 1)
              { st with cumulative := cumulative1, drained := st.drained ++ [this_time] }
    else some st

/-- The C function `print_big_diff`: decode the cells below the cursor, add every
decoded gap to `cumulative`, print one line per decoded record when `chatty > 0`,
and set the cursor to 0. The loop needs at most `spike_ndx` iterations. -/
def print_big_diff (chatty : Nat) (st : State) : Option State :=
  match print_big_diff_loop chatty st.spike_ndx 0 st with
  | none => none
  | some st1 => some { st1 with spike_ndx := 0, drains := st1.drains + 1 }

/-! ## The encoder `process_big_diff` -/

/-- The three cell writes of the escape branch of `process_big_diff` at cursor `i`. -/
def store_escape (spikes : Nat → spike_data_struct) (i gap diff : Nat) :
    Option (Nat → spike_data_struct) :=
  match store spikes i { time := 0, spike := 0 } with
  | none => none
  | some s1 =>
    match store s1 (i + 1) (of_ulong gap) with
    | none => none
    | some s2 => store s2 (i + 2) { time := 0xdeaddead, spike := to_uint diff }

/-- The cell writes and cursor update of `process_big_diff` (the `if`/`else` on
`gap==(gap & 0xffffffffL)` followed by `(*spike_ndx)++`). -/
def append_cells (spikes : Nat → spike_data_struct) (spike_ndx gap diff : Nat) :
    Option ((Nat → spike_data_struct) × Nat) :=
  if gap = gap &&& 0xffffffff then
    match store spikes spike_ndx { time := to_uint gap, spike := to_uint diff } with
    | none => none
    | some s1 => some (s1, spike_ndx + 1)
  else
    match store_escape spikes spike_ndx gap diff with
    | none => none
    | some s3 => some (s3, spike_ndx + 2 + 1)

/-- The C function `process_big_diff`: compute the gap since `last_spike_time`,
write the record at the cursor, drain the buffer through `print_big_diff` when the
cursor has reached `MAX_SPIKES`, and set `last_spike_time` to `t_stamp`. -/
def process_big_diff (chatty : Nat) (t_stamp : timeval) (st : State) (diff : Nat) :
    Option State :=
  let gap := (usec_of t_stamp + (ULONG_MOD - usec_of st.last_spike_time)) % ULONG_MOD
  match append_cells st.spikes st.spike_ndx gap diff with
  | none => none
  | some (s1, ndx1) =>
    let st1 : State := { st with spikes := s1, spike_ndx := ndx1 }
    if ndx1 ≥ MAX_SPIKES then
      match print_big_diff chatty st1 with
      | none => none
      | some st2 => some { st2 with last_spike_time := t_stamp }
    else
      some { st1 with last_spike_time := t_stamp }

/-- Rows printed between state `st` and a later state `st1`, as (gap, magnitude) pairs. -/
def new_records (st st1 : State) : List (Nat × Nat) :=
  (st1.out.drop st.out.length).map (fun r => (r.this_time, r.spike))

/-- Encode then decode: `process_big_diff` on `st`, then `print_big_diff`, returning
the (gap, magnitude) pairs of the rows printed by the drain. -/
def round_trip (chatty : Nat) (t_stamp : timeval) (st : State) (diff : Nat) :
    Option (List (Nat × Nat)) :=
  match process_big_diff chatty t_stamp st diff with
  | none => none
  | some st1 =>
    match print_big_diff chatty st1 with
    | none => none
    | some st2 => some (new_records st st2)

/-- A state with cursor 0, nothing printed and `cumulative = 0`, over arbitrary
cell contents and an arbitrary `last_spike_time`. -/
def fresh (spikes : Nat → spike_data_struct) (last_spike_time : timeval) : State :=
  { spikes := spikes, spike_ndx := 0, cumulative := 0, out := [],
    last_spike_time := last_spike_time, drained := [], drains := 0 }

/-- The buffer as it is when `main` reaches the sampling loops: the pre-touch loop
has set `spikes[ndx].time = 42` for `ndx < MAX_SPIKES`; everything else is zero. -/
def touched : Nat → spike_data_struct :=
  fun i => if i < MAX_SPIKES then { time := 42, spike := 0 } else { time := 0, spike := 0 }

/-- A timestamp `usec` microseconds after the epoch, normalised. -/
def stamp (usec : Nat) : timeval :=
  { tv_sec := (usec / 1000000 : Nat), tv_usec := (usec % 1000000 : Nat) }

/-! ## Record layout and decoding effects used in the statements -/

/-- The cells one record occupies: one cell when the gap fits in 32 bits, else the
marker cell, the cell holding the 64-bit gap, and the cell holding the spike. -/
def encode (gap spike : Nat) : List spike_data_struct :=
  if gap < UINT_MOD then [{ time := gap, spike := spike }]
  else [{ time := 0, spike := 0 }, of_ulong gap, { time := 0xdeaddead, spike := spike }]

/-- The cells a list of records occupies. -/
def encode_all : List (Nat × Nat) → List spike_data_struct
  | [] => []
  | r :: rs => encode r.1 r.2 ++ encode_all rs

/-- The buffer `s` with the cells `cs` written from index `i` on. -/
def write_cells (s : Nat → spike_data_struct) : Nat → List spike_data_struct →
    Nat → spike_data_struct
  | _, [] => s
  | i, c :: cs => write_cells (fun j => if j = i then c else s j) (i + 1) cs

/-- The buffer `s` holds the cells `cs` from index `i` on. -/
def holds (s : Nat → spike_data_struct) : Nat → List spike_data_struct → Prop
  | _, [] => True
  | i, c :: cs => s i = c ∧ holds s (i + 1) cs

/-- The effect of one loop iteration of `print_big_diff` on the state: add
`this_time` to `cumulative`, log it, and print a line when `chatty > 0`. -/
def emit (chatty : Nat) (st : State) (this_time spike : Nat) : State :=
  { st with
    cumulative := (st.cumulative + this_time) % ULONG_MOD
    drained := st.drained ++ [this_time]
    out := if 0 < chatty then
        st.out ++ [{ cumulative := (st.cumulative + this_time) % ULONG_MOD,
                     spike := spike, this_time := this_time }]
      else st.out }

/-- The effect of decoding a list of records in order. -/
def emit_all (chatty : Nat) : State → List (Nat × Nat) → State
  | st, [] => st
  | st, r :: rs => emit_all chatty (emit chatty st r.1 r.2) rs

/-- A stored record that the decoder reads back as itself: the gap is a 64-bit
value and the pair is not the marker `(0, 0)`. -/
def decodable (r : Nat × Nat) : Prop := r.1 < ULONG_MOD ∧ ¬ (r.1 = 0 ∧ r.2 = 0)

/-- The state after the cell writes of `process_big_diff`, before the drain test. -/
def appended (st : State) (gap diff : Nat) : State :=
  { st with
    spikes := write_cells st.spikes st.spike_ndx (encode gap (to_uint diff))
    spike_ndx := st.spike_ndx + (encode gap (to_uint diff)).length }

/-! ## Sequences of calls on the buffer -/

/-- One call made on the buffer: an append by `process_big_diff` or a drain by
`print_big_diff`, each with the verbosity `chatty` in force at the call. -/
inductive Op where
  | append (chatty : Nat) (t_stamp : timeval) (diff : Nat)
  | drain (chatty : Nat)

/-- The effect of one call. -/
def step (st : State) : Op → Option State
  | Op.append chatty t_stamp diff => process_big_diff chatty t_stamp st diff
  | Op.drain chatty => print_big_diff chatty st

/-- The effect of a sequence of calls, in order. -/
def run : State → List Op → Option State
  | st, [] => some st
  | st, op :: ops =>
    match step st op with
    | none => none
    | some st1 => run st1 ops

/-- A sequence of spikes, each given by its timestamp and its `diff`, appended by
successive calls of `process_big_diff`. -/
def appends (chatty : Nat) (st : State) (events : List (timeval × Nat)) : Option State :=
  run st (events.map (fun e => Op.append chatty e.1 e.2))

/-- The records a sequence of spikes is stored as: each gap is measured from the
timestamp of the spike before (from `last` for the first), each magnitude is
converted to the 32-bit field. -/
def records_of (last : timeval) : List (timeval × Nat) → List (Nat × Nat)
  | [] => []
  | e :: es => (tt_time_diff e.1 last, to_uint e.2) :: records_of e.1 es

/-- The value of `last_spike_time` after a sequence of spikes. -/
def last_of (last : timeval) : List (timeval × Nat) → timeval
  | [] => last
  | e :: es => last_of e.1 es

/-- The lines printed for a list of decoded records, starting from the clock value
`cumulative`. -/
def rows_of (cumulative : Nat) : List (Nat × Nat) → List Row
  | [] => []
  | r :: rs =>
    { cumulative := (cumulative + r.1) % ULONG_MOD, spike := r.2, this_time := r.1 } ::
      rows_of ((cumulative + r.1) % ULONG_MOD) rs

/-! ## The sampling loops of `main` -/

/-- The value of `count-1` for an `unsigned long` `count`: the subtraction wraps at 0. -/
def dec_ulong (count : Nat) : Nat := (count + (ULONG_MOD - 1)) % ULONG_MOD

/-- Element `i % 2` of a two-element array. -/
def get2 {α : Type} (a : α × α) (i : Nat) : α := if i % 2 = 0 then a.1 else a.2

/-- A two-element array after the assignment of `v` to element `i % 2`. -/
def set2 {α : Type} (a : α × α) (i : Nat) (v : α) : α × α :=
  if i % 2 = 0 then (v, a.2) else (a.1, v)

/-- The variables of `main` that the sampling loops read and write. The counters
`wall_ndx` and `cycle_ndx` count the calls made so far to the wall clock and to the
cycle counter. -/
structure Main where
  st : State
  wall_ndx : Nat
  cycle_ndx : Nat
  t_stamps : timeval × timeval
  temp_stamp : timeval
  spike_time : timeval
  cycle_stamp : Nat × Nat
  min_spike : Nat
  overhead_seconds : timeval
  overhead_cycles : Nat

/-- The C function `tt_gettime` (non-`FAKE` build): the `n`-th call of `gettimeofday`
returns `wall n`; when the call fails (`none`) the function only reports the error
and the destination keeps its previous contents. -/
def tt_gettime (wall : Nat → Option timeval) (n : Nat) (old : timeval) : timeval :=
  match wall n with
  | some t => t
  | none => old

/-- The C functions `get_cycles` and `get_cycles_p`: the `n`-th read of the cycle
counter, an `unsigned long`. -/
def get_cycles (cycles : Nat → Nat) (n : Nat) : Nat := cycles n % ULONG_MOD

/-- The overhead bookkeeping of the time loop: add `temp_stamp - t` to
`overhead_seconds`, with the borrow and carry adjustments of the source. -/
def add_overhead (overhead_seconds temp_stamp t : timeval) : timeval :=
  let sec1 := overhead_seconds.tv_sec + temp_stamp.tv_sec
  let usec1 := overhead_seconds.tv_usec + temp_stamp.tv_usec
  let sec2 := sec1 - t.tv_sec
  let sec3 := if t.tv_usec > usec1 then sec2 - 1 else sec2
  let usec3 := if t.tv_usec > usec1 then usec1 + 1000000 else usec1
  let usec4 := usec3 - t.tv_usec
  if usec4 ≥ 1000000 then { tv_sec := sec3 + 1, tv_usec := usec4 - 1000000 }
  else { tv_sec := sec3, tv_usec := usec4 }

/-- The value of `diff` in iteration `count` of the time loop:
`tt_time_diff(&t_stamps[count%2], &t_stamps[(count-1)%2])` after the new sample has
been stored in `t_stamps[count%2]`. -/
def time_delta (wall : Nat → Option timeval) (m : Main) (count : Nat) : Nat :=
  tt_time_diff
    (get2 (set2 m.t_stamps count (tt_gettime wall m.wall_ndx (get2 m.t_stamps count))) count)
    (get2 (set2 m.t_stamps count (tt_gettime wall m.wall_ndx (get2 m.t_stamps count)))
      (dec_ulong count))

/-- One iteration of the time-method loop of `main` (the body of
`for (count = 1; count <= loopcount; count++)`). -/
def time_iteration (wall : Nat → Option timeval) (chatty threshold : Nat) (count : Nat)
    (m : Main) : Option Main :=
  let t := tt_gettime wall m.wall_ndx (get2 m.t_stamps count)
  let t_stamps1 := set2 m.t_stamps count t
  let diff := tt_time_diff (get2 t_stamps1 count) (get2 t_stamps1 (dec_ulong count))
  if diff ≥ threshold then
    match process_big_diff chatty (get2 t_stamps1 count) m.st diff with
    | none => none
    | some st1 =>
      let temp_stamp := tt_gettime wall (m.wall_ndx + 1) m.temp_stamp
      some { m with
        st := st1
        wall_ndx := m.wall_ndx + 2
        temp_stamp := temp_stamp
        overhead_seconds := add_overhead m.overhead_seconds temp_stamp (get2 t_stamps1 count)
        t_stamps := set2 t_stamps1 count temp_stamp }
  else
    some { m with
      wall_ndx := m.wall_ndx + 1
      t_stamps := t_stamps1
      min_spike := if diff < m.min_spike then diff else m.min_spike }

/-- The value of `diff` in iteration `count` of either cycle loop:
`cycle_stamp[count%2] - cycle_stamp[(count-1)%2]` after the new read. -/
def cycle_delta (cycles : Nat → Nat) (m : Main) (count : Nat) : Nat :=
  (get2 (set2 m.cycle_stamp count (get_cycles cycles m.cycle_ndx)) count +
    (ULONG_MOD - get2 (set2 m.cycle_stamp count (get_cycles cycles m.cycle_ndx)) (dec_ulong count)))
    % ULONG_MOD

/-- One iteration of the cycle-method loop of `main` without the power-hog option. -/
def cycle_iteration (wall : Nat → Option timeval) (cycles : Nat → Nat)
    (chatty threshold : Nat) (count : Nat) (m : Main) : Option Main :=
  let cycle_stamp1 := set2 m.cycle_stamp count (get_cycles cycles m.cycle_ndx)
  let diff := (get2 cycle_stamp1 count + (ULONG_MOD - get2 cycle_stamp1 (dec_ulong count))) % ULONG_MOD
  if diff ≥ threshold then
    let spike_time := tt_gettime wall m.wall_ndx m.spike_time
    match process_big_diff chatty spike_time m.st diff with
    | none => none
    | some st1 =>
      let temp_cycles := get_cycles cycles (m.cycle_ndx + 1)
      some { m with
        st := st1
        wall_ndx := m.wall_ndx + 1
        cycle_ndx := m.cycle_ndx + 2
        spike_time := spike_time
        overhead_cycles :=
          (m.overhead_cycles + (temp_cycles + (ULONG_MOD - get2 cycle_stamp1 count)) % ULONG_MOD)
            % ULONG_MOD
        cycle_stamp := set2 cycle_stamp1 count temp_cycles }
  else
    some { m with
      cycle_ndx := m.cycle_ndx + 1
      cycle_stamp := cycle_stamp1
      min_spike := if diff < m.min_spike then diff else m.min_spike }

/-- One iteration of the cycle-method loop of `main` with the power-hog option
(the arithmetic workload is commented out in the source; `never` is 0). -/
def power_hog_iteration (wall : Nat → Option timeval) (cycles : Nat → Nat)
    (chatty threshold : Nat) (count : Nat) (m : Main) : Option Main :=
  let cycle_stamp1 := set2 m.cycle_stamp count (get_cycles cycles m.cycle_ndx)
  let diff := (get2 cycle_stamp1 count + (ULONG_MOD - get2 cycle_stamp1 (dec_ulong count))) % ULONG_MOD
  if diff ≥ threshold then
    let spike_time := tt_gettime wall m.wall_ndx m.spike_time
    match process_big_diff chatty spike_time m.st diff with
    | none => none
    | some st1 =>
      some { m with
        st := st1
        wall_ndx := m.wall_ndx + 1
        cycle_ndx := m.cycle_ndx + 2
        spike_time := spike_time
        cycle_stamp := set2 cycle_stamp1 count (get_cycles cycles (m.cycle_ndx + 1)) }
  else
    some { m with
      cycle_ndx := m.cycle_ndx + 1
      cycle_stamp := cycle_stamp1
      min_spike := if diff < m.min_spike then diff else m.min_spike }

/-- The variables as a pass of `main` has them when its loop starts with start
timestamp `t0` and first cycle read `c0`: `last_spike_time` and `t_stamps[0]` hold
`t0`, `cycle_stamp[0]` holds `c0`, the buffer is empty, `min_spike` is `ULONG_MAX` and
the overhead accumulators are 0. The array elements and temporaries that C leaves
uninitialised are given the same start values. -/
def main_at (t0 : timeval) (c0 : Nat) : Main :=
  { st := fresh touched t0
    wall_ndx := 0
    cycle_ndx := 0
    t_stamps := (t0, t0)
    temp_stamp := t0
    spike_time := t0
    cycle_stamp := (c0, c0)
    min_spike := ULONG_MAX
    overhead_seconds := { tv_sec := 0, tv_usec := 0 }
    overhead_cycles := 0 }

/-- A wall clock that returns the listed microsecond counts, one per call, and fails
once the list is used up. -/
def wall_of (usecs : List Nat) : Nat → Option timeval :=
  fun n => (usecs[n]?).map stamp

/-- A cycle counter that returns the listed values, one per read, and 0 afterwards. -/
def cycles_of (values : List Nat) : Nat → Nat :=
  fun n => values.getD n 0

/-! ## The loops and the two passes of `main` -/

/-- The C constant `TIME_METHOD`. -/
def TIME_METHOD : Nat := 1

/-- The C constant `CYCLES_METHOD`. -/
def CYCLES_METHOD : Nat := 2

/-- The loop `for (count = 1; count <= loopcount; count++) body`, entered at `count`;
`count` is an `unsigned long`, so the increment wraps. Each unit of fuel pays for one
iteration; with no fuel left and the loop condition still true there is no result. -/
def loop_from (body : Nat → Main → Option Main) (loopcount : Nat) :
    Nat → Nat → Main → Option Main
  | 0, count, m => if count ≤ loopcount then none else some m
  | fuel + 1, count, m =>
    if count ≤ loopcount then
      match body count m with
      | none => none
      | some m1 => loop_from body loopcount fuel ((count + 1) % ULONG_MOD) m1
    else some m

/-- The loop `for (count = 1; count <= loopcount; count++) body` with fuel for
`loopcount` iterations. -/
def for_loop (body : Nat → Main → Option Main) (loopcount : Nat) (m : Main) : Option Main :=
  loop_from body loopcount loopcount 1 m

/-- The values of `diff` computed by the successive iterations of a loop, in order;
`delta m count` is the value iteration `count` computes when entered in state `m`. -/
def loop_deltas (delta : Main → Nat → Nat) (body : Nat → Main → Option Main)
    (loopcount : Nat) : Nat → Nat → Main → List Nat
  | 0, _, _ => []
  | fuel + 1, count, m =>
    if count ≤ loopcount then
      delta m count ::
        (match body count m with
         | none => []
         | some m1 => loop_deltas delta body loopcount fuel ((count + 1) % ULONG_MOD) m1)
    else []

/-- The time-method branch of a pass: `t_stamps[0]=t0_stamp` and the sampling loop. -/
def time_pass (wall : Nat → Option timeval) (chatty threshold loopcount : Nat)
    (t0_stamp : timeval) (m : Main) : Option Main :=
  for_loop (time_iteration wall chatty threshold) loopcount
    { m with t_stamps := set2 m.t_stamps 0 t0_stamp }

/-- One iteration of the loop that gets an initial value for `min_spike` under the
cycle method (1024 iterations): read the counter, lower `min_spike` to the delta. -/
def min_spike_iteration (cycles : Nat → Nat) (count : Nat) (m : Main) : Option Main :=
  let cycle_stamp1 := set2 m.cycle_stamp count (get_cycles cycles m.cycle_ndx)
  let diff := (get2 cycle_stamp1 count + (ULONG_MOD - get2 cycle_stamp1 (dec_ulong count))) % ULONG_MOD
  some { m with
    cycle_ndx := m.cycle_ndx + 1
    cycle_stamp := cycle_stamp1
    min_spike := if diff < m.min_spike then diff else m.min_spike }

/-- The assignment `cycle_stamp[0]=get_cycles()` (or `get_cycles_p()`) made before
each of the cycle-method loops. -/
def read_cycle_stamp0 (cycles : Nat → Nat) (m : Main) : Main :=
  { m with
    cycle_stamp := set2 m.cycle_stamp 0 (get_cycles cycles m.cycle_ndx)
    cycle_ndx := m.cycle_ndx + 1 }

/-- The cycle-method loop proper of a pass, with or without the power-hog option:
`cycle_stamp[0]` is read, then the loop runs. -/
def cycle_loop (wall : Nat → Option timeval) (cycles : Nat → Nat) (power_hog : Bool)
    (chatty threshold loopcount : Nat) (m : Main) : Option Main :=
  if power_hog then
    for_loop (power_hog_iteration wall cycles chatty threshold) loopcount
      (read_cycle_stamp0 cycles m)
  else
    for_loop (cycle_iteration wall cycles chatty threshold) loopcount
      (read_cycle_stamp0 cycles m)

/-- The cycle-method branch of a pass: the 1024-iteration loop that gets an initial
value for `min_spike`, then the sampling loop. -/
def cycle_pass (wall : Nat → Option timeval) (cycles : Nat → Nat) (power_hog : Bool)
    (chatty threshold loopcount : Nat) (m : Main) : Option Main :=
  match for_loop (min_spike_iteration cycles) 1024 (read_cycle_stamp0 cycles m) with
  | none => none
  | some m1 => cycle_loop wall cycles power_hog chatty threshold loopcount m1

/-- The variables of `main` around the sampling loops: those of `Main`, the start
timestamp `t0_stamp`, the configuration in force and its saved copy, and `warm_up`. -/
structure Prog where
  vars : Main
  t0_stamp : timeval
  loopcount : Nat
  threshold : Nat
  chatty : Nat
  save_loopcount : Nat
  save_threshold : Nat
  save_chatty : Nat
  warm_up : Nat

/-- The `if ( warm_up == 1 ) ... else ...` block at the head of each pass: pass 1
saves the configuration and forces `loopcount = MAX_SPIKES`, `threshold = 0`,
`chatty = 0`; pass 2 restores it and zeroes `spike_ndx`, `overhead_seconds` and
`overhead_cycles`. -/
def warm_up_setup (p : Prog) : Prog :=
  if p.warm_up = 1 then
    { p with
      save_loopcount := p.loopcount
      save_threshold := p.threshold
      save_chatty := p.chatty
      loopcount := MAX_SPIKES
      threshold := 0
      chatty := 0 }
  else
    { p with
      loopcount := p.save_loopcount
      threshold := p.save_threshold
      chatty := p.save_chatty
      vars := { p.vars with
        st := { p.vars.st with spike_ndx := 0 }
        overhead_seconds := { tv_sec := 0, tv_usec := 0 }
        overhead_cycles := 0 } }

/-- The variables after the first two statements of a pass,
`tt_gettime (&t0_stamp); last_spike_time = t0_stamp;`. -/
def pass_entry (wall : Nat → Option timeval) (p : Prog) : Main :=
  { p.vars with
    wall_ndx := p.vars.wall_ndx + 1
    st := { p.vars.st with
      last_spike_time := tt_gettime wall p.vars.wall_ndx p.t0_stamp } }

/-- The rest of a pass after the setup block: read `t0_stamp`, set `last_spike_time`
to it, and run the loops of the method. -/
def pass (wall : Nat → Option timeval) (cycles : Nat → Nat) (method : Nat)
    (power_hog : Bool) (p : Prog) : Option Prog :=
  let t0_stamp := tt_gettime wall p.vars.wall_ndx p.t0_stamp
  match (if method = TIME_METHOD then
      time_pass wall p.chatty p.threshold p.loopcount t0_stamp (pass_entry wall p)
    else cycle_pass wall cycles power_hog p.chatty p.threshold p.loopcount
      (pass_entry wall p)) with
  | none => none
  | some m1 => some { p with vars := m1, t0_stamp := t0_stamp }

/-- The deltas seen by the loop that gets an initial value for `min_spike`, when a
cycle-method pass is entered with the variables `m`. -/
def init_deltas (cycles : Nat → Nat) (m : Main) : List Nat :=
  loop_deltas (cycle_delta cycles) (min_spike_iteration cycles) 1024 1024 1
    (read_cycle_stamp0 cycles m)

/-- The variables with `overhead_cycles` set aside, to compare two runs in everything
else. -/
def forget_overhead_cycles (m : Main) : Main := { m with overhead_cycles := 0 }

/-- The loop `while ( warm_up++ < 2 )` of `main`, each unit of fuel paying for one
pass. -/
def warm_up_loop (wall : Nat → Option timeval) (cycles : Nat → Nat) (method : Nat)
    (power_hog : Bool) : Nat → Prog → Option Prog
  | 0, p => if p.warm_up < 2 then none else some { p with warm_up := p.warm_up + 1 }
  | fuel + 1, p =>
    if p.warm_up < 2 then
      match pass wall cycles method power_hog
          (warm_up_setup { p with warm_up := p.warm_up + 1 }) with
      | none => none
      | some p1 => warm_up_loop wall cycles method power_hog fuel p1
    else some { p with warm_up := p.warm_up + 1 }

/-- The sampling part of `main`: `warm_up=0`, the two passes, and the drain of what
the buffer still holds (`if (spike_ndx>0) print_big_diff(...)`). -/
def sampling (wall : Nat → Option timeval) (cycles : Nat → Nat) (method : Nat)
    (power_hog : Bool) (p : Prog) : Option Prog :=
  match warm_up_loop wall cycles method power_hog 2 { p with warm_up := 0 } with
  | none => none
  | some p1 =>
    if p1.vars.st.spike_ndx > 0 then
      match print_big_diff p1.chatty p1.vars.st with
      | none => none
      | some st1 => some { p1 with vars := { p1.vars with st := st1 } }
    else some p1

/-- The state in which pass 1 runs: the setup block with `warm_up = 1`. -/
def pass1_start (p : Prog) : Prog := warm_up_setup { p with warm_up := 1 }

/-- The state in which pass 2 starts, from the state `p1` pass 1 ended in: the setup
block with `warm_up = 2`. -/
def pass2_start (p1 : Prog) : Prog := warm_up_setup { p1 with warm_up := 2 }

/-- The variables of `main` as its declarations initialise them, with the
configuration left by option parsing: empty buffer, `last_spike_time = {0,0}`,
`min_spike = ULONG_MAX`, overhead accumulators 0, saved configuration 0. What C
leaves uninitialised (`t0_stamp`, the stamp arrays) is zero here. -/
def prog_init (loopcount threshold chatty : Nat) : Prog :=
  { vars := main_at { tv_sec := 0, tv_usec := 0 } 0
    t0_stamp := { tv_sec := 0, tv_usec := 0 }
    loopcount := loopcount
    threshold := threshold
    chatty := chatty
    save_loopcount := 0
    save_threshold := 0
    save_chatty := 0
    warm_up := 0 }

/-- The synthetic samples of the `FAKE` build: the arrays `high` and `low`. -/
def fake_high : List Nat :=
  [1000, 1000, 1000, 1000, 1000, 1000, 1000, 1000, 1000, 1000, 1000, 1000, 1000, 1000,
   1000, 1000, 1000, 1000, 1000, 1001, 1001, 1001, 1002, 1002, 1002, 1002, 5296, 5296,
   5296, 5300, 5300, 5300]

/-- The array `low` of the `FAKE` build. -/
def fake_low : List Nat :=
  [1000, 1001, 1009, 1010, 1018, 1019, 1118, 1119, 1119, 1128, 1136, 1137, 1145, 1146,
   1154, 1155, 1300, 1301, 1302, 1309, 1309, 1310, 1310, 1319, 1328, 1337, 968632,
   968633, 968634, 1311, 1311, 1312]

/-- The C constant `FAKE_SAMPLE_COUNT`. -/
def FAKE_SAMPLE_COUNT : Nat := 32

/-- The wall clock of the `FAKE` build of `tt_gettime`: call `n` returns the sample
at `fake_data_ndx`, which starts at 0 and is incremented after each call while it is
below `FAKE_SAMPLE_COUNT - 1`. -/
def fake_wall : Nat → Option timeval :=
  fun n =>
    let fake_data_ndx := if n < FAKE_SAMPLE_COUNT - 1 then n else FAKE_SAMPLE_COUNT - 1
    some { tv_sec := ((fake_high.getD fake_data_ndx 0 +
                       (fake_low.getD fake_data_ndx 0 >>> 32) : Nat) : Int)
           tv_usec := ((fake_low.getD fake_data_ndx 0 &&& 0xffffffff : Nat) : Int) }

/-- A value that a C `long` (signed 64-bit) can hold. -/
def in_long (x : Int) : Prop := -(2 ^ 63 : Int) ≤ x ∧ x < (2 ^ 63 : Int)

/-- The values the fields of `overhead_seconds` take, statement by statement, during
the overhead bookkeeping of the time loop (the same statements as `add_overhead`). -/
def overhead_steps (overhead_seconds temp_stamp t : timeval) : List Int :=
  let sec1 := overhead_seconds.tv_sec + temp_stamp.tv_sec
  let usec1 := overhead_seconds.tv_usec + temp_stamp.tv_usec
  let sec2 := sec1 - t.tv_sec
  let sec3 := if t.tv_usec > usec1 then sec2 - 1 else sec2
  let usec3 := if t.tv_usec > usec1 then usec1 + 1000000 else usec1
  let usec4 := usec3 - t.tv_usec
  [sec1, usec1, sec2, sec3, usec3, usec4,
    (add_overhead overhead_seconds temp_stamp t).tv_sec,
    (add_overhead overhead_seconds temp_stamp t).tv_usec]

/-! ## Parsing of the `--priority` option -/

/-- The C library predicate `isspace` in the "C" locale: space and the control
characters 9 to 13. -/
def isspace (c : Char) : Bool := c.toNat = 32 || (9 ≤ c.toNat && c.toNat ≤ 13)

/-- The string without its leading white space. -/
def skip_space : List Char → List Char
  | [] => []
  | c :: cs => if isspace c then skip_space cs else c :: cs

/-- The value of the leading decimal digits of a string, continuing from `acc`. -/
def digit_run : List Char → Nat → Nat
  | [], acc => acc
  | c :: cs, acc =>
    if 48 ≤ c.toNat ∧ c.toNat ≤ 57 then digit_run cs (acc * 10 + (c.toNat - 48)) else acc

/-- The C constant `LONG_MAX`. -/
def LONG_MAX : Int := 2 ^ 63 - 1

/-- The C constant `LONG_MIN`. -/
def LONG_MIN : Int := -(2 ^ 63)

/-- The C library function `strtol(nptr, endptr, 10)` called with a null `endptr`:
white space, an optional sign, the decimal digits that follow, the value clamped to the
range of `long`; 0 when there is no digit. -/
def strtol (nptr : List Char) : Int :=
  match skip_space nptr with
  | [] => 0
  | c :: cs =>
    if c.toNat = 45 then max LONG_MIN (-(digit_run cs 0 : Int))
    else if c.toNat = 43 then min LONG_MAX (digit_run cs 0 : Int)
    else min LONG_MAX (digit_run (c :: cs) 0 : Int)

/-- The conversion of a `long` to `int` done by an assignment: the value modulo `2^32`
in the signed range. -/
def to_int (x : Int) : Int := (x + 2 ^ 31) % 2 ^ 32 - 2 ^ 31

/-- The C function `parse_priority`: the return value `rv` and the value stored in
`*priority_value`. The local `endptr` is a null pointer (`none`), passed as such to
`strtol` and then compared with `'\0'`, that is with 0. -/
def parse_priority (priority_string : List Char) : Int × Int :=
  let rv : Int := 0
  let endptr : Option Nat := none
  let priority_value := to_int (strtol priority_string)
  let rv := if endptr ≠ none then 1 else rv
  (rv, priority_value)

/-- The C function `parse_nice`, the same code as `parse_priority`. -/
def parse_nice (nice_string : List Char) : Int × Int :=
  let rv : Int := 0
  let endptr : Option Nat := none
  let nice_value := to_int (strtol nice_string)
  let rv := if endptr ≠ none then 1 else rv
  (rv, nice_value)

/-- The C constant `MAX_NICE`. -/
def MAX_NICE : Int := 19

/-- The C constant `MIN_NICE`. -/
def MIN_NICE : Int := -20

/-- The branch of the `-p` option that handles a non-empty priority field: the message
printed to `stderr` before `exit (0)`, or the value left in `requested_priority`. -/
def priority_field (priorityp : List Char) : Except String Int :=
  if (parse_priority priorityp).1 ≠ 0 then
    Except.error "illegal value for priority; specify an integer value"
  else Except.ok (parse_priority priorityp).2

/-- The branch of the `-p` option that handles a non-empty nice field: the message
printed to `stderr` before `exit (0)`, or the value left in `requested_nice` after the
clamping to `MIN_NICE .. MAX_NICE`. -/
def nice_field (nicep : List Char) : Except String Int :=
  if (parse_nice nicep).1 ≠ 0 then
    Except.error "illegal value for nice; specify an integer value"
  else if (parse_nice nicep).2 > MAX_NICE then Except.ok MAX_NICE
  else if (parse_nice nicep).2 < MIN_NICE then Except.ok MIN_NICE
  else Except.ok (parse_nice nicep).2

/-! ## The calls of `process_big_diff` made by a loop -/

/-- The timestamp an iteration of the time loop passes to `process_big_diff`:
`t_stamps[count%2]` after the read of the iteration. -/
def time_stamp_of (wall : Nat → Option timeval) (m : Main) (count : Nat) : timeval :=
  tt_gettime wall m.wall_ndx (get2 m.t_stamps count)

/-- The timestamp an iteration of a cycle loop passes to `process_big_diff`:
`spike_time` after `tt_gettime(&spike_time)`. -/
def cycle_stamp_of (wall : Nat → Option timeval) (m : Main) (_count : Nat) : timeval :=
  tt_gettime wall m.wall_ndx m.spike_time

/-- The calls of `process_big_diff` made by the successive iterations of a loop, in
order: for each iteration whose delta reaches the threshold, the timestamp passed, the
gap `tt_time_diff(t_stamp, last_spike_time)` the call computes from the
`last_spike_time` it finds, and the delta passed. -/
def loop_spikes (stamp_of : Main → Nat → timeval) (delta : Main → Nat → Nat)
    (threshold : Nat) (body : Nat → Main → Option Main) (loopcount : Nat) :
    Nat → Nat → Main → List (timeval × Nat × Nat)
  | 0, _, _ => []
  | fuel + 1, count, m =>
    if count ≤ loopcount then
      (if threshold ≤ delta m count then
          [(stamp_of m count,
            tt_time_diff (stamp_of m count) m.st.last_spike_time, delta m count)]
        else []) ++
        (match body count m with
         | none => []
         | some m1 =>
           loop_spikes stamp_of delta threshold body loopcount fuel
             ((count + 1) % ULONG_MOD) m1)
    else []

/-- The body of the sampling loop of a pass, by method and option. -/
def sampling_body (wall : Nat → Option timeval) (cycles : Nat → Nat) (method : Nat)
    (power_hog : Bool) (chatty threshold : Nat) : Nat → Main → Option Main :=
  if method = TIME_METHOD then time_iteration wall chatty threshold
  else if power_hog then power_hog_iteration wall cycles chatty threshold
  else cycle_iteration wall cycles chatty threshold

/-- The delta computed by an iteration of the sampling loop of a pass. -/
def sampling_delta (wall : Nat → Option timeval) (cycles : Nat → Nat) (method : Nat) :
    Main → Nat → Nat :=
  if method = TIME_METHOD then time_delta wall else cycle_delta cycles

/-- The timestamp an iteration of the sampling loop of a pass passes to
`process_big_diff`. -/
def sampling_stamp_of (wall : Nat → Option timeval) (method : Nat) :
    Main → Nat → timeval :=
  if method = TIME_METHOD then time_stamp_of wall else cycle_stamp_of wall

/-- The variables with which the sampling loop of a pass is entered: under the time
method after `t_stamps[0]=t0_stamp`, under the cycle method after the loop that gets an
initial value for `min_spike` and the read of `cycle_stamp[0]`. -/
def sampling_entry (wall : Nat → Option timeval) (cycles : Nat → Nat) (method : Nat)
    (p : Prog) : Option Main :=
  if method = TIME_METHOD then
    some { pass_entry wall p with
      t_stamps := set2 (pass_entry wall p).t_stamps 0
        (tt_gettime wall p.vars.wall_ndx p.t0_stamp) }
  else
    (for_loop (min_spike_iteration cycles) 1024
      (read_cycle_stamp0 cycles (pass_entry wall p))).map (read_cycle_stamp0 cycles)

/-- The deltas computed by the iterations of the sampling loop of a pass, in order. -/
def pass_deltas (wall : Nat → Option timeval) (cycles : Nat → Nat) (method : Nat)
    (power_hog : Bool) (p : Prog) : List Nat :=
  match sampling_entry wall cycles method p with
  | none => []
  | some m =>
    loop_deltas (sampling_delta wall cycles method)
      (sampling_body wall cycles method power_hog p.chatty p.threshold)
      p.loopcount p.loopcount 1 m

/-- The calls of `process_big_diff` made by the sampling loop of a pass, in order. -/
def pass_spikes (wall : Nat → Option timeval) (cycles : Nat → Nat) (method : Nat)
    (power_hog : Bool) (p : Prog) : List (timeval × Nat × Nat) :=
  match sampling_entry wall cycles method p with
  | none => []
  | some m =>
    loop_spikes (sampling_stamp_of wall method) (sampling_delta wall cycles method)
      p.threshold (sampling_body wall cycles method power_hog p.chatty p.threshold)
      p.loopcount p.loopcount 1 m

/-- The relation between the baseline of iteration `count` of the time loop,
`t_stamps[(count-1)%2]`, and `last_spike_time` on a wall clock `w` that never fails: the
baseline is at or after `last_spike_time`, and it is a sample already read. -/
def baseline_after_last (w : Nat → timeval) (count : Nat) (m : Main) : Prop :=
  usec_of m.st.last_spike_time ≤ usec_of (get2 m.t_stamps (dec_ulong count)) ∧
  ∃ k, k < m.wall_ndx ∧ get2 m.t_stamps (dec_ulong count) = w k

/-- The bookkeeping of the logical records of a run, in the words of the specification:
the records in the buffer (`pending`), the records drained so far, in the order in which
their spikes were detected, each with whether its drain was made at verbosity above 0,
and the timestamp of the last spike. A record is the pair of the gap measured when the
spike was appended and the magnitude as stored, modulo `2^32`. -/
structure Ledger where
  pending : List (Nat × Nat)
  drained : List ((Nat × Nat) × Bool)
  last : timeval

/-- A drain of the records `recs` at verbosity `chatty`: they leave the buffer. -/
def ledger_flush (l : Ledger) (chatty : Nat) (recs : List (Nat × Nat)) (last : timeval) :
    Ledger :=
  { pending := []
    drained := l.drained ++ recs.map (fun r => (r, decide (0 < chatty)))
    last := last }

/-- The effect of one call on the bookkeeping: an append adds the record of the spike,
with the gap measured from the last spike, and drains the buffer when its cells reach
the flush threshold `MAX_SPIKES`; a drain empties the buffer. -/
def ledger_step (l : Ledger) : Op → Ledger
  | Op.append chatty t_stamp diff =>
    if MAX_SPIKES ≤
        (encode_all (l.pending ++ [(tt_time_diff t_stamp l.last, to_uint diff)])).length then
      ledger_flush l chatty (l.pending ++ [(tt_time_diff t_stamp l.last, to_uint diff)])
        t_stamp
    else
      { l with
        pending := l.pending ++ [(tt_time_diff t_stamp l.last, to_uint diff)]
        last := t_stamp }
  | Op.drain chatty => ledger_flush l chatty l.pending l.last

/-- The bookkeeping after a sequence of calls. -/
def ledger_run : Ledger → List Op → Ledger
  | l, [] => l
  | l, op :: ops => ledger_run (ledger_step l op) ops

/-- The bookkeeping of an empty buffer whose last spike was at `last`. -/
def ledger_start (last : timeval) : Ledger := { pending := [], drained := [], last := last }

/-- The records of the spikes appended by a sequence of calls, in the order in which
the spikes were detected: each gap is measured from the timestamp of the spike before
(from `last` for the first). -/
def appended_records : timeval → List Op → List (Nat × Nat)
  | _, [] => []
  | last, Op.append _ t_stamp diff :: ops =>
    (tt_time_diff t_stamp last, to_uint diff) :: appended_records t_stamp ops
  | last, Op.drain _ :: ops => appended_records last ops

/-- The clock after the gaps of a list of drained records have been added to the clock
value `c`, one after the other, each addition wrapping at `2^64`. -/
def clock_after : Nat → List ((Nat × Nat) × Bool) → Nat
  | c, [] => c
  | c, d :: ds => clock_after ((c + d.1.1) % ULONG_MOD) ds

/-- The lines printed for a list of drained records starting from the clock value `c`:
every record adds its gap to the clock, and a record drained at verbosity above 0 gets
one line with the clock value reached, its magnitude and its gap. -/
def printed_rows : Nat → List ((Nat × Nat) × Bool) → List Row
  | _, [] => []
  | c, d :: ds =>
    (if d.2 then
        [{ cumulative := (c + d.1.1) % ULONG_MOD, spike := d.1.2, this_time := d.1.1 }]
      else []) ++ printed_rows ((c + d.1.1) % ULONG_MOD) ds

/-- The state `st` of the program agrees with the bookkeeping `l` of a run that started
with the clock at `c0` and the printed lines `out0`: the cells below the cursor are the
encoding of the pending records, none of which is stored as the marker; the clock and
the printed lines are those of the drained records. -/
def tracked (c0 : Nat) (out0 : List Row) (l : Ledger) (st : State) : Prop :=
  holds st.spikes 0 (encode_all l.pending) ∧
  st.spike_ndx = (encode_all l.pending).length ∧ st.spike_ndx < MAX_SPIKES ∧
  (∀ r ∈ l.pending, decodable r) ∧ st.last_spike_time = l.last ∧
  st.cumulative = clock_after c0 l.drained ∧ st.out = out0 ++ printed_rows c0 l.drained

/-- The gaps of the records drained by a sequence of calls on an empty buffer whose last
spike was at `last`, in the order in which the spikes were detected. -/
def drained_gaps (last : timeval) (ops : List Op) : List Nat :=
  (ledger_run (ledger_start last) ops).drained.map (fun d => d.1.1)

theorem ulong_mod_pos : 0 < ULONG_MOD := by unfold ULONG_MOD; norm_num

theorem uint_mod_pos : 0 < UINT_MOD := by unfold UINT_MOD; norm_num

theorem ulong_mod_eq : ULONG_MOD = UINT_MOD * UINT_MOD := by
  unfold ULONG_MOD UINT_MOD; norm_num

theorem usec_of_lt (t : timeval) : usec_of t < ULONG_MOD :=
  Nat.mod_lt _ ulong_mod_pos

theorem tt_time_diff_lt (a b : timeval) : tt_time_diff a b < ULONG_MOD :=
  Nat.mod_lt _ ulong_mod_pos

/-- The test `gap==(gap & 0xffffffffL)` succeeds exactly when `gap` fits in 32 bits. -/
theorem fits_iff (g : Nat) : g = g &&& 0xffffffff ↔ g < UINT_MOD := by
  have h : (0xffffffff : Nat) = 2 ^ 32 - 1 := by norm_num
  rw [h, Nat.and_pow_two_sub_one_eq_mod]
  unfold UINT_MOD
  constructor
  · intro h1
    rw [h1]
    exact Nat.mod_lt _ (by norm_num)
  · intro h1
    exact (Nat.mod_eq_of_lt h1).symm

theorem to_uint_of_lt {x : Nat} (h : x < UINT_MOD) : to_uint x = x := Nat.mod_eq_of_lt h

/-- Reading back a 64-bit value written across the two fields of a cell. -/
theorem as_ulong_of_ulong {g : Nat} (h : g < ULONG_MOD) : as_ulong (of_ulong g) = g := by
  unfold as_ulong of_ulong
  have h2 : g / UINT_MOD < UINT_MOD := by
    rw [Nat.div_lt_iff_lt_mul uint_mod_pos, ← ulong_mod_eq]
    exact h
  simp only [Nat.mod_eq_of_lt h2]
  exact Nat.mod_add_div g UINT_MOD

theorem as_ulong_eq_zero_iff (c : spike_data_struct) :
    as_ulong c = 0 ↔ c.time = 0 ∧ c.spike = 0 := by
  unfold as_ulong
  have := uint_mod_pos
  constructor
  · intro h
    have h1 : c.time = 0 := by omega
    have h2 : UINT_MOD * c.spike = 0 := by omega
    rcases Nat.mul_eq_zero.mp h2 with h3 | h3
    · omega
    · exact ⟨h1, h3⟩
  · rintro ⟨h1, h2⟩
    simp [h1, h2]

theorem load_of_lt (s : Nat → spike_data_struct) {i : Nat} (h : i < MAX_SPIKES + 3) :
    load s i = some (s i) := by
  simp [load, h]

theorem load_eq_some_iff (s : Nat → spike_data_struct) (i : Nat) (c : spike_data_struct) :
    load s i = some c ↔ i < MAX_SPIKES + 3 ∧ s i = c := by
  unfold load
  split <;> simp_all

theorem store_of_lt (s : Nat → spike_data_struct) {i : Nat} (c : spike_data_struct)
    (h : i < MAX_SPIKES + 3) :
    store s i c = some (fun j => if j = i then c else s j) := by
  simp [store, h]

theorem store_eq_some_iff (s s1 : Nat → spike_data_struct) (i : Nat) (c : spike_data_struct) :
    store s i c = some s1 ↔ i < MAX_SPIKES + 3 ∧ s1 = (fun j => if j = i then c else s j) := by
  unfold store
  split
  · simp_all [eq_comm]
  · simp_all

theorem to_ulong_natCast (n : Nat) : to_ulong (n : Int) = n % 2 ^ 64 := by
  unfold to_ulong
  omega

theorem usec_of_stamp {g : Nat} (h : g < ULONG_MOD) : usec_of (stamp g) = g := by
  unfold usec_of stamp
  simp only [to_ulong_natCast]
  unfold ULONG_MOD at *
  omega

/-! ## Layout of records in the buffer -/

theorem encode_length (gap spike : Nat) :
    (encode gap spike).length = if gap < UINT_MOD then 1 else 3 := by
  unfold encode
  split <;> rfl

theorem encode_length_pos (gap spike : Nat) : 0 < (encode gap spike).length := by
  rw [encode_length]
  split <;> norm_num

theorem encode_length_le (gap spike : Nat) : (encode gap spike).length ≤ 3 := by
  rw [encode_length]
  split <;> norm_num

theorem write_cells_below (cs : List spike_data_struct) :
    ∀ (s : Nat → spike_data_struct) (i j : Nat), j < i → write_cells s i cs j = s j := by
  induction cs with
  | nil => intro s i j _; rfl
  | cons c cs ih =>
    intro s i j hj
    simp only [write_cells]
    rw [ih _ _ _ (by omega)]
    simp [Nat.ne_of_lt hj]

theorem holds_write_cells (cs : List spike_data_struct) :
    ∀ (s : Nat → spike_data_struct) (i : Nat), holds (write_cells s i cs) i cs := by
  induction cs with
  | nil => intro s i; trivial
  | cons c cs ih =>
    intro s i
    simp only [write_cells, holds]
    refine ⟨?_, ih _ _⟩
    rw [write_cells_below _ _ _ _ (by omega)]
    simp

theorem holds_append (as bs : List spike_data_struct) :
    ∀ (s : Nat → spike_data_struct) (i : Nat),
      holds s i (as ++ bs) ↔ holds s i as ∧ holds s (i + as.length) bs := by
  induction as with
  | nil => intro s i; simp [holds]
  | cons a as ih =>
    intro s i
    rw [List.cons_append]
    simp only [holds]
    rw [ih s (i + 1), List.length_cons, show i + (as.length + 1) = i + 1 + as.length by omega]
    tauto

theorem append_cells_eq (s : Nat → spike_data_struct) (i gap diff : Nat)
    (hi : i + 2 < MAX_SPIKES + 3) :
    append_cells s i gap diff =
      some (write_cells s i (encode gap (to_uint diff)),
        i + (encode gap (to_uint diff)).length) := by
  unfold append_cells
  by_cases h : gap < UINT_MOD
  · rw [if_pos ((fits_iff gap).mpr h), store_of_lt _ _ (by omega)]
    simp [encode, h, write_cells, to_uint_of_lt h]
  · rw [if_neg (fun h1 => h ((fits_iff gap).mp h1))]
    have h0 : i < MAX_SPIKES + 3 := by omega
    have h1 : i + 1 < MAX_SPIKES + 3 := by omega
    simp [store_escape, store, h0, h1, hi, encode, h, write_cells]

/-! ## One iteration of the decoding loop -/

@[simp] theorem emit_spikes (chatty : Nat) (st : State) (g d : Nat) :
    (emit chatty st g d).spikes = st.spikes := rfl

@[simp] theorem emit_spike_ndx (chatty : Nat) (st : State) (g d : Nat) :
    (emit chatty st g d).spike_ndx = st.spike_ndx := rfl

@[simp] theorem emit_last_spike_time (chatty : Nat) (st : State) (g d : Nat) :
    (emit chatty st g d).last_spike_time = st.last_spike_time := rfl

@[simp] theorem emit_drains (chatty : Nat) (st : State) (g d : Nat) :
    (emit chatty st g d).drains = st.drains := rfl

theorem loop_done (chatty fuel ndx : Nat) (st : State) (h : ¬ ndx < st.spike_ndx) :
    print_big_diff_loop chatty fuel ndx st = some st := by
  cases fuel <;> simp [print_big_diff_loop, h]

theorem loop_ordinary (chatty fuel ndx : Nat) (st : State) (h1 : ndx < st.spike_ndx)
    (h2 : ndx < MAX_SPIKES + 3) (h3 : as_ulong (st.spikes ndx) ≠ 0) :
    print_big_diff_loop chatty (fuel + 1) ndx st =
      print_big_diff_loop chatty fuel (ndx + 1)
        (emit chatty st (st.spikes ndx).time (st.spikes ndx).spike) := by
  rw [print_big_diff_loop]
  simp only [h1, if_true, load_of_lt _ h2, h3, if_false]
  by_cases hc : 0 < chatty <;> simp [hc, emit]

theorem loop_escape (chatty fuel ndx : Nat) (st : State) (h1 : ndx < st.spike_ndx)
    (h2 : ndx + 2 < MAX_SPIKES + 3) (h3 : as_ulong (st.spikes ndx) = 0) :
    print_big_diff_loop chatty (fuel + 1) ndx st =
      print_big_diff_loop chatty fuel (ndx + 3)
        (emit chatty st (as_ulong (st.spikes (ndx + 1))) (st.spikes (ndx + 2)).spike) := by
  rw [print_big_diff_loop]
  simp only [h1, if_true, load_of_lt _ (show ndx < MAX_SPIKES + 3 by omega), h3,
    load_of_lt _ (show ndx + 1 < MAX_SPIKES + 3 by omega), load_of_lt _ h2]
  by_cases hc : 0 < chatty <;> simp [hc, emit]

/-! ## Decoding a well-formed buffer -/

theorem length_le_encode_all (recs : List (Nat × Nat)) :
    recs.length ≤ (encode_all recs).length := by
  induction recs with
  | nil => simp [encode_all]
  | cons r rs ih =>
    simp only [encode_all, List.length_cons, List.length_append]
    have := encode_length_pos r.1 r.2
    omega

@[simp] theorem emit_all_spikes (chatty : Nat) (recs : List (Nat × Nat)) :
    ∀ st : State, (emit_all chatty st recs).spikes = st.spikes := by
  induction recs with
  | nil => intro st; rfl
  | cons r rs ih => intro st; simp [emit_all, ih]

@[simp] theorem emit_all_spike_ndx (chatty : Nat) (recs : List (Nat × Nat)) :
    ∀ st : State, (emit_all chatty st recs).spike_ndx = st.spike_ndx := by
  induction recs with
  | nil => intro st; rfl
  | cons r rs ih => intro st; simp [emit_all, ih]

@[simp] theorem emit_all_last_spike_time (chatty : Nat) (recs : List (Nat × Nat)) :
    ∀ st : State, (emit_all chatty st recs).last_spike_time = st.last_spike_time := by
  induction recs with
  | nil => intro st; rfl
  | cons r rs ih => intro st; simp [emit_all, ih]

@[simp] theorem emit_all_drains (chatty : Nat) (recs : List (Nat × Nat)) :
    ∀ st : State, (emit_all chatty st recs).drains = st.drains := by
  induction recs with
  | nil => intro st; rfl
  | cons r rs ih => intro st; simp [emit_all, ih]

/-- The loop of `print_big_diff`, entered at the first cell of a run of decodable
records that ends at the cursor, decodes exactly those records, in order. -/
theorem loop_decodes (chatty : Nat) (recs : List (Nat × Nat)) :
    ∀ (fuel ndx : Nat) (st : State), (∀ r ∈ recs, decodable r) →
      holds st.spikes ndx (encode_all recs) →
      st.spike_ndx = ndx + (encode_all recs).length →
      st.spike_ndx ≤ MAX_SPIKES + 3 → recs.length ≤ fuel →
      print_big_diff_loop chatty fuel ndx st = some (emit_all chatty st recs) := by
  induction recs with
  | nil =>
    intro fuel ndx st _ _ hn _ _
    simp only [encode_all, List.length_nil, Nat.add_zero] at hn
    exact loop_done _ _ _ _ (by omega)
  | cons r rs ih =>
    intro fuel ndx st hv hh hn hb hf
    obtain ⟨g, d⟩ := r
    have hr : decodable (g, d) := hv _ (List.mem_cons_self _ _)
    have hrs : ∀ r ∈ rs, decodable r := fun r hr => hv r (List.mem_cons_of_mem _ hr)
    simp only [encode_all, List.length_append] at hn hh
    rw [holds_append] at hh
    obtain ⟨hh1, hh2⟩ := hh
    cases fuel with
    | zero => simp at hf
    | succ fuel =>
      simp only [List.length_cons, Nat.add_le_add_iff_right] at hf
      by_cases hg : g < UINT_MOD
      · simp only [encode, hg, if_true, holds, List.length_singleton, and_true] at hh1 hh2 hn
        have h3 : as_ulong (st.spikes ndx) ≠ 0 := by
          rw [hh1, Ne, as_ulong_eq_zero_iff]
          exact hr.2
        rw [loop_ordinary _ _ _ _ (by omega) (by omega) h3, hh1]
        exact ih fuel (ndx + 1) _ hrs (by simpa using hh2) (by simp; omega)
          (by simpa using hb) hf
      · simp only [encode, hg, if_false, holds, List.length_cons, List.length_nil,
          and_true] at hh1 hh2 hn
        obtain ⟨c0, c1, c2⟩ := hh1
        have h3 : as_ulong (st.spikes ndx) = 0 := by
          rw [c0, as_ulong_eq_zero_iff]
          exact ⟨rfl, rfl⟩
        rw [loop_escape _ _ _ _ (by omega) (by omega) h3, c1, c2, as_ulong_of_ulong hr.1]
        exact ih fuel (ndx + 3) _ hrs (by simpa using hh2) (by simp; omega)
          (by simpa using hb) hf

/-- The C function `print_big_diff` on a buffer filled, from cell 0 to the cursor, with
decodable records: every record is decoded once, then the cursor is 0. -/
theorem print_big_diff_decodes (chatty : Nat) (st : State) (recs : List (Nat × Nat))
    (hv : ∀ r ∈ recs, decodable r) (hh : holds st.spikes 0 (encode_all recs))
    (hn : st.spike_ndx = (encode_all recs).length) (hb : st.spike_ndx ≤ MAX_SPIKES + 3) :
    print_big_diff chatty st =
      some { emit_all chatty st recs with spike_ndx := 0, drains := st.drains + 1 } := by
  unfold print_big_diff
  rw [loop_decodes chatty recs st.spike_ndx 0 st hv hh (by omega) hb
    (by rw [hn]; exact length_le_encode_all recs)]
  simp

/-- The C function `process_big_diff` at a cursor below `MAX_SPIKES`: the record is
written at the cursor, and the buffer is drained when the cursor has reached
`MAX_SPIKES`. -/
theorem process_big_diff_eq (chatty : Nat) (t_stamp : timeval) (st : State) (diff : Nat)
    (hi : st.spike_ndx < MAX_SPIKES) :
    process_big_diff chatty t_stamp st diff =
      if MAX_SPIKES ≤ (appended st (tt_time_diff t_stamp st.last_spike_time) diff).spike_ndx then
        (print_big_diff chatty
          (appended st (tt_time_diff t_stamp st.last_spike_time) diff)).map
          (fun st2 => { st2 with last_spike_time := t_stamp })
      else
        some { appended st (tt_time_diff t_stamp st.last_spike_time) diff with
               last_spike_time := t_stamp } := by
  unfold process_big_diff
  simp only [append_cells_eq _ _ _ _ (show st.spike_ndx + 2 < MAX_SPIKES + 3 by omega)]
  unfold tt_time_diff appended
  simp only [ge_iff_le]
  split
  · cases print_big_diff chatty _ <;> rfl
  · rfl

theorem encode_all_singleton (g d : Nat) : encode_all [(g, d)] = encode g d := by
  simp [encode_all]

theorem max_spikes_eq : MAX_SPIKES = 1021 := rfl

/-- What one append at cursor 0 followed by a drain prints, for a record that is
not stored as the marker. -/
theorem round_trip_eq (chatty : Nat) (t_stamp : timeval) (st : State) (gap diff : Nat)
    (h0 : st.spike_ndx = 0)
    (hgap : tt_time_diff t_stamp st.last_spike_time = gap)
    (hm : ¬ (gap = 0 ∧ diff % UINT_MOD = 0)) :
    round_trip chatty t_stamp st diff =
      some (if 0 < chatty then [(gap, diff % UINT_MOD)] else []) := by
  have hlen := encode_length_le gap (to_uint diff)
  have hg : gap < ULONG_MOD := hgap ▸ tt_time_diff_lt _ _
  unfold round_trip
  rw [process_big_diff_eq _ _ _ _ (by rw [h0, max_spikes_eq]; norm_num), hgap,
    if_neg (by simp only [appended, h0, max_spikes_eq]; omega)]
  simp only
  rw [print_big_diff_decodes chatty _ [(gap, to_uint diff)]
    (by
      intro r hr
      rw [List.mem_singleton] at hr
      subst hr
      exact ⟨hg, hm⟩)
    (by
      rw [encode_all_singleton]
      simp only [appended, h0]
      exact holds_write_cells _ _ _)
    (by rw [encode_all_singleton]; simp [appended, h0])
    (by simp only [appended, h0, max_spikes_eq]; omega)]
  simp only [new_records, emit_all, emit, appended, to_uint]
  by_cases hc : 0 < chatty <;> simp [hc]

/-- The state `process_big_diff` returns when the cursor stays below `MAX_SPIKES`. -/
theorem process_big_diff_no_drain (chatty : Nat) (t_stamp : timeval) (st : State)
    (gap diff : Nat)
    (hi : st.spike_ndx + (encode gap (to_uint diff)).length < MAX_SPIKES)
    (hgap : tt_time_diff t_stamp st.last_spike_time = gap) :
    process_big_diff chatty t_stamp st diff =
      some { appended st gap diff with last_spike_time := t_stamp } := by
  rw [process_big_diff_eq _ _ _ _ (by omega), hgap,
    if_neg (by simp only [appended]; omega)]

theorem write_cells_append (as bs : List spike_data_struct) :
    ∀ (s : Nat → spike_data_struct) (i : Nat),
      write_cells s i (as ++ bs) = write_cells (write_cells s i as) (i + as.length) bs := by
  induction as with
  | nil => intro s i; rfl
  | cons a as ih =>
    intro s i
    rw [List.cons_append]
    simp only [write_cells, List.length_cons]
    rw [ih, show i + (as.length + 1) = i + 1 + as.length by omega]

/-- A sequence of appends that keeps the cursor below `MAX_SPIKES` writes the cells of
its records one after the other and triggers no drain. -/
theorem appends_no_drain (chatty : Nat) (events : List (timeval × Nat)) :
    ∀ st : State,
      st.spike_ndx + (encode_all (records_of st.last_spike_time events)).length < MAX_SPIKES →
      appends chatty st events =
        some { st with
          spikes := write_cells st.spikes st.spike_ndx
            (encode_all (records_of st.last_spike_time events))
          spike_ndx := st.spike_ndx +
            (encode_all (records_of st.last_spike_time events)).length
          last_spike_time := last_of st.last_spike_time events } := by
  induction events with
  | nil => intro st _; rfl
  | cons e es ih =>
    intro st h
    simp only [records_of, encode_all, List.length_append] at h
    have h1 := process_big_diff_no_drain chatty e.1 st _ e.2 (by omega) rfl
    have h2 := ih { appended st (tt_time_diff e.1 st.last_spike_time) e.2 with
      last_spike_time := e.1 } (by simp only [appended]; omega)
    unfold appends at h2 ⊢
    simp only [List.map_cons, run, step, h1, h2]
    simp only [appended, records_of, encode_all, last_of, write_cells_append,
      List.length_append, Nat.add_assoc]

/-! ## What a drain does to the state -/

theorem emit_all_drained (chatty : Nat) (recs : List (Nat × Nat)) :
    ∀ st : State, (emit_all chatty st recs).drained = st.drained ++ recs.map Prod.fst := by
  induction recs with
  | nil => intro st; simp [emit_all]
  | cons r rs ih => intro st; simp [emit_all, ih, emit]

theorem emit_all_out (chatty : Nat) (recs : List (Nat × Nat)) :
    ∀ st : State, (emit_all chatty st recs).out =
      if 0 < chatty then st.out ++ rows_of st.cumulative recs else st.out := by
  induction recs with
  | nil => intro st; simp [emit_all, rows_of]
  | cons r rs ih =>
    intro st
    simp only [emit_all, ih]
    by_cases hc : 0 < chatty <;> simp [hc, emit, rows_of]

/-- The loop of `print_big_diff` finishes inside the array, and its whole effect is
that of decoding some list of records, when the cursor is at most `MAX_SPIKES + 1`,
and also at `MAX_SPIKES + 2` when the last cell below the cursor is not a marker. -/
theorem loop_effect (chatty : Nat) :
    ∀ (fuel ndx : Nat) (st : State), st.spike_ndx - ndx ≤ fuel →
      st.spike_ndx ≤ MAX_SPIKES + 2 →
      (st.spike_ndx = MAX_SPIKES + 2 → as_ulong (st.spikes (MAX_SPIKES + 1)) ≠ 0) →
      ∃ recs, print_big_diff_loop chatty fuel ndx st = some (emit_all chatty st recs) := by
  intro fuel
  induction fuel with
  | zero =>
    intro ndx st hf _ _
    exact ⟨[], loop_done _ _ _ _ (by omega)⟩
  | succ fuel ih =>
    intro ndx st hf hb hl
    by_cases h1 : ndx < st.spike_ndx
    · by_cases h3 : as_ulong (st.spikes ndx) = 0
      · have hne : ndx ≠ MAX_SPIKES + 1 := by
          intro he
          rw [he] at h3 h1
          exact hl (by omega) h3
        rw [loop_escape _ _ _ _ h1 (by omega) h3]
        obtain ⟨recs, e1⟩ := ih (ndx + 3) (emit chatty st _ _)
          (by simp; omega) (by simpa using hb) (by simpa using hl)
        exact ⟨(as_ulong (st.spikes (ndx + 1)), (st.spikes (ndx + 2)).spike) :: recs, e1⟩
      · rw [loop_ordinary _ _ _ _ h1 (by omega) h3]
        obtain ⟨recs, e1⟩ := ih (ndx + 1) (emit chatty st _ _)
          (by simp; omega) (by simpa using hb) (by simpa using hl)
        exact ⟨((st.spikes ndx).time, (st.spikes ndx).spike) :: recs, e1⟩
    · exact ⟨[], loop_done _ _ _ _ h1⟩

/-- The C function `print_big_diff` returns, with the cursor reset, under the same
conditions. -/
theorem print_big_diff_effect (chatty : Nat) (st : State)
    (hb : st.spike_ndx ≤ MAX_SPIKES + 2)
    (hl : st.spike_ndx = MAX_SPIKES + 2 → as_ulong (st.spikes (MAX_SPIKES + 1)) ≠ 0) :
    ∃ recs, print_big_diff chatty st =
      some { emit_all chatty st recs with spike_ndx := 0, drains := st.drains + 1 } := by
  obtain ⟨recs, h⟩ := loop_effect chatty st.spike_ndx 0 st (by omega) hb hl
  refine ⟨recs, ?_⟩
  unfold print_big_diff
  rw [h]
  simp

/-- The state after the cell writes of `process_big_diff` at a cursor below `MAX_SPIKES`
can always be drained. -/
theorem appended_drainable (st : State) (gap diff : Nat) (hi : st.spike_ndx < MAX_SPIKES) :
    (appended st gap diff).spike_ndx ≤ MAX_SPIKES + 2 ∧
    ((appended st gap diff).spike_ndx = MAX_SPIKES + 2 →
      as_ulong ((appended st gap diff).spikes (MAX_SPIKES + 1)) ≠ 0) := by
  have hlen := encode_length gap (to_uint diff)
  constructor
  · simp only [appended]
    have := encode_length_le gap (to_uint diff)
    omega
  · intro h
    simp only [appended] at h ⊢
    by_cases hg : gap < UINT_MOD
    · rw [if_pos hg] at hlen
      omega
    · rw [if_neg hg] at hlen
      have hc : st.spike_ndx + 2 = MAX_SPIKES + 1 := by omega
      have hcells := holds_write_cells (encode gap (to_uint diff)) st.spikes st.spike_ndx
      simp only [encode, hg, if_false, holds, and_true] at hcells ⊢
      rw [← hc, hcells.2.2, Ne, as_ulong_eq_zero_iff]
      simp

theorem emit_all_clock (chatty : Nat) (recs : List (Nat × Nat)) :
    ∀ st : State, st.cumulative = st.drained.sum % ULONG_MOD →
      (emit_all chatty st recs).cumulative = (emit_all chatty st recs).drained.sum % ULONG_MOD := by
  induction recs with
  | nil => intro st h; exact h
  | cons r rs ih =>
    intro st h
    apply ih
    simp only [emit, List.sum_append, List.sum_cons, List.sum_nil, Nat.add_zero]
    rw [h, Nat.mod_add_mod]

/-- One call on a buffer whose cursor is below `MAX_SPIKES` returns, leaves the cursor
below `MAX_SPIKES`, only extends the log of drained gaps, and keeps the clock equal to
the sum of the drained gaps modulo `2^64`. -/
theorem step_effect (st : State) (op : Op) (h : st.spike_ndx < MAX_SPIKES) :
    ∃ st1, step st op = some st1 ∧ st1.spike_ndx < MAX_SPIKES ∧
      (st.cumulative = st.drained.sum % ULONG_MOD →
        st1.cumulative = st1.drained.sum % ULONG_MOD) ∧
      ∃ gaps, st1.drained = st.drained ++ gaps := by
  cases op with
  | append chatty t_stamp diff =>
    simp only [step]
    rw [process_big_diff_eq _ _ _ _ h]
    split
    · obtain ⟨hb, hl⟩ := appended_drainable st (tt_time_diff t_stamp st.last_spike_time) diff h
      obtain ⟨recs, hp⟩ := print_big_diff_effect chatty _ hb hl
      rw [hp]
      refine ⟨_, rfl, by simp only [max_spikes_eq]; norm_num, ?_, ?_⟩
      · intro hc
        exact emit_all_clock chatty recs _ hc
      · exact ⟨recs.map Prod.fst, emit_all_drained chatty recs _⟩
    · next hlt =>
      exact ⟨_, rfl, by simpa using hlt, fun hc => hc, [], by simp [appended]⟩
  | drain chatty =>
    simp only [step]
    obtain ⟨recs, hp⟩ := print_big_diff_effect chatty st (by omega) (by omega)
    rw [hp]
    refine ⟨_, rfl, by simp only [max_spikes_eq]; norm_num, ?_, ?_⟩
    · intro hc
      exact emit_all_clock chatty recs _ hc
    · exact ⟨recs.map Prod.fst, emit_all_drained chatty recs _⟩

/-- Any sequence of calls on a buffer whose cursor is below `MAX_SPIKES` returns, with
the same three properties. -/
theorem run_effect (ops : List Op) :
    ∀ st : State, st.spike_ndx < MAX_SPIKES →
      ∃ st1, run st ops = some st1 ∧ st1.spike_ndx < MAX_SPIKES ∧
        (st.cumulative = st.drained.sum % ULONG_MOD →
          st1.cumulative = st1.drained.sum % ULONG_MOD) ∧
        ∃ gaps, st1.drained = st.drained ++ gaps := by
  induction ops with
  | nil => intro st h; exact ⟨st, rfl, h, fun hc => hc, [], by simp⟩
  | cons op ops ih =>
    intro st h
    obtain ⟨st1, e1, b1, c1, g1, d1⟩ := step_effect st op h
    obtain ⟨st2, e2, b2, c2, g2, d2⟩ := ih st1 b1
    refine ⟨st2, ?_, b2, fun hc => c2 (c1 hc), g1 ++ g2, ?_⟩
    · simp only [run, e1, e2]
    · rw [d2, d1, List.append_assoc]

theorem run_append (as bs : List Op) :
    ∀ st : State, run st (as ++ bs) = (run st as).bind (fun s => run s bs) := by
  induction as with
  | nil => intro st; rfl
  | cons a as ih =>
    intro st
    rw [List.cons_append]
    simp only [run]
    cases step st a with
    | none => rfl
    | some st1 => exact ih st1

theorem records_of_append (pre post : List (timeval × Nat)) :
    ∀ last : timeval, records_of last (pre ++ post) =
      records_of last pre ++ records_of (last_of last pre) post := by
  induction pre with
  | nil => intro last; rfl
  | cons e es ih =>
    intro last
    rw [List.cons_append]
    simp only [records_of, last_of, ih, List.cons_append]

theorem records_of_length (events : List (timeval × Nat)) :
    ∀ last : timeval, (records_of last events).length = events.length := by
  induction events with
  | nil => intro last; rfl
  | cons e es ih => intro last; simp [records_of, ih]

theorem rows_of_length (recs : List (Nat × Nat)) :
    ∀ c : Nat, (rows_of c recs).length = recs.length := by
  induction recs with
  | nil => intro c; rfl
  | cons r rs ih => intro c; simp [rows_of, ih]

theorem rows_of_records (recs : List (Nat × Nat)) :
    ∀ c : Nat, (rows_of c recs).map (fun r => (r.this_time, r.spike)) = recs := by
  induction recs with
  | nil => intro c; rfl
  | cons r rs ih => intro c; simp [rows_of, ih]

/-- The lines of a list of records split at any point; the second part starts from
the clock value reached by the first part. -/
theorem rows_of_append (pre post : List (Nat × Nat)) :
    ∀ c : Nat, ∃ c0, c0 % ULONG_MOD = (c + (pre.map Prod.fst).sum) % ULONG_MOD ∧
      rows_of c (pre ++ post) = rows_of c pre ++ rows_of c0 post := by
  induction pre with
  | nil => intro c; exact ⟨c, by simp, rfl⟩
  | cons r rs ih =>
    intro c
    obtain ⟨c0, h1, h2⟩ := ih ((c + r.1) % ULONG_MOD)
    refine ⟨c0, ?_, ?_⟩
    · rw [h1, List.map_cons, List.sum_cons, Nat.mod_add_mod, Nat.add_assoc]
    · rw [List.cons_append]
      simp only [rows_of, h2, List.cons_append]

theorem records_of_gap_lt (events : List (timeval × Nat)) :
    ∀ last : timeval, ∀ r ∈ records_of last events, r.1 < ULONG_MOD := by
  induction events with
  | nil => intro last r hr; simp [records_of] at hr
  | cons e es ih =>
    intro last r hr
    simp only [records_of, List.mem_cons] at hr
    rcases hr with hr | hr
    · rw [hr]
      exact tt_time_diff_lt _ _
    · exact ih _ r hr

/-- A sequence of appends that triggers no drain, none of them stored as the marker,
followed by one drain: every record is decoded once, in order. -/
theorem appends_then_drain (chatty : Nat) (st : State) (events : List (timeval × Nat))
    (h0 : st.spike_ndx = 0)
    (hroom : (encode_all (records_of st.last_spike_time events)).length < MAX_SPIKES)
    (hm : ∀ r ∈ records_of st.last_spike_time events, ¬ (r.1 = 0 ∧ r.2 = 0)) :
    ∃ st1 st2, appends chatty st events = some st1 ∧
      st1.spike_ndx = (encode_all (records_of st.last_spike_time events)).length ∧
      st1.drains = st.drains ∧ st1.cumulative = st.cumulative ∧ st1.out = st.out ∧
      st1.drained = st.drained ∧
      print_big_diff chatty st1 = some st2 ∧ st2.spike_ndx = 0 ∧
      st2.drains = st.drains + 1 ∧
      st2.drained = st.drained ++ (records_of st.last_spike_time events).map Prod.fst ∧
      st2.out = (if 0 < chatty then
        st.out ++ rows_of st.cumulative (records_of st.last_spike_time events) else st.out) := by
  have ha := appends_no_drain chatty events st (by rw [h0]; omega)
  have hd := print_big_diff_decodes chatty
    { st with
      spikes := write_cells st.spikes st.spike_ndx
        (encode_all (records_of st.last_spike_time events))
      spike_ndx := st.spike_ndx + (encode_all (records_of st.last_spike_time events)).length
      last_spike_time := last_of st.last_spike_time events }
    (records_of st.last_spike_time events)
    (fun r hr => ⟨records_of_gap_lt events _ r hr, hm r hr⟩)
    (by
      simp only [h0]
      exact holds_write_cells _ _ _)
    (by simp only [h0, Nat.zero_add])
    (by simp only [h0, Nat.zero_add]; omega)
  refine ⟨_, _, ha, by simp only [h0, Nat.zero_add], rfl, rfl, rfl, rfl, hd, rfl, rfl, ?_, ?_⟩
  · simp only [emit_all_drained]
  · simp only [emit_all_out]

/-! ## Claims C1 to C4: the encoding of one record -/

/-- C1, as stated, fails: appending gap 1 with the 64-bit magnitude `2^32` to an
empty buffer and decoding it yields the record `(1, 0)`, not `(1, 2^32)`; at
verbosity 0 the decoder prints no record at all; and the pair `(0, 0)` is stored as
the marker, so that the decoder reports the gap 42 found in the cell after it. -/
theorem round_trip_loses_wide_magnitude :
    tt_time_diff (stamp 1) (fresh touched (stamp 0)).last_spike_time = 1 ∧
    round_trip 1 (stamp 1) (fresh touched (stamp 0)) (2 ^ 32) = some [(1, 0)] ∧
    round_trip 1 (stamp 1) (fresh touched (stamp 0)) (2 ^ 32) ≠ some [(1, 2 ^ 32)] ∧
    round_trip 0 (stamp 1) (fresh touched (stamp 0)) 7 = some [] ∧
    round_trip 1 (stamp 1000) (fresh touched (stamp 1000)) 0 = some [(42, 0)] := by
  decide

/-- C1 (amended): for every 64-bit gap and every magnitude, unless the gap is 0 and
the magnitude is a multiple of `2^32`, appending the pair at cursor 0 with
`process_big_diff` and decoding with `print_big_diff` yields exactly one record: the
original gap and the magnitude modulo `2^32`. Hence the original pair is reproduced
exactly whenever the magnitude fits in 32 bits, for the one-cell and for the
three-cell encoding alike. -/
theorem round_trip_up_to_spike_width (chatty : Nat) (t_stamp : timeval) (st : State)
    (gap diff : Nat) (hc : 0 < chatty) (h0 : st.spike_ndx = 0)
    (hgap : tt_time_diff t_stamp st.last_spike_time = gap)
    (hm : ¬ (gap = 0 ∧ diff % UINT_MOD = 0)) :
    round_trip chatty t_stamp st diff = some [(gap, diff % UINT_MOD)] ∧
    (diff < UINT_MOD → round_trip chatty t_stamp st diff = some [(gap, diff)]) := by
  have h := round_trip_eq chatty t_stamp st gap diff h0 hgap hm
  rw [if_pos hc] at h
  refine ⟨h, fun hd => ?_⟩
  rw [h, Nat.mod_eq_of_lt hd]

/-- Instances of C1 (amended) at the two boundary gaps `0xFFFFFFFF` (one cell) and
`0x100000000` (three cells). -/
theorem round_trip_up_to_spike_width_witness :
    (0 < 1 ∧ (fresh touched (stamp 0)).spike_ndx = 0 ∧
      tt_time_diff (stamp 0xFFFFFFFF) (fresh touched (stamp 0)).last_spike_time = 0xFFFFFFFF ∧
      ¬ (0xFFFFFFFF = 0 ∧ 77 % UINT_MOD = 0)) ∧
    (round_trip 1 (stamp 0xFFFFFFFF) (fresh touched (stamp 0)) 77
        = some [(0xFFFFFFFF, 77 % UINT_MOD)] ∧
      (77 < UINT_MOD →
        round_trip 1 (stamp 0xFFFFFFFF) (fresh touched (stamp 0)) 77
          = some [(0xFFFFFFFF, 77)])) ∧
    (round_trip 1 (stamp 0x100000000) (fresh touched (stamp 0)) 77
        = some [(0x100000000, 77 % UINT_MOD)] ∧
      (77 < UINT_MOD →
        round_trip 1 (stamp 0x100000000) (fresh touched (stamp 0)) 77
          = some [(0x100000000, 77)])) :=
  ⟨⟨by decide, rfl, by decide, by decide⟩,
    round_trip_up_to_spike_width 1 (stamp 0xFFFFFFFF) (fresh touched (stamp 0)) 0xFFFFFFFF 77
      (by decide) rfl (by decide) (by decide),
    round_trip_up_to_spike_width 1 (stamp 0x100000000) (fresh touched (stamp 0)) 0x100000000 77
      (by decide) rfl (by decide) (by decide)⟩

/-- C2, as stated, fails: with gap 5,000,000,000 and magnitude `2^32 + 77` the third
cell holds 77 in its `spike` field and the drain yields the tuple
`(5000000000, 77)`, not the magnitude appended; and at verbosity 0 the drain of the
three cells prints no tuple. -/
theorem escape_sequence_cuts_wide_magnitude :
    (process_big_diff 1 (stamp 5000000000) (fresh touched (stamp 0)) (2 ^ 32 + 77)).map
      (fun s => (s.spike_ndx, s.spikes 2)) = some (3, { time := 0xdeaddead, spike := 77 }) ∧
    round_trip 1 (stamp 5000000000) (fresh touched (stamp 0)) (2 ^ 32 + 77) =
      some [(5000000000, 77)] ∧
    round_trip 0 (stamp 5000000000) (fresh touched (stamp 0)) 77 = some [] := by
  decide

/-- C2 (amended): for every gap that does not fit in 32 bits, one call of
`process_big_diff` below the drain threshold advances the cursor by exactly 3, writes
`(0, 0)` at the cursor, the 64-bit gap across the two fields of the next cell (low
half in `time`, high half in `spike`), and the magnitude modulo `2^32` in the `spike`
field of the third cell; so a magnitude that fits in 32 bits is stored unchanged.
When the three cells are the whole buffer contents, `print_big_diff` at verbosity
above 0 prints exactly one line, carrying that gap and the magnitude modulo `2^32`,
and resets the cursor. -/
theorem escape_sequence_shape (chatty : Nat) (t_stamp : timeval) (st : State)
    (gap diff : Nat) (hc : 0 < chatty) (hi : st.spike_ndx + 3 < MAX_SPIKES)
    (hgap : tt_time_diff t_stamp st.last_spike_time = gap) (hbig : UINT_MOD ≤ gap) :
    ∃ st1, process_big_diff chatty t_stamp st diff = some st1 ∧
      st1.spike_ndx = st.spike_ndx + 3 ∧
      st1.spikes st.spike_ndx = { time := 0, spike := 0 } ∧
      (st1.spikes (st.spike_ndx + 1)).time = gap % UINT_MOD ∧
      (st1.spikes (st.spike_ndx + 1)).spike = gap / UINT_MOD ∧
      as_ulong (st1.spikes (st.spike_ndx + 1)) = gap ∧
      (st1.spikes (st.spike_ndx + 2)).spike = to_uint diff ∧
      (diff < UINT_MOD → (st1.spikes (st.spike_ndx + 2)).spike = diff) ∧
      (st.spike_ndx = 0 →
        ∃ st2, print_big_diff chatty st1 = some st2 ∧ st2.spike_ndx = 0 ∧
          new_records st st2 = [(gap, to_uint diff)] ∧
          (diff < UINT_MOD → new_records st st2 = [(gap, diff)])) := by
  have hg : gap < ULONG_MOD := hgap ▸ tt_time_diff_lt _ _
  have hnf : ¬ gap < UINT_MOD := by omega
  have hdiv : gap / UINT_MOD < UINT_MOD := by
    rw [Nat.div_lt_iff_lt_mul uint_mod_pos, ← ulong_mod_eq]
    exact hg
  have hcells : holds (write_cells st.spikes st.spike_ndx (encode gap (to_uint diff)))
      st.spike_ndx (encode gap (to_uint diff)) := holds_write_cells _ _ _
  simp only [encode, hnf, if_false, holds, and_true] at hcells
  obtain ⟨c0, c1, c2⟩ := hcells
  have hlen : (encode gap (to_uint diff)).length = 3 := by
    rw [encode_length, if_neg hnf]
  refine ⟨_, process_big_diff_no_drain chatty t_stamp st gap diff (by rw [hlen]; exact hi) hgap,
    ?_, ?_, ?_, ?_,
    ?_, ?_, ?_, ?_⟩
  · simp only [appended, hlen]
  · simp only [appended, encode, hnf, if_false]
    exact c0
  · simp only [appended, encode, hnf, if_false]
    rw [c1]
    rfl
  · simp only [appended, encode, hnf, if_false]
    rw [c1]
    exact Nat.mod_eq_of_lt hdiv
  · simp only [appended, encode, hnf, if_false]
    rw [c1]
    exact as_ulong_of_ulong hg
  · simp only [appended, encode, hnf, if_false]
    rw [c2]
  · intro hd
    simp only [appended, encode, hnf, if_false]
    rw [c2]
    exact to_uint_of_lt hd
  · intro h0
    have hdec := print_big_diff_decodes chatty
      { appended st gap diff with last_spike_time := t_stamp } [(gap, to_uint diff)]
      (by
        intro r hr
        rw [List.mem_singleton] at hr
        subst hr
        exact ⟨hg, fun h => by have := h.1; have := uint_mod_pos; omega⟩)
      (by
        rw [encode_all_singleton]
        simp only [appended, h0]
        exact holds_write_cells _ _ _)
      (by rw [encode_all_singleton]; simp [appended, h0])
      (by simp only [appended, hlen, h0, max_spikes_eq]; omega)
    refine ⟨_, hdec, rfl, ?_, ?_⟩
    · simp [new_records, emit_all, emit, appended, hc]
    · intro hd
      simp [new_records, emit_all, emit, appended, hc, to_uint_of_lt hd]

/-- C2 (amended) at gap 5,000,000,000 and magnitude 77, appended at cursor 0. -/
theorem escape_sequence_shape_witness :
    (0 < 1 ∧ (fresh touched (stamp 0)).spike_ndx + 3 < MAX_SPIKES ∧
      tt_time_diff (stamp 5000000000) (fresh touched (stamp 0)).last_spike_time = 5000000000 ∧
      UINT_MOD ≤ 5000000000) ∧
    ∃ st1, process_big_diff 1 (stamp 5000000000) (fresh touched (stamp 0)) 77 = some st1 ∧
      st1.spike_ndx = (fresh touched (stamp 0)).spike_ndx + 3 ∧
      st1.spikes (fresh touched (stamp 0)).spike_ndx = { time := 0, spike := 0 } ∧
      (st1.spikes ((fresh touched (stamp 0)).spike_ndx + 1)).time = 5000000000 % UINT_MOD ∧
      (st1.spikes ((fresh touched (stamp 0)).spike_ndx + 1)).spike = 5000000000 / UINT_MOD ∧
      as_ulong (st1.spikes ((fresh touched (stamp 0)).spike_ndx + 1)) = 5000000000 ∧
      (st1.spikes ((fresh touched (stamp 0)).spike_ndx + 2)).spike = to_uint 77 ∧
      (77 < UINT_MOD → (st1.spikes ((fresh touched (stamp 0)).spike_ndx + 2)).spike = 77) ∧
      ((fresh touched (stamp 0)).spike_ndx = 0 →
        ∃ st2, print_big_diff 1 st1 = some st2 ∧ st2.spike_ndx = 0 ∧
          new_records (fresh touched (stamp 0)) st2 = [(5000000000, to_uint 77)] ∧
          (77 < UINT_MOD → new_records (fresh touched (stamp 0)) st2 = [(5000000000, 77)])) :=
  ⟨⟨by decide, by decide, by decide, by decide⟩,
    escape_sequence_shape 1 (stamp 5000000000) (fresh touched (stamp 0)) 5000000000 77
      (by decide) (by decide) (by decide) (by decide)⟩

/-- Every 64-bit value is the gap between some timestamp and any given
`last_spike_time`. -/
theorem gap_attained (last : timeval) (g : Nat) (h : g < ULONG_MOD) :
    ∃ t_stamp, tt_time_diff t_stamp last = g := by
  refine ⟨stamp ((usec_of last + g) % ULONG_MOD), ?_⟩
  unfold tt_time_diff
  rw [usec_of_stamp (Nat.mod_lt _ ulong_mod_pos)]
  have := usec_of_lt last
  have hm := ulong_mod_pos
  rw [Nat.mod_add_mod, show usec_of last + g + (ULONG_MOD - usec_of last) = g + ULONG_MOD by omega,
    Nat.add_mod_right, Nat.mod_eq_of_lt h]

/-- C3: in every state reached from an empty buffer by appends and drains, and for
every timestamp passed to `process_big_diff`, the record written for the gap takes
exactly one cell, whose `time` field is the gap, if and only if `gap <= 0xFFFFFFFF`,
and exactly three cells otherwise; the cursor that `process_big_diff` leaves when no
drain follows is the advanced one. -/
theorem slots_consumed_by_gap (spikes : Nat → spike_data_struct) (last : timeval)
    (ops : List Op) (chatty : Nat) (t_stamp : timeval) (diff : Nat) :
    ∃ st, run (fresh spikes last) ops = some st ∧
      ∃ cells ndx1,
        append_cells st.spikes st.spike_ndx (tt_time_diff t_stamp st.last_spike_time) diff
          = some (cells, ndx1) ∧
        ((ndx1 = st.spike_ndx + 1 ∧
            (cells st.spike_ndx).time = tt_time_diff t_stamp st.last_spike_time) ↔
          tt_time_diff t_stamp st.last_spike_time ≤ 0xFFFFFFFF) ∧
        (ndx1 = st.spike_ndx + 3 ↔ ¬ tt_time_diff t_stamp st.last_spike_time ≤ 0xFFFFFFFF) ∧
        (ndx1 = st.spike_ndx + 1 ∨ ndx1 = st.spike_ndx + 3) ∧
        (ndx1 < MAX_SPIKES →
          ∃ st1, process_big_diff chatty t_stamp st diff = some st1 ∧
            st1.spikes = cells ∧ st1.spike_ndx = ndx1) := by
  obtain ⟨st, e1, hi, _, _⟩ := run_effect ops (fresh spikes last)
    (by simp only [fresh, max_spikes_eq]; norm_num)
  refine ⟨st, e1, ?_⟩
  generalize hgap : tt_time_diff t_stamp st.last_spike_time = gap
  have hu : UINT_MOD = 0xFFFFFFFF + 1 := by unfold UINT_MOD; norm_num
  refine ⟨_, _, append_cells_eq st.spikes st.spike_ndx gap diff (by omega), ?_, ?_, ?_, ?_⟩
  · by_cases h : gap < UINT_MOD
    · have hle : gap ≤ 0xFFFFFFFF := by omega
      have hcells := holds_write_cells (encode gap (to_uint diff)) st.spikes st.spike_ndx
      simp only [encode, h, if_true, holds, and_true] at hcells
      refine ⟨fun _ => hle, fun _ => ⟨?_, ?_⟩⟩
      · rw [encode_length, if_pos h]
      · simp only [encode, h, if_true]
        rw [hcells]
    · have hnle : ¬ gap ≤ 0xFFFFFFFF := by omega
      refine ⟨fun h1 => ?_, fun h1 => absurd h1 hnle⟩
      have h2 := h1.1
      rw [encode_length, if_neg h] at h2
      omega
  · by_cases h : gap < UINT_MOD
    · have hle : gap ≤ 0xFFFFFFFF := by omega
      rw [encode_length, if_pos h]
      refine ⟨fun h1 => ?_, fun h1 => absurd hle h1⟩
      omega
    · have hnle : ¬ gap ≤ 0xFFFFFFFF := by omega
      rw [encode_length, if_neg h]
      exact ⟨fun _ => hnle, fun _ => rfl⟩
  · rw [encode_length]
    split
    · exact Or.inl rfl
    · exact Or.inr rfl
  · intro hlt
    refine ⟨{ appended st gap diff with last_spike_time := t_stamp }, ?_, rfl, rfl⟩
    rw [process_big_diff_eq _ _ _ _ hi, hgap, if_neg (by simp only [appended]; omega)]

/-- C3 evaluated at the two boundary gaps on an empty buffer: `0xFFFFFFFF` is stored
in one cell whose `time` field is the gap, `0x100000000` in three cells. -/
theorem slots_consumed_by_gap_witness :
    tt_time_diff (stamp 0xFFFFFFFF) (fresh touched (stamp 0)).last_spike_time = 0xFFFFFFFF ∧
    tt_time_diff (stamp 0x100000000) (fresh touched (stamp 0)).last_spike_time
      = 0x100000000 ∧
    (process_big_diff 1 (stamp 0xFFFFFFFF) (fresh touched (stamp 0)) 77).map
      (fun s => (s.spike_ndx, s.spikes 0)) = some (1, { time := 0xFFFFFFFF, spike := 77 }) ∧
    (process_big_diff 1 (stamp 0x100000000) (fresh touched (stamp 0)) 77).map
      (fun s => (s.spike_ndx, s.spikes 0, s.spikes 1, s.spikes 2)) =
      some (3, { time := 0, spike := 0 }, { time := 0, spike := 1 },
        { time := 0xdeaddead, spike := 77 }) ∧
    ∃ st, run (fresh touched (stamp 0)) [] = some st ∧
      ∃ cells ndx1,
        append_cells st.spikes st.spike_ndx
          (tt_time_diff (stamp 0xFFFFFFFF) st.last_spike_time) 77 = some (cells, ndx1) ∧
        ((ndx1 = st.spike_ndx + 1 ∧
            (cells st.spike_ndx).time = tt_time_diff (stamp 0xFFFFFFFF) st.last_spike_time) ↔
          tt_time_diff (stamp 0xFFFFFFFF) st.last_spike_time ≤ 0xFFFFFFFF) ∧
        (ndx1 = st.spike_ndx + 3 ↔
          ¬ tt_time_diff (stamp 0xFFFFFFFF) st.last_spike_time ≤ 0xFFFFFFFF) ∧
        (ndx1 = st.spike_ndx + 1 ∨ ndx1 = st.spike_ndx + 3) ∧
        (ndx1 < MAX_SPIKES →
          ∃ st1, process_big_diff 1 (stamp 0xFFFFFFFF) st 77 = some st1 ∧
            st1.spikes = cells ∧ st1.spike_ndx = ndx1) :=
  ⟨by decide, by decide, by decide, by decide,
    slots_consumed_by_gap touched (stamp 0) [] 1 (stamp 0xFFFFFFFF) 77⟩

/-- C4 fails on the code: with `t_stamp` equal to `last_spike_time` and `diff = 0`
`process_big_diff` writes the one-cell record `(0, 0)`, the escape marker. The first
iteration of the warm-up pass of the time loop (threshold 0, verbosity 0) does so
when its sample falls in the same microsecond as the start timestamp. The drain then
reads the next cell as a 64-bit gap: two appended records with gaps 0 and 1 are
decoded as one record with gap `2^32 + 1`, which is added to the clock. -/
theorem marker_written_for_ordinary_record :
    tt_time_diff (stamp 1000) (fresh touched (stamp 1000)).last_spike_time = 0 ∧
    (process_big_diff 0 (stamp 1000) (fresh touched (stamp 1000)) 0).map
      (fun s => (s.spike_ndx, s.spikes 0)) = some (1, { time := 0, spike := 0 }) ∧
    (time_iteration (wall_of [1000, 1000]) 0 0 1 (main_at (stamp 1000) 0)).map
      (fun m => (m.st.spike_ndx, m.st.spikes 0)) = some (1, { time := 0, spike := 0 }) ∧
    (run (fresh touched (stamp 1000))
        [Op.append 0 (stamp 1000) 0, Op.append 0 (stamp 1001) 1, Op.drain 0]).map
      (fun s => (s.drained, s.cumulative)) = some ([4294967297], 4294967297) := by
  decide

/-! ## Claims C5 to C9: sequences of appends and drains -/

/-- C5, as stated, fails. One append of gap 1 with magnitude `2^32 + 5` is drained as
the tuple `(1, 5)`: the magnitude is cut to the 32-bit field. And three appends of
which the first has gap 0 and magnitude 0 are drained as a single tuple: the first
record is stored as the marker and swallows the two cells after it. And at verbosity
0 two appended records are drained without any tuple being printed. -/
theorem drain_of_appends_differs :
    ((appends 1 (fresh touched (stamp 0)) [(stamp 1, 2 ^ 32 + 5)]).bind
        (print_big_diff 1)).map (new_records (fresh touched (stamp 0))) = some [(1, 5)] ∧
    ((appends 1 (fresh touched (stamp 0)) [(stamp 0, 0), (stamp 5, 7), (stamp 9, 3)]).bind
        (print_big_diff 1)).map (new_records (fresh touched (stamp 0))) =
      some [(5 + 7 * 2 ^ 32, 3)] ∧
    ((appends 0 (fresh touched (stamp 0)) [(stamp 1, 5), (stamp 2, 6)]).bind
        (print_big_diff 0)).map (new_records (fresh touched (stamp 0))) = some [] := by
  decide

/-- C5 (amended): a sequence of `k` appends from cursor 0 that triggers no drain
(its cells stay below `MAX_SPIKES`), none of them with gap 0 together with a magnitude
that is a multiple of `2^32`, followed by `print_big_diff` at verbosity above 0:
exactly `k` lines are printed, in append order, the `i`-th carrying the `i`-th gap and
the `i`-th magnitude modulo `2^32`; one gap per appended record is added to the clock;
afterwards the cursor is 0. -/
theorem drain_decodes_each_record_once (chatty : Nat) (st : State)
    (events : List (timeval × Nat)) (hc : 0 < chatty) (h0 : st.spike_ndx = 0)
    (hroom : (encode_all (records_of st.last_spike_time events)).length < MAX_SPIKES)
    (hm : ∀ r ∈ records_of st.last_spike_time events, ¬ (r.1 = 0 ∧ r.2 = 0)) :
    ∃ st1 st2, appends chatty st events = some st1 ∧ st1.drains = st.drains ∧
      print_big_diff chatty st1 = some st2 ∧
      new_records st st2 = records_of st.last_spike_time events ∧
      (new_records st st2).length = events.length ∧
      st2.drained = st.drained ++ (records_of st.last_spike_time events).map Prod.fst ∧
      st2.spike_ndx = 0 := by
  obtain ⟨st1, st2, e1, _, e3, _, _, _, e7, e8, _, e10, e11⟩ :=
    appends_then_drain chatty st events h0 hroom hm
  rw [if_pos hc] at e11
  have hn : new_records st st2 = records_of st.last_spike_time events := by
    simp only [new_records, e11, List.drop_left, rows_of_records]
  exact ⟨st1, st2, e1, e3, e7, hn, by rw [hn, records_of_length], e10, e8⟩

/-- C5 (amended) on three spikes, the second with a gap beyond 32 bits. -/
theorem drain_decodes_each_record_once_witness :
    (0 < 1 ∧ (fresh touched (stamp 0)).spike_ndx = 0 ∧
      (encode_all (records_of (fresh touched (stamp 0)).last_spike_time
        [(stamp 10, 50), (stamp 5000000010, 77), (stamp 5000000010, 9)])).length < MAX_SPIKES ∧
      ∀ r ∈ records_of (fresh touched (stamp 0)).last_spike_time
        [(stamp 10, 50), (stamp 5000000010, 77), (stamp 5000000010, 9)],
        ¬ (r.1 = 0 ∧ r.2 = 0)) ∧
    (∃ st1 st2,
      appends 1 (fresh touched (stamp 0))
        [(stamp 10, 50), (stamp 5000000010, 77), (stamp 5000000010, 9)] = some st1 ∧
      st1.drains = (fresh touched (stamp 0)).drains ∧
      print_big_diff 1 st1 = some st2 ∧
      new_records (fresh touched (stamp 0)) st2 =
        records_of (fresh touched (stamp 0)).last_spike_time
          [(stamp 10, 50), (stamp 5000000010, 77), (stamp 5000000010, 9)] ∧
      (new_records (fresh touched (stamp 0)) st2).length =
        [(stamp 10, 50), (stamp 5000000010, 77), (stamp 5000000010, 9)].length ∧
      st2.drained = (fresh touched (stamp 0)).drained ++
        (records_of (fresh touched (stamp 0)).last_spike_time
          [(stamp 10, 50), (stamp 5000000010, 77), (stamp 5000000010, 9)]).map Prod.fst ∧
      st2.spike_ndx = 0) ∧
    records_of (fresh touched (stamp 0)).last_spike_time
        [(stamp 10, 50), (stamp 5000000010, 77), (stamp 5000000010, 9)] =
      [(10, 50), (5000000000, 77), (0, 9)] :=
  ⟨⟨by decide, rfl, by decide, by decide⟩,
    drain_decodes_each_record_once 1 (fresh touched (stamp 0))
      [(stamp 10, 50), (stamp 5000000010, 77), (stamp 5000000010, 9)]
      (by decide) rfl (by decide) (by decide),
    by decide⟩

/-- C6: after any sequence of appends from an empty buffer the cursor is below
`MAX_SPIKES`, which is the array dimension minus 3, that is 1021. The next append
then returns; if the cursor it reaches is still below `MAX_SPIKES` no drain happens
(the drain counter, the clock and the output are unchanged and the cursor is the
advanced one); if the cursor reaches `MAX_SPIKES` or beyond, `print_big_diff` runs
exactly once and the cursor is 0. -/
theorem flush_trigger (chatty0 chatty : Nat) (spikes : Nat → spike_data_struct)
    (last : timeval) (events : List (timeval × Nat)) (t_stamp : timeval) (diff : Nat) :
    MAX_SPIKES + 3 - 3 = MAX_SPIKES ∧ MAX_SPIKES = 1021 ∧
    ∃ st, appends chatty0 (fresh spikes last) events = some st ∧ st.spike_ndx < MAX_SPIKES ∧
      ∃ cells ndx1 st1,
        append_cells st.spikes st.spike_ndx (tt_time_diff t_stamp st.last_spike_time) diff
          = some (cells, ndx1) ∧
        process_big_diff chatty t_stamp st diff = some st1 ∧
        (ndx1 < MAX_SPIKES →
          st1.drains = st.drains ∧ st1.spike_ndx = ndx1 ∧ st1.cumulative = st.cumulative ∧
          st1.out = st.out ∧ st1.drained = st.drained) ∧
        (MAX_SPIKES ≤ ndx1 → st1.drains = st.drains + 1 ∧ st1.spike_ndx = 0) := by
  refine ⟨rfl, rfl, ?_⟩
  obtain ⟨st, e1, b1, _, _⟩ := run_effect (events.map (fun e => Op.append chatty0 e.1 e.2))
    (fresh spikes last) (by simp only [fresh, max_spikes_eq]; norm_num)
  have key : ∃ st1, process_big_diff chatty t_stamp st diff = some st1 ∧
      (st.spike_ndx +
          (encode (tt_time_diff t_stamp st.last_spike_time) (to_uint diff)).length < MAX_SPIKES →
        st1.drains = st.drains ∧
        st1.spike_ndx = st.spike_ndx +
          (encode (tt_time_diff t_stamp st.last_spike_time) (to_uint diff)).length ∧
        st1.cumulative = st.cumulative ∧ st1.out = st.out ∧ st1.drained = st.drained) ∧
      (MAX_SPIKES ≤ st.spike_ndx +
          (encode (tt_time_diff t_stamp st.last_spike_time) (to_uint diff)).length →
        st1.drains = st.drains + 1 ∧ st1.spike_ndx = 0) := by
    by_cases hlt : st.spike_ndx +
        (encode (tt_time_diff t_stamp st.last_spike_time) (to_uint diff)).length < MAX_SPIKES
    · exact ⟨_, process_big_diff_no_drain chatty t_stamp st _ diff hlt rfl,
        fun _ => ⟨rfl, rfl, rfl, rfl, rfl⟩, fun h => absurd hlt (by omega)⟩
    · obtain ⟨hb, hl⟩ :=
        appended_drainable st (tt_time_diff t_stamp st.last_spike_time) diff b1
      obtain ⟨recs, hp⟩ := print_big_diff_effect chatty _ hb hl
      refine ⟨{ ({ emit_all chatty
          (appended st (tt_time_diff t_stamp st.last_spike_time) diff) recs with
            spike_ndx := 0, drains := st.drains + 1 } : State) with
          last_spike_time := t_stamp }, ?_, fun h => absurd h hlt, fun _ => ⟨rfl, rfl⟩⟩
      rw [process_big_diff_eq _ _ _ _ b1, if_pos (by simp only [appended]; omega), hp]
      rfl
  obtain ⟨st1, p1, p2, p3⟩ := key
  exact ⟨st, e1, b1, _, _, st1, append_cells_eq st.spikes st.spike_ndx _ diff (by omega),
    p1, p2, p3⟩

/-- An access outside the array is reported: from cursor `MAX_SPIKES + 1`, which no
run reaches, the third cell of an escape sequence does not fit and `process_big_diff`
has no result. -/
theorem out_of_bounds_is_reported :
    (process_big_diff 0 (stamp 5000000000)
      { fresh touched (stamp 0) with spike_ndx := MAX_SPIKES + 1 } 77).isNone = true := by
  decide

/-- C7: every sequence of appends and drains from an empty buffer runs to its end
without an access outside `spikes[MAX_SPIKES+3]` (each read and write of a cell checks
its index and the run has a result), and the cursor it leaves is at most
`MAX_SPIKES - 1`, so that the three cells an escape sequence written there would
take, `spike_ndx`, `spike_ndx + 1` and `spike_ndx + 2`, are inside the array. -/
theorem accesses_stay_in_bounds (spikes : Nat → spike_data_struct) (last : timeval)
    (ops : List Op) :
    ∃ st, run (fresh spikes last) ops = some st ∧ st.spike_ndx ≤ MAX_SPIKES - 1 ∧
      st.spike_ndx + 2 < MAX_SPIKES + 3 ∧
      ∀ op, ∃ st1, step st op = some st1 := by
  obtain ⟨st, e1, b1, _, _⟩ := run_effect ops (fresh spikes last)
    (by simp only [fresh, max_spikes_eq]; norm_num)
  refine ⟨st, e1, by omega, by omega, fun op => ?_⟩
  obtain ⟨st1, e2, _⟩ := step_effect st op b1
  exact ⟨st1, e2⟩

/-- C9, as stated, fails. A spike with gap 0 and magnitude `2^32 + 5` is drained as
the tuple `(0, 5)`, not with its own magnitude; and a spike with gap 0 and magnitude
`2^32` is stored as the marker, so the drain reports gap 42 and spike 0 read from the
cells after it and advances the clock from 10 to 52; and at verbosity 0 no tuple is
printed for either spike. -/
theorem zero_gap_tuple_differs :
    ((appends 1 (fresh touched (stamp 0)) [(stamp 10, 7), (stamp 10, 2 ^ 32 + 5)]).bind
        (print_big_diff 1)).map (new_records (fresh touched (stamp 0))) =
      some [(10, 7), (0, 5)] ∧
    ((appends 1 (fresh touched (stamp 0)) [(stamp 10, 7), (stamp 10, 2 ^ 32)]).bind
        (print_big_diff 1)).map
        (fun s => (new_records (fresh touched (stamp 0)) s, s.cumulative)) =
      some ([(10, 7), (42, 0)], 52) ∧
    ((appends 0 (fresh touched (stamp 0)) [(stamp 10, 7), (stamp 10, 8)]).bind
        (print_big_diff 0)).map (new_records (fresh touched (stamp 0))) = some [] := by
  decide

/-- C9 (amended): in a sequence of appended spikes that triggers no drain and in which
no record has gap 0 together with a magnitude that is a multiple of `2^32`, drained
at verbosity above 0, there is one printed line per appended spike, and a spike whose
gap is 0 gets a line of its own, at its own position, with gap 0, with its magnitude
modulo `2^32`, and with the clock value reached by the records before it: the record
leaves the clock unchanged. -/
theorem zero_gap_record_has_own_line (chatty : Nat) (st : State)
    (pre post : List (timeval × Nat)) (e : timeval × Nat) (hc : 0 < chatty)
    (h0 : st.spike_ndx = 0)
    (hroom : (encode_all (records_of st.last_spike_time (pre ++ e :: post))).length
      < MAX_SPIKES)
    (hm : ∀ r ∈ records_of st.last_spike_time (pre ++ e :: post), ¬ (r.1 = 0 ∧ r.2 = 0))
    (hz : tt_time_diff e.1 (last_of st.last_spike_time pre) = 0) :
    ∃ st1 st2, appends chatty st (pre ++ e :: post) = some st1 ∧
      print_big_diff chatty st1 = some st2 ∧
      st2.out.length = st.out.length + (pre ++ e :: post).length ∧
      new_records st st2 = records_of st.last_spike_time (pre ++ e :: post) ∧
      st2.out[st.out.length + pre.length]? =
        some { cumulative :=
                 (st.cumulative + ((records_of st.last_spike_time pre).map Prod.fst).sum)
                   % ULONG_MOD
               spike := e.2 % UINT_MOD
               this_time := 0 } := by
  obtain ⟨st1, st2, e1, _, _, _, _, _, e7, _, _, _, e11⟩ :=
    appends_then_drain chatty st (pre ++ e :: post) h0 hroom hm
  rw [if_pos hc] at e11
  refine ⟨st1, st2, e1, e7, ?_, ?_, ?_⟩
  · rw [e11, List.length_append, rows_of_length, records_of_length]
  · simp only [new_records, e11, List.drop_left, rows_of_records]
  · obtain ⟨c0, hc0, hrows⟩ := rows_of_append (records_of st.last_spike_time pre)
      (records_of (last_of st.last_spike_time pre) (e :: post)) st.cumulative
    rw [e11, records_of_append, hrows]
    simp only [records_of, rows_of, hz, Nat.add_zero, hc0, to_uint]
    rw [List.getElem?_append_right (by omega), Nat.add_sub_cancel_left,
      List.getElem?_append_right (by rw [rows_of_length, records_of_length]),
      rows_of_length, records_of_length, Nat.sub_self]
    exact List.getElem?_cons_zero

/-- C9 (amended) on three spikes, the last two in the same microsecond as the first. -/
theorem zero_gap_record_has_own_line_witness :
    (0 < 1 ∧ (fresh touched (stamp 0)).spike_ndx = 0 ∧
      (encode_all (records_of (fresh touched (stamp 0)).last_spike_time
        ([(stamp 10, 50)] ++ (stamp 10, 77) :: [(stamp 10, 9)]))).length < MAX_SPIKES ∧
      (∀ r ∈ records_of (fresh touched (stamp 0)).last_spike_time
        ([(stamp 10, 50)] ++ (stamp 10, 77) :: [(stamp 10, 9)]), ¬ (r.1 = 0 ∧ r.2 = 0)) ∧
      tt_time_diff (stamp 10) (last_of (fresh touched (stamp 0)).last_spike_time
        [(stamp 10, 50)]) = 0) ∧
    (∃ st1 st2,
      appends 1 (fresh touched (stamp 0))
        ([(stamp 10, 50)] ++ (stamp 10, 77) :: [(stamp 10, 9)]) = some st1 ∧
      print_big_diff 1 st1 = some st2 ∧
      st2.out.length = (fresh touched (stamp 0)).out.length +
        ([(stamp 10, 50)] ++ (stamp 10, 77) :: [(stamp 10, 9)]).length ∧
      new_records (fresh touched (stamp 0)) st2 =
        records_of (fresh touched (stamp 0)).last_spike_time
          ([(stamp 10, 50)] ++ (stamp 10, 77) :: [(stamp 10, 9)]) ∧
      st2.out[(fresh touched (stamp 0)).out.length + [(stamp 10, 50)].length]? =
        some { cumulative :=
                 ((fresh touched (stamp 0)).cumulative +
                   ((records_of (fresh touched (stamp 0)).last_spike_time
                     [(stamp 10, 50)]).map Prod.fst).sum) % ULONG_MOD
               spike := 77 % UINT_MOD
               this_time := 0 }) ∧
    ((appends 1 (fresh touched (stamp 0))
        ([(stamp 10, 50)] ++ (stamp 10, 77) :: [(stamp 10, 9)])).bind
      (print_big_diff 1)).map (fun s => s.out) =
      some [{ cumulative := 10, spike := 50, this_time := 10 },
        { cumulative := 10, spike := 77, this_time := 0 },
        { cumulative := 10, spike := 9, this_time := 0 }] :=
  ⟨⟨by decide, rfl, by decide, by decide, by decide⟩,
    zero_gap_record_has_own_line 1 (fresh touched (stamp 0)) [(stamp 10, 50)]
      [(stamp 10, 9)] (stamp 10, 77) (by decide) rfl (by decide) (by decide) (by decide),
    by decide⟩

/-! ## Claim C10: classification of a delta in the sampling loops -/

theorem get2_set2_same {α : Type} (a : α × α) (i : Nat) (v : α) :
    get2 (set2 a i v) i = v := by
  unfold get2 set2
  split <;> simp_all

/-- At a cursor below `MAX_SPIKES`, `process_big_diff` returns and leaves a cursor
different from the one it found: advanced when no drain follows, 0 after a drain. -/
theorem process_big_diff_moves_cursor (chatty : Nat) (t_stamp : timeval) (st : State)
    (diff : Nat) (h : st.spike_ndx < MAX_SPIKES) :
    ∃ st1, process_big_diff chatty t_stamp st diff = some st1 ∧
      st1.spike_ndx ≠ st.spike_ndx := by
  have hpos := encode_length_pos (tt_time_diff t_stamp st.last_spike_time) (to_uint diff)
  have hle := encode_length_le (tt_time_diff t_stamp st.last_spike_time) (to_uint diff)
  rw [process_big_diff_eq _ _ _ _ h]
  split
  · next hge =>
    obtain ⟨hb, hl⟩ := appended_drainable st (tt_time_diff t_stamp st.last_spike_time) diff h
    obtain ⟨recs, hp⟩ := print_big_diff_effect chatty _ hb hl
    rw [hp]
    refine ⟨_, rfl, ?_⟩
    simp only [appended, max_spikes_eq] at hge ⊢
    omega
  · refine ⟨_, rfl, ?_⟩
    simp only [appended]
    omega

/-- C10: in each of the three sampling loops (time method, cycle method, cycle method
with the power-hog option) an iteration entered with the cursor below `MAX_SPIKES`
returns, and it appends a spike record, by the call of `process_big_diff` with the
delta as magnitude, which moves the cursor, if and only if the delta is greater than
or equal to the threshold; otherwise the buffer state is left as it was. -/
theorem spike_iff_delta_reaches_threshold (wall : Nat → Option timeval)
    (cycles : Nat → Nat) (chatty threshold count : Nat) (m : Main)
    (h : m.st.spike_ndx < MAX_SPIKES) :
    (∃ m1, time_iteration wall chatty threshold count m = some m1 ∧
      (threshold ≤ time_delta wall m count →
        process_big_diff chatty (tt_gettime wall m.wall_ndx (get2 m.t_stamps count)) m.st
          (time_delta wall m count) = some m1.st) ∧
      (time_delta wall m count < threshold → m1.st = m.st) ∧
      (m1.st.spike_ndx ≠ m.st.spike_ndx ↔ threshold ≤ time_delta wall m count)) ∧
    (∃ m1, cycle_iteration wall cycles chatty threshold count m = some m1 ∧
      (threshold ≤ cycle_delta cycles m count →
        process_big_diff chatty (tt_gettime wall m.wall_ndx m.spike_time) m.st
          (cycle_delta cycles m count) = some m1.st) ∧
      (cycle_delta cycles m count < threshold → m1.st = m.st) ∧
      (m1.st.spike_ndx ≠ m.st.spike_ndx ↔ threshold ≤ cycle_delta cycles m count)) ∧
    (∃ m1, power_hog_iteration wall cycles chatty threshold count m = some m1 ∧
      (threshold ≤ cycle_delta cycles m count →
        process_big_diff chatty (tt_gettime wall m.wall_ndx m.spike_time) m.st
          (cycle_delta cycles m count) = some m1.st) ∧
      (cycle_delta cycles m count < threshold → m1.st = m.st) ∧
      (m1.st.spike_ndx ≠ m.st.spike_ndx ↔ threshold ≤ cycle_delta cycles m count)) := by
  refine ⟨?_, ?_, ?_⟩
  · by_cases hd : threshold ≤ time_delta wall m count
    · obtain ⟨st1, e1, n1⟩ := process_big_diff_moves_cursor chatty
        (tt_gettime wall m.wall_ndx (get2 m.t_stamps count)) m.st (time_delta wall m count) h
      have hit : ∃ m1,
          time_iteration wall chatty threshold count m = some m1 ∧
            m1.st = st1 := by
        unfold time_iteration
        unfold time_delta at hd e1
        simp only [get2_set2_same] at hd e1 ⊢
        simp only [ge_iff_le, hd, if_true, e1]
        exact ⟨_, rfl, rfl⟩
      obtain ⟨m1, hm1, hs⟩ := hit
      exact ⟨m1, hm1, fun _ => hs ▸ e1, fun hlt => absurd hd (by omega), fun _ => hd,
        fun _ => hs ▸ n1⟩
    · have hit : ∃ m1,
          time_iteration wall chatty threshold count m = some m1 ∧
            m1.st = m.st := by
        unfold time_iteration
        unfold time_delta at hd
        simp only [ge_iff_le, hd, if_false]
        exact ⟨_, rfl, rfl⟩
      obtain ⟨m1, hm1, hs⟩ := hit
      exact ⟨m1, hm1, fun hge => absurd hge hd, fun _ => hs,
        fun hne => absurd (by rw [hs]) hne, fun hge => absurd hge hd⟩
  · by_cases hd : threshold ≤ cycle_delta cycles m count
    · obtain ⟨st1, e1, n1⟩ := process_big_diff_moves_cursor chatty
        (tt_gettime wall m.wall_ndx m.spike_time) m.st (cycle_delta cycles m count) h
      have hit : ∃ m1,
          cycle_iteration wall cycles chatty threshold count m = some m1 ∧
            m1.st = st1 := by
        unfold cycle_iteration
        unfold cycle_delta at hd e1
        simp only [ge_iff_le, hd, if_true, e1]
        exact ⟨_, rfl, rfl⟩
      obtain ⟨m1, hm1, hs⟩ := hit
      exact ⟨m1, hm1, fun _ => hs ▸ e1, fun hlt => absurd hd (by omega), fun _ => hd,
        fun _ => hs ▸ n1⟩
    · have hit : ∃ m1,
          cycle_iteration wall cycles chatty threshold count m = some m1 ∧
            m1.st = m.st := by
        unfold cycle_iteration
        unfold cycle_delta at hd
        simp only [ge_iff_le, hd, if_false]
        exact ⟨_, rfl, rfl⟩
      obtain ⟨m1, hm1, hs⟩ := hit
      exact ⟨m1, hm1, fun hge => absurd hge hd, fun _ => hs,
        fun hne => absurd (by rw [hs]) hne, fun hge => absurd hge hd⟩
  · by_cases hd : threshold ≤ cycle_delta cycles m count
    · obtain ⟨st1, e1, n1⟩ := process_big_diff_moves_cursor chatty
        (tt_gettime wall m.wall_ndx m.spike_time) m.st (cycle_delta cycles m count) h
      have hit : ∃ m1,
          power_hog_iteration wall cycles chatty threshold count m = some m1 ∧
            m1.st = st1 := by
        unfold power_hog_iteration
        unfold cycle_delta at hd e1
        simp only [ge_iff_le, hd, if_true, e1]
        exact ⟨_, rfl, rfl⟩
      obtain ⟨m1, hm1, hs⟩ := hit
      exact ⟨m1, hm1, fun _ => hs ▸ e1, fun hlt => absurd hd (by omega), fun _ => hd,
        fun _ => hs ▸ n1⟩
    · have hit : ∃ m1,
          power_hog_iteration wall cycles chatty threshold count m = some m1 ∧
            m1.st = m.st := by
        unfold power_hog_iteration
        unfold cycle_delta at hd
        simp only [ge_iff_le, hd, if_false]
        exact ⟨_, rfl, rfl⟩
      obtain ⟨m1, hm1, hs⟩ := hit
      exact ⟨m1, hm1, fun hge => absurd hge hd, fun _ => hs,
        fun hne => absurd (by rw [hs]) hne, fun hge => absurd hge hd⟩

/-- C10 with threshold 10 on a first iteration whose delta is exactly 10, in each
loop; and, evaluated, a delta of 10 moves the cursor to 1 while a delta of 9 leaves it
at 0 and lowers `min_spike` to 9. -/
theorem spike_iff_delta_reaches_threshold_witness :
    (main_at (stamp 1000) 5000).st.spike_ndx < MAX_SPIKES ∧
    ((∃ m1,
      time_iteration (wall_of [1010, 1011]) 1 10 1
        (main_at (stamp 1000) 5000) = some m1 ∧
      (10 ≤ time_delta (wall_of [1010, 1011]) (main_at (stamp 1000) 5000) 1 →
        process_big_diff 1
          (tt_gettime (wall_of [1010, 1011]) (main_at (stamp 1000) 5000).wall_ndx
            (get2 (main_at (stamp 1000) 5000).t_stamps 1))
          (main_at (stamp 1000) 5000).st
          (time_delta (wall_of [1010, 1011]) (main_at (stamp 1000) 5000) 1) = some m1.st) ∧
      (time_delta (wall_of [1010, 1011]) (main_at (stamp 1000) 5000) 1 < 10 →
        m1.st = (main_at (stamp 1000) 5000).st) ∧
      (m1.st.spike_ndx ≠ (main_at (stamp 1000) 5000).st.spike_ndx ↔
        10 ≤ time_delta (wall_of [1010, 1011]) (main_at (stamp 1000) 5000) 1)) ∧
    (∃ m1,
      cycle_iteration (wall_of [1010, 1011]) (cycles_of [5010, 5011]) 1 10 1
        (main_at (stamp 1000) 5000) = some m1 ∧
      (10 ≤ cycle_delta (cycles_of [5010, 5011]) (main_at (stamp 1000) 5000) 1 →
        process_big_diff 1
          (tt_gettime (wall_of [1010, 1011]) (main_at (stamp 1000) 5000).wall_ndx
            (main_at (stamp 1000) 5000).spike_time)
          (main_at (stamp 1000) 5000).st
          (cycle_delta (cycles_of [5010, 5011]) (main_at (stamp 1000) 5000) 1) = some m1.st) ∧
      (cycle_delta (cycles_of [5010, 5011]) (main_at (stamp 1000) 5000) 1 < 10 →
        m1.st = (main_at (stamp 1000) 5000).st) ∧
      (m1.st.spike_ndx ≠ (main_at (stamp 1000) 5000).st.spike_ndx ↔
        10 ≤ cycle_delta (cycles_of [5010, 5011]) (main_at (stamp 1000) 5000) 1)) ∧
    (∃ m1,
      power_hog_iteration (wall_of [1010, 1011]) (cycles_of [5010, 5011]) 1 10 1
        (main_at (stamp 1000) 5000) = some m1 ∧
      (10 ≤ cycle_delta (cycles_of [5010, 5011]) (main_at (stamp 1000) 5000) 1 →
        process_big_diff 1
          (tt_gettime (wall_of [1010, 1011]) (main_at (stamp 1000) 5000).wall_ndx
            (main_at (stamp 1000) 5000).spike_time)
          (main_at (stamp 1000) 5000).st
          (cycle_delta (cycles_of [5010, 5011]) (main_at (stamp 1000) 5000) 1) = some m1.st) ∧
      (cycle_delta (cycles_of [5010, 5011]) (main_at (stamp 1000) 5000) 1 < 10 →
        m1.st = (main_at (stamp 1000) 5000).st) ∧
      (m1.st.spike_ndx ≠ (main_at (stamp 1000) 5000).st.spike_ndx ↔
        10 ≤ cycle_delta (cycles_of [5010, 5011]) (main_at (stamp 1000) 5000) 1))) ∧
    (time_delta (wall_of [1010, 1011]) (main_at (stamp 1000) 5000) 1 = 10 ∧
      (time_iteration (wall_of [1010, 1011]) 1 10 1 (main_at (stamp 1000) 5000)).map
        (fun m => (m.st.spike_ndx, m.min_spike)) = some (1, ULONG_MAX)) ∧
    (time_delta (wall_of [1009]) (main_at (stamp 1000) 5000) 1 = 9 ∧
      (time_iteration (wall_of [1009]) 1 10 1 (main_at (stamp 1000) 5000)).map
        (fun m => (m.st.spike_ndx, m.min_spike)) = some (0, 9)) ∧
    (cycle_delta (cycles_of [5010, 5011]) (main_at (stamp 1000) 5000) 1 = 10 ∧
      (cycle_iteration (wall_of [1010, 1011]) (cycles_of [5010, 5011]) 1 10 1
        (main_at (stamp 1000) 5000)).map
        (fun m => (m.st.spike_ndx, m.min_spike)) = some (1, ULONG_MAX) ∧
      (power_hog_iteration (wall_of [1010, 1011]) (cycles_of [5010, 5011]) 1 10 1
        (main_at (stamp 1000) 5000)).map
        (fun m => (m.st.spike_ndx, m.min_spike)) = some (1, ULONG_MAX)) ∧
    (cycle_delta (cycles_of [5009]) (main_at (stamp 1000) 5000) 1 = 9 ∧
      (cycle_iteration (wall_of [1010, 1011]) (cycles_of [5009]) 1 10 1
        (main_at (stamp 1000) 5000)).map
        (fun m => (m.st.spike_ndx, m.min_spike)) = some (0, 9) ∧
      (power_hog_iteration (wall_of [1010, 1011]) (cycles_of [5009]) 1 10 1
        (main_at (stamp 1000) 5000)).map
        (fun m => (m.st.spike_ndx, m.min_spike)) = some (0, 9)) :=
  ⟨by decide,
    spike_iff_delta_reaches_threshold (wall_of [1010, 1011]) (cycles_of [5010, 5011]) 1 10 1
      (main_at (stamp 1000) 5000) (by decide),
    by decide, by decide, by decide, by decide⟩

/-! ## Loops -/

theorem dec_ulong_succ {count : Nat} (h : count < ULONG_MOD) :
    dec_ulong ((count + 1) % ULONG_MOD) = count := by
  unfold dec_ulong
  unfold ULONG_MOD at *
  omega

theorem dec_ulong_parity (count : Nat) : dec_ulong count % 2 = (count + 1) % 2 := by
  unfold dec_ulong ULONG_MOD
  omega

theorem get2_set2_dec {α : Type} (a : α × α) (count : Nat) (v : α) :
    get2 (set2 a count v) (dec_ulong count) = get2 a (dec_ulong count) := by
  have h := dec_ulong_parity count
  unfold get2 set2
  by_cases h0 : count % 2 = 0
  · have h1 : dec_ulong count % 2 ≠ 0 := by omega
    simp [h0, h1]
  · have h1 : dec_ulong count % 2 = 0 := by omega
    simp [h0, h1]

/-- A loop whose body keeps an invariant and has a result whenever the invariant
holds runs to its end, when `loopcount` is below `ULONG_MAX`, and the invariant holds
at the end. -/
theorem loop_from_invariant (body : Nat → Main → Option Main) (loopcount : Nat)
    (I : Nat → Main → Prop) (hl : loopcount < ULONG_MAX)
    (hbody : ∀ count m, 1 ≤ count → count ≤ loopcount → I count m →
      ∃ m1, body count m = some m1 ∧ I (count + 1) m1) :
    ∀ (fuel count : Nat) (m : Main), 1 ≤ count → count ≤ loopcount + 1 →
      loopcount + 1 ≤ count + fuel → I count m →
      ∃ m1, loop_from body loopcount fuel count m = some m1 ∧ I (loopcount + 1) m1 := by
  have hM : loopcount + 1 < ULONG_MOD := by
    unfold ULONG_MAX at hl
    unfold ULONG_MOD
    omega
  intro fuel
  induction fuel with
  | zero =>
    intro count m _ h2 h3 hI
    have hc : count = loopcount + 1 := by omega
    subst hc
    exact ⟨m, by simp [loop_from], hI⟩
  | succ fuel ih =>
    intro count m h1 h2 h3 hI
    by_cases hc : count ≤ loopcount
    · obtain ⟨m1, e1, hI1⟩ := hbody count m h1 hc hI
      obtain ⟨m2, e2, hI2⟩ := ih (count + 1) m1 (by omega) (by omega) (by omega) hI1
      refine ⟨m2, ?_, hI2⟩
      rw [loop_from, if_pos hc, e1]
      simp only
      rw [Nat.mod_eq_of_lt (by omega)]
      exact e2
    · have hc1 : count = loopcount + 1 := by omega
      subst hc1
      exact ⟨m, by rw [loop_from, if_neg hc], hI⟩

theorem for_loop_invariant (body : Nat → Main → Option Main) (loopcount : Nat)
    (I : Nat → Main → Prop) (hl : loopcount < ULONG_MAX)
    (hbody : ∀ count m, 1 ≤ count → count ≤ loopcount → I count m →
      ∃ m1, body count m = some m1 ∧ I (count + 1) m1)
    (m : Main) (h : I 1 m) :
    ∃ m1, for_loop body loopcount m = some m1 ∧ I (loopcount + 1) m1 :=
  loop_from_invariant body loopcount I hl hbody loopcount 1 m (le_refl _) (by omega)
    (by omega) h

theorem foldl_min_le_init (l : List Nat) : ∀ a : Nat, l.foldl min a ≤ a := by
  induction l with
  | nil => intro a; exact le_refl _
  | cons d ds ih =>
    intro a
    exact le_trans (ih (min a d)) (Nat.min_le_left a d)

theorem foldl_min_le_mem (l : List Nat) : ∀ a : Nat, ∀ d ∈ l, l.foldl min a ≤ d := by
  induction l with
  | nil => intro a d hd; simp at hd
  | cons e es ih =>
    intro a d hd
    rw [List.mem_cons] at hd
    rcases hd with hd | hd
    · subst hd
      exact le_trans (foldl_min_le_init es (min a d)) (Nat.min_le_right a d)
    · exact ih (min a e) d hd

theorem foldl_min_mem (l : List Nat) : ∀ a : Nat, l.foldl min a = a ∨ l.foldl min a ∈ l := by
  induction l with
  | nil => intro a; exact Or.inl rfl
  | cons e es ih =>
    intro a
    rcases ih (min a e) with h | h
    · rcases Nat.le_total a e with hae | hae
      · left
        rw [List.foldl_cons, h, Nat.min_eq_left hae]
      · right
        rw [List.foldl_cons, h, Nat.min_eq_right hae]
        exact List.mem_cons_self _ _
    · right
      exact List.mem_cons_of_mem _ h

/-- A loop whose body lowers `min_spike` to the delta exactly when the delta is below
`threshold` leaves in `min_spike` the least of its start value and the deltas that
were below `threshold`. -/
theorem loop_min_spike (delta : Main → Nat → Nat) (body : Nat → Main → Option Main)
    (loopcount threshold : Nat)
    (htrack : ∀ count m m1, body count m = some m1 →
      m1.min_spike = if delta m count < threshold then min m.min_spike (delta m count)
        else m.min_spike) :
    ∀ (fuel count : Nat) (m m1 : Main), loop_from body loopcount fuel count m = some m1 →
      m1.min_spike =
        ((loop_deltas delta body loopcount fuel count m).filter
          (fun d => decide (d < threshold))).foldl min m.min_spike := by
  intro fuel
  induction fuel with
  | zero =>
    intro count m m1 h
    rw [loop_from] at h
    split at h
    · simp at h
    · simp only [Option.some.injEq] at h
      subst h
      simp [loop_deltas]
  | succ fuel ih =>
    intro count m m1 h
    rw [loop_from] at h
    rw [loop_deltas]
    split at h
    · next hc =>
      rw [if_pos hc]
      cases hb : body count m with
      | none => simp [hb] at h
      | some m2 =>
        simp only [hb] at h ⊢
        rw [ih _ m2 m1 h, htrack count m m2 hb]
        by_cases hd : delta m count < threshold
        · simp [List.filter_cons, hd]
        · simp [List.filter_cons, hd]
    · next hc =>
      rw [if_neg hc]
      simp only [Option.some.injEq] at h
      subst h
      simp

/-! ## One iteration of a sampling loop -/

/-- What `process_big_diff` does at a cursor below `MAX_SPIKES`: it returns, leaves
the cursor below `MAX_SPIKES` and different from before, sets `last_spike_time` to
`t_stamp`, leaves at the old cursor the cells of the record whose gap is
`tt_time_diff t_stamp last_spike_time`, and prints nothing at verbosity 0. -/
theorem process_big_diff_spec (chatty : Nat) (t_stamp : timeval) (st : State) (diff : Nat)
    (h : st.spike_ndx < MAX_SPIKES) :
    ∃ st1, process_big_diff chatty t_stamp st diff = some st1 ∧
      st1.spike_ndx < MAX_SPIKES ∧ st1.spike_ndx ≠ st.spike_ndx ∧
      st1.last_spike_time = t_stamp ∧
      holds st1.spikes st.spike_ndx
        (encode (tt_time_diff t_stamp st.last_spike_time) (to_uint diff)) ∧
      (chatty = 0 → st1.out = st.out) := by
  have hpos := encode_length_pos (tt_time_diff t_stamp st.last_spike_time) (to_uint diff)
  rw [process_big_diff_eq _ _ _ _ h]
  split
  · next hge =>
    obtain ⟨hb, hl⟩ := appended_drainable st (tt_time_diff t_stamp st.last_spike_time) diff h
    obtain ⟨recs, hp⟩ := print_big_diff_effect chatty _ hb hl
    rw [hp]
    refine ⟨_, rfl, by simp only [max_spikes_eq]; norm_num, ?_, rfl, ?_, ?_⟩
    · have e : (appended st (tt_time_diff t_stamp st.last_spike_time) diff).spike_ndx =
          st.spike_ndx + (encode (tt_time_diff t_stamp st.last_spike_time)
            (to_uint diff)).length := rfl
      have hle := encode_length_le (tt_time_diff t_stamp st.last_spike_time) (to_uint diff)
      rw [e, max_spikes_eq] at hge
      show 0 ≠ st.spike_ndx
      omega
    · simp only [emit_all_spikes, appended]
      exact holds_write_cells _ _ _
    · intro hc
      simp only [emit_all_out, hc, Nat.lt_irrefl, if_false, appended]
  · next hlt =>
    refine ⟨_, rfl, by simpa using hlt, ?_, rfl, ?_, fun _ => rfl⟩
    · simp only [appended]
      omega
    · simp only [appended]
      exact holds_write_cells _ _ _

/-- The time-loop iteration whose delta reaches the threshold. -/
theorem time_iteration_spike (wall : Nat → Option timeval) (chatty threshold count : Nat)
    (m : Main) (st1 : State) (hd : threshold ≤ time_delta wall m count)
    (hp : process_big_diff chatty (tt_gettime wall m.wall_ndx (get2 m.t_stamps count)) m.st
      (time_delta wall m count) = some st1) :
    time_iteration wall chatty threshold count m =
      some { m with
        st := st1
        wall_ndx := m.wall_ndx + 2
        temp_stamp := tt_gettime wall (m.wall_ndx + 1) m.temp_stamp
        overhead_seconds := add_overhead m.overhead_seconds
          (tt_gettime wall (m.wall_ndx + 1) m.temp_stamp)
          (tt_gettime wall m.wall_ndx (get2 m.t_stamps count))
        t_stamps := set2
          (set2 m.t_stamps count (tt_gettime wall m.wall_ndx (get2 m.t_stamps count)))
          count (tt_gettime wall (m.wall_ndx + 1) m.temp_stamp) } := by
  unfold time_iteration
  unfold time_delta at hd hp
  simp only [get2_set2_same] at hd hp ⊢
  simp only [ge_iff_le, hd, if_true, hp]

/-- The time-loop iteration whose delta is below the threshold. -/
theorem time_iteration_quiet (wall : Nat → Option timeval) (chatty threshold count : Nat)
    (m : Main) (hd : time_delta wall m count < threshold) :
    time_iteration wall chatty threshold count m =
      some { m with
        wall_ndx := m.wall_ndx + 1
        t_stamps :=
          set2 m.t_stamps count (tt_gettime wall m.wall_ndx (get2 m.t_stamps count))
        min_spike := if time_delta wall m count < m.min_spike then time_delta wall m count
          else m.min_spike } := by
  unfold time_iteration
  unfold time_delta at hd ⊢
  have hd1 := Nat.not_le.mpr hd
  simp only [ge_iff_le, hd1, if_false]

/-- The cycle-loop iteration (no power hog) whose delta reaches the threshold. -/
theorem cycle_iteration_spike (wall : Nat → Option timeval) (cycles : Nat → Nat)
    (chatty threshold count : Nat) (m : Main) (st1 : State)
    (hd : threshold ≤ cycle_delta cycles m count)
    (hp : process_big_diff chatty (tt_gettime wall m.wall_ndx m.spike_time) m.st
      (cycle_delta cycles m count) = some st1) :
    cycle_iteration wall cycles chatty threshold count m =
      some { m with
        st := st1
        wall_ndx := m.wall_ndx + 1
        cycle_ndx := m.cycle_ndx + 2
        spike_time := tt_gettime wall m.wall_ndx m.spike_time
        overhead_cycles :=
          (m.overhead_cycles +
            (get_cycles cycles (m.cycle_ndx + 1) +
              (ULONG_MOD - get_cycles cycles m.cycle_ndx)) % ULONG_MOD) % ULONG_MOD
        cycle_stamp := set2 (set2 m.cycle_stamp count (get_cycles cycles m.cycle_ndx)) count
          (get_cycles cycles (m.cycle_ndx + 1)) } := by
  unfold cycle_iteration
  unfold cycle_delta at hd hp
  simp only [get2_set2_same] at hd hp ⊢
  simp only [ge_iff_le, hd, if_true, hp]

/-- The power-hog iteration whose delta reaches the threshold. -/
theorem power_hog_iteration_spike (wall : Nat → Option timeval) (cycles : Nat → Nat)
    (chatty threshold count : Nat) (m : Main) (st1 : State)
    (hd : threshold ≤ cycle_delta cycles m count)
    (hp : process_big_diff chatty (tt_gettime wall m.wall_ndx m.spike_time) m.st
      (cycle_delta cycles m count) = some st1) :
    power_hog_iteration wall cycles chatty threshold count m =
      some { m with
        st := st1
        wall_ndx := m.wall_ndx + 1
        cycle_ndx := m.cycle_ndx + 2
        spike_time := tt_gettime wall m.wall_ndx m.spike_time
        cycle_stamp := set2 (set2 m.cycle_stamp count (get_cycles cycles m.cycle_ndx)) count
          (get_cycles cycles (m.cycle_ndx + 1)) } := by
  unfold power_hog_iteration
  unfold cycle_delta at hd hp
  simp only [ge_iff_le, hd, if_true, hp]

/-- The iteration of either cycle loop whose delta is below the threshold. -/
theorem cycle_iteration_quiet (wall : Nat → Option timeval) (cycles : Nat → Nat)
    (chatty threshold count : Nat) (m : Main) (hd : cycle_delta cycles m count < threshold) :
    cycle_iteration wall cycles chatty threshold count m =
      some { m with
        cycle_ndx := m.cycle_ndx + 1
        cycle_stamp := set2 m.cycle_stamp count (get_cycles cycles m.cycle_ndx)
        min_spike := if cycle_delta cycles m count < m.min_spike
          then cycle_delta cycles m count else m.min_spike } ∧
    power_hog_iteration wall cycles chatty threshold count m =
      some { m with
        cycle_ndx := m.cycle_ndx + 1
        cycle_stamp := set2 m.cycle_stamp count (get_cycles cycles m.cycle_ndx)
        min_spike := if cycle_delta cycles m count < m.min_spike
          then cycle_delta cycles m count else m.min_spike } := by
  unfold cycle_iteration power_hog_iteration
  unfold cycle_delta at hd ⊢
  have hd1 := Nat.not_le.mpr hd
  simp only [ge_iff_le, hd1, if_false, and_self]

/-- An iteration of the time loop entered with the cursor below `MAX_SPIKES` returns
and leaves the cursor below `MAX_SPIKES`. -/
theorem time_iteration_ok (wall : Nat → Option timeval) (chatty threshold count : Nat)
    (m : Main) (hi : m.st.spike_ndx < MAX_SPIKES) :
    ∃ m1, time_iteration wall chatty threshold count m = some m1 ∧
      m1.st.spike_ndx < MAX_SPIKES := by
  by_cases hd : threshold ≤ time_delta wall m count
  · obtain ⟨st1, hp, hc, _⟩ := process_big_diff_spec chatty
      (tt_gettime wall m.wall_ndx (get2 m.t_stamps count)) m.st (time_delta wall m count) hi
    exact ⟨_, time_iteration_spike wall chatty threshold count m st1 hd hp, hc⟩
  · exact ⟨_, time_iteration_quiet wall chatty threshold count m (Nat.not_le.mp hd), hi⟩

/-- An iteration of the time loop lowers `min_spike` to its delta when the delta is
below the threshold and leaves `min_spike` alone otherwise. -/
theorem time_iteration_min_spike (wall : Nat → Option timeval) (chatty threshold : Nat)
    (count : Nat) (m m1 : Main) (h : time_iteration wall chatty threshold count m = some m1) :
    m1.min_spike = if time_delta wall m count < threshold
      then min m.min_spike (time_delta wall m count) else m.min_spike := by
  by_cases hd : threshold ≤ time_delta wall m count
  · rw [if_neg (Nat.not_lt.mpr hd)]
    cases hp : process_big_diff chatty (tt_gettime wall m.wall_ndx (get2 m.t_stamps count))
        m.st (time_delta wall m count) with
    | none =>
      unfold time_iteration at h
      unfold time_delta at hd hp
      simp only [get2_set2_same] at hd hp h
      simp only [ge_iff_le, hd, if_true, hp] at h
      exact absurd h (by simp)
    | some st1 =>
      rw [time_iteration_spike wall chatty threshold count m st1 hd hp] at h
      simp only [Option.some.injEq] at h
      subst h
      rfl
  · have hlt := Nat.not_le.mp hd
    rw [if_pos hlt]
    rw [time_iteration_quiet wall chatty threshold count m hlt] at h
    simp only [Option.some.injEq] at h
    subst h
    show (if time_delta wall m count < m.min_spike then time_delta wall m count
      else m.min_spike) = min m.min_spike (time_delta wall m count)
    split
    · next hlo => exact (Nat.min_eq_right (Nat.le_of_lt hlo)).symm
    · next hhi => exact (Nat.min_eq_left (Nat.not_lt.mp hhi)).symm

/-! ## C11: the minimum of the deltas below the threshold -/

/-- C11 (non-spike minimum, time method). The time loop of `loopcount` iterations,
entered with the cursor inside the buffer, runs to its end, and the `min_spike` it
leaves is the least of the start value of `min_spike` and the deltas that were below the
threshold, taken in order: a delta that reached the threshold does not enter the
minimum. In particular the result is at most every delta below the threshold, and it is
the start value or one of those deltas. -/
theorem min_spike_is_least_quiet_delta (wall : Nat → Option timeval)
    (chatty threshold loopcount : Nat) (m : Main)
    (hi : m.st.spike_ndx < MAX_SPIKES) (hl : loopcount < ULONG_MAX) :
    ∃ m1, for_loop (time_iteration wall chatty threshold) loopcount m = some m1 ∧
      m1.min_spike =
        ((loop_deltas (time_delta wall) (time_iteration wall chatty threshold)
            loopcount loopcount 1 m).filter (fun d => decide (d < threshold))).foldl min
          m.min_spike ∧
      (∀ d ∈ loop_deltas (time_delta wall) (time_iteration wall chatty threshold)
            loopcount loopcount 1 m, d < threshold → m1.min_spike ≤ d) ∧
      (m1.min_spike = m.min_spike ∨
        (m1.min_spike ∈ loop_deltas (time_delta wall) (time_iteration wall chatty threshold)
            loopcount loopcount 1 m ∧ m1.min_spike < threshold)) := by
  obtain ⟨m1, h1, _⟩ := for_loop_invariant (time_iteration wall chatty threshold) loopcount
    (fun _ m => m.st.spike_ndx < MAX_SPIKES) hl
    (fun count m _ _ hI => time_iteration_ok wall chatty threshold count m hI) m hi
  have h2 := loop_min_spike (time_delta wall) (time_iteration wall chatty threshold)
    loopcount threshold (time_iteration_min_spike wall chatty threshold) loopcount 1 m m1 h1
  refine ⟨m1, h1, h2, ?_, ?_⟩
  · intro d hd hlt
    rw [h2]
    exact foldl_min_le_mem _ _ d (List.mem_filter.mpr ⟨hd, by simpa using hlt⟩)
  · rw [h2]
    rcases foldl_min_mem ((loop_deltas (time_delta wall)
      (time_iteration wall chatty threshold) loopcount loopcount 1 m).filter
      (fun d => decide (d < threshold))) m.min_spike with h | h
    · exact Or.inl h
    · right
      rw [List.mem_filter] at h
      exact ⟨h.1, by simpa using h.2⟩

/-- The example of C11: samples giving the deltas 50, 30, 9, 40 with threshold 35 leave
`min_spike = 9`, starting from `ULONG_MAX`. -/
theorem min_spike_is_least_quiet_delta_witness :
    (main_at (stamp 1000) 0).st.spike_ndx < MAX_SPIKES ∧ 4 < ULONG_MAX ∧
    (main_at (stamp 1000) 0).min_spike = ULONG_MAX ∧
    loop_deltas (time_delta (wall_of [1050, 1050, 1080, 1089, 1129, 1129]))
      (time_iteration (wall_of [1050, 1050, 1080, 1089, 1129, 1129]) 1 35) 4 4 1
      (main_at (stamp 1000) 0) = [50, 30, 9, 40] ∧
    ∃ m1, for_loop (time_iteration (wall_of [1050, 1050, 1080, 1089, 1129, 1129]) 1 35) 4
        (main_at (stamp 1000) 0) = some m1 ∧ m1.min_spike = 9 := by
  have hd : loop_deltas (time_delta (wall_of [1050, 1050, 1080, 1089, 1129, 1129]))
      (time_iteration (wall_of [1050, 1050, 1080, 1089, 1129, 1129]) 1 35) 4 4 1
      (main_at (stamp 1000) 0) = [50, 30, 9, 40] := by decide
  obtain ⟨m1, h1, h2, _⟩ := min_spike_is_least_quiet_delta
    (wall_of [1050, 1050, 1080, 1089, 1129, 1129]) 1 35 4 (main_at (stamp 1000) 0)
    (by decide) (by decide)
  refine ⟨by decide, by decide, rfl, hd, m1, h1, ?_⟩
  rw [h2, hd]
  decide

/-! ## C17: the baseline of the next delta -/

/-- The delta of iteration `count + 1` is the difference between its own sample and
what iteration `count` left in `t_stamps[count%2]`. -/
theorem time_delta_next (wall : Nat → Option timeval) (m1 : Main) (count : Nat)
    (hc : count < ULONG_MOD) :
    time_delta wall m1 ((count + 1) % ULONG_MOD) =
      tt_time_diff
        (tt_gettime wall m1.wall_ndx (get2 m1.t_stamps ((count + 1) % ULONG_MOD)))
        (get2 m1.t_stamps count) := by
  unfold time_delta
  rw [get2_set2_same, get2_set2_dec, dec_ulong_succ hc]

/-- C17 (baseline replacement after a spike, time method). An iteration of the time
loop entered with the cursor inside the buffer returns. When its delta reached the
threshold it has made two reads of the wall clock, and the delta of the next iteration
is the difference between the next sample and the value of the second read, the one
made after `process_big_diff` returned (read number `wall_ndx + 1`), not the spike's
own timestamp (read number `wall_ndx`). When its delta was below the threshold it has
made one read, and the next delta is measured against that sample. -/
theorem next_delta_baseline (wall : Nat → Option timeval) (chatty threshold count : Nat)
    (m : Main) (hc : count < ULONG_MOD) (hi : m.st.spike_ndx < MAX_SPIKES) :
    ∃ m1, time_iteration wall chatty threshold count m = some m1 ∧
      (threshold ≤ time_delta wall m count →
        m1.wall_ndx = m.wall_ndx + 2 ∧
        time_delta wall m1 ((count + 1) % ULONG_MOD) =
          tt_time_diff
            (tt_gettime wall (m.wall_ndx + 2) (get2 m1.t_stamps ((count + 1) % ULONG_MOD)))
            (tt_gettime wall (m.wall_ndx + 1) m.temp_stamp)) ∧
      (time_delta wall m count < threshold →
        m1.wall_ndx = m.wall_ndx + 1 ∧
        time_delta wall m1 ((count + 1) % ULONG_MOD) =
          tt_time_diff
            (tt_gettime wall (m.wall_ndx + 1) (get2 m1.t_stamps ((count + 1) % ULONG_MOD)))
            (tt_gettime wall m.wall_ndx (get2 m.t_stamps count))) := by
  by_cases hd : threshold ≤ time_delta wall m count
  · obtain ⟨st1, hp, _⟩ := process_big_diff_spec chatty
      (tt_gettime wall m.wall_ndx (get2 m.t_stamps count)) m.st (time_delta wall m count) hi
    refine ⟨_, time_iteration_spike wall chatty threshold count m st1 hd hp, ?_, ?_⟩
    · intro _
      refine ⟨rfl, ?_⟩
      rw [time_delta_next wall _ count hc]
      simp only [get2_set2_same]
    · intro hlt
      omega
  · have hlt := Nat.not_le.mp hd
    refine ⟨_, time_iteration_quiet wall chatty threshold count m hlt, ?_, ?_⟩
    · intro hge
      omega
    · intro _
      refine ⟨rfl, ?_⟩
      rw [time_delta_next wall _ count hc]
      simp only [get2_set2_same]

/-- An instance of C17: a spike sampled at 1050 us, the clock re-read at 1053 us, the
next sample at 1060 us: the next delta is 7, not 10. -/
theorem next_delta_baseline_witness :
    1 < ULONG_MOD ∧ (main_at (stamp 1000) 0).st.spike_ndx < MAX_SPIKES ∧
    35 ≤ time_delta (wall_of [1050, 1053, 1060]) (main_at (stamp 1000) 0) 1 ∧
    ∃ m1, time_iteration (wall_of [1050, 1053, 1060]) 1 35 1 (main_at (stamp 1000) 0) =
        some m1 ∧
      time_delta (wall_of [1050, 1053, 1060]) m1 2 = 7 := by
  have hd : 35 ≤ time_delta (wall_of [1050, 1053, 1060]) (main_at (stamp 1000) 0) 1 := by
    decide
  obtain ⟨m1, h1, h2, _⟩ := next_delta_baseline (wall_of [1050, 1053, 1060]) 1 35 1
    (main_at (stamp 1000) 0) (by decide) (by decide)
  refine ⟨by decide, by decide, hd, m1, h1, ?_⟩
  have h3 := (h2 hd).2
  have e : (1 + 1) % ULONG_MOD = 2 := by decide
  have e2 : ∀ old : timeval, tt_gettime (wall_of [1050, 1053, 1060])
      ((main_at (stamp 1000) 0).wall_ndx + 2) old = stamp 1060 := fun _ => rfl
  rw [e] at h3
  rw [h3, e2]
  decide

/-! ## C18: the arithmetic of `overhead_seconds` -/

/-- The update of `overhead_seconds` on normalised microsecond fields: the total grows
by `temp_stamp - t` and the microsecond field stays normalised. -/
theorem add_overhead_total (o post t : timeval)
    (ho : 0 ≤ o.tv_usec ∧ o.tv_usec < 1000000)
    (hpost : 0 ≤ post.tv_usec ∧ post.tv_usec < 1000000)
    (ht : 0 ≤ t.tv_usec ∧ t.tv_usec < 1000000) :
    (add_overhead o post t).tv_sec * 1000000 + (add_overhead o post t).tv_usec =
      o.tv_sec * 1000000 + o.tv_usec +
        ((post.tv_sec * 1000000 + post.tv_usec) - (t.tv_sec * 1000000 + t.tv_usec)) ∧
    0 ≤ (add_overhead o post t).tv_usec ∧ (add_overhead o post t).tv_usec < 1000000 := by
  unfold add_overhead
  simp only
  split <;> split <;> simp only [] <;> omega

/-- With normalised microsecond fields and seconds fields below `2^61` in absolute
value, every value computed by the overhead bookkeeping fits a `long`. -/
theorem overhead_steps_in_long (o post t : timeval)
    (ho : 0 ≤ o.tv_usec ∧ o.tv_usec < 1000000)
    (hpost : 0 ≤ post.tv_usec ∧ post.tv_usec < 1000000)
    (ht : 0 ≤ t.tv_usec ∧ t.tv_usec < 1000000)
    (hs : -(2 ^ 61 : Int) < o.tv_sec ∧ o.tv_sec < 2 ^ 61 ∧
      -(2 ^ 61 : Int) < post.tv_sec ∧ post.tv_sec < 2 ^ 61 ∧
      -(2 ^ 61 : Int) < t.tv_sec ∧ t.tv_sec < 2 ^ 61) :
    ∀ x ∈ overhead_steps o post t, in_long x := by
  intro x hx
  unfold overhead_steps add_overhead at hx
  simp only [List.mem_cons, List.mem_singleton, List.not_mem_nil, or_false] at hx
  unfold in_long
  rcases hx with h | h | h | h | h | h | h | h <;> subst h <;>
    (repeat' split) <;> (try simp only []) <;> omega

/-- C18 (overhead accumulation, time method). In an iteration of the time loop whose
delta reaches the threshold, with `overhead_seconds` normalised and the microsecond
fields of the spike timestamp and of the timestamp read after `process_big_diff` in
`[0, 1000000)`: the iteration returns, the total
`tv_sec * 1000000 + tv_usec` of `overhead_seconds` has grown by exactly the second
timestamp minus the spike timestamp in microseconds, and `tv_usec` is again in
`[0, 1000000)`. When the seconds fields are below `2^61` in absolute value no step of
the computation leaves the range of `long`. -/
theorem overhead_seconds_grows_by_handling_time (wall : Nat → Option timeval)
    (chatty threshold count : Nat) (m : Main)
    (hi : m.st.spike_ndx < MAX_SPIKES) (hd : threshold ≤ time_delta wall m count)
    (ho : 0 ≤ m.overhead_seconds.tv_usec ∧ m.overhead_seconds.tv_usec < 1000000)
    (ht : 0 ≤ (tt_gettime wall m.wall_ndx (get2 m.t_stamps count)).tv_usec ∧
      (tt_gettime wall m.wall_ndx (get2 m.t_stamps count)).tv_usec < 1000000)
    (hpost : 0 ≤ (tt_gettime wall (m.wall_ndx + 1) m.temp_stamp).tv_usec ∧
      (tt_gettime wall (m.wall_ndx + 1) m.temp_stamp).tv_usec < 1000000) :
    ∃ m1, time_iteration wall chatty threshold count m = some m1 ∧
      m1.overhead_seconds.tv_sec * 1000000 + m1.overhead_seconds.tv_usec =
        m.overhead_seconds.tv_sec * 1000000 + m.overhead_seconds.tv_usec +
          (((tt_gettime wall (m.wall_ndx + 1) m.temp_stamp).tv_sec * 1000000 +
              (tt_gettime wall (m.wall_ndx + 1) m.temp_stamp).tv_usec) -
            ((tt_gettime wall m.wall_ndx (get2 m.t_stamps count)).tv_sec * 1000000 +
              (tt_gettime wall m.wall_ndx (get2 m.t_stamps count)).tv_usec)) ∧
      0 ≤ m1.overhead_seconds.tv_usec ∧ m1.overhead_seconds.tv_usec < 1000000 ∧
      ((-(2 ^ 61 : Int) < m.overhead_seconds.tv_sec ∧ m.overhead_seconds.tv_sec < 2 ^ 61 ∧
        -(2 ^ 61 : Int) < (tt_gettime wall (m.wall_ndx + 1) m.temp_stamp).tv_sec ∧
        (tt_gettime wall (m.wall_ndx + 1) m.temp_stamp).tv_sec < 2 ^ 61 ∧
        -(2 ^ 61 : Int) < (tt_gettime wall m.wall_ndx (get2 m.t_stamps count)).tv_sec ∧
        (tt_gettime wall m.wall_ndx (get2 m.t_stamps count)).tv_sec < 2 ^ 61) →
        ∀ x ∈ overhead_steps m.overhead_seconds
            (tt_gettime wall (m.wall_ndx + 1) m.temp_stamp)
            (tt_gettime wall m.wall_ndx (get2 m.t_stamps count)), in_long x) := by
  obtain ⟨st1, hp, _⟩ := process_big_diff_spec chatty
    (tt_gettime wall m.wall_ndx (get2 m.t_stamps count)) m.st (time_delta wall m count) hi
  obtain ⟨h1, h2, h3⟩ := add_overhead_total m.overhead_seconds
    (tt_gettime wall (m.wall_ndx + 1) m.temp_stamp)
    (tt_gettime wall m.wall_ndx (get2 m.t_stamps count)) ho hpost ht
  exact ⟨_, time_iteration_spike wall chatty threshold count m st1 hd hp, h1, h2, h3,
    fun hs => overhead_steps_in_long _ _ _ ho hpost ht hs⟩

/-- An instance of C18: a spike sampled at 1050 us with the clock re-read at 1053 us
adds 3 us to an empty accumulator. -/
theorem overhead_seconds_grows_by_handling_time_witness :
    ∃ m1, time_iteration (wall_of [1050, 1053]) 1 35 1 (main_at (stamp 1000) 0) = some m1 ∧
      m1.overhead_seconds.tv_sec * 1000000 + m1.overhead_seconds.tv_usec = 3 := by
  obtain ⟨m1, h1, h2, _⟩ := overhead_seconds_grows_by_handling_time (wall_of [1050, 1053])
    1 35 1 (main_at (stamp 1000) 0) (by decide) (by decide) (by decide) (by decide)
    (by decide)
  refine ⟨m1, h1, ?_⟩
  rw [h2]
  decide

/-! ## C16: the gap of a record -/

/-- What an iteration of the plain cycle loop does to the buffer: a delta that reaches
the threshold appends the record whose gap runs from `last_spike_time` to the wall
clock value read for this spike; a smaller delta leaves the buffer state alone. -/
theorem cycle_iteration_buffer (wall : Nat → Option timeval) (cycles : Nat → Nat)
    (chatty threshold count : Nat) (m : Main) (hi : m.st.spike_ndx < MAX_SPIKES) :
    ∃ m1, cycle_iteration wall cycles chatty threshold count m = some m1 ∧
      m1.st.spike_ndx < MAX_SPIKES ∧
      (threshold ≤ cycle_delta cycles m count →
        holds m1.st.spikes m.st.spike_ndx
          (encode (tt_time_diff (tt_gettime wall m.wall_ndx m.spike_time)
            m.st.last_spike_time) (to_uint (cycle_delta cycles m count))) ∧
        m1.st.last_spike_time = tt_gettime wall m.wall_ndx m.spike_time) ∧
      (cycle_delta cycles m count < threshold → m1.st = m.st) := by
  by_cases hd : threshold ≤ cycle_delta cycles m count
  · obtain ⟨st1, hp, hc, _, hlast, hcells, _⟩ := process_big_diff_spec chatty
      (tt_gettime wall m.wall_ndx m.spike_time) m.st (cycle_delta cycles m count) hi
    exact ⟨_, cycle_iteration_spike wall cycles chatty threshold count m st1 hd hp, hc,
      fun _ => ⟨hcells, hlast⟩, fun hlt => absurd hd (Nat.not_le.mpr hlt)⟩
  · exact ⟨_, (cycle_iteration_quiet wall cycles chatty threshold count m
      (Nat.not_le.mp hd)).1, hi, fun hge => absurd hge hd, fun _ => rfl⟩

/-- The same for an iteration of the power-hog loop. -/
theorem power_hog_iteration_buffer (wall : Nat → Option timeval) (cycles : Nat → Nat)
    (chatty threshold count : Nat) (m : Main) (hi : m.st.spike_ndx < MAX_SPIKES) :
    ∃ m1, power_hog_iteration wall cycles chatty threshold count m = some m1 ∧
      m1.st.spike_ndx < MAX_SPIKES ∧
      (threshold ≤ cycle_delta cycles m count →
        holds m1.st.spikes m.st.spike_ndx
          (encode (tt_time_diff (tt_gettime wall m.wall_ndx m.spike_time)
            m.st.last_spike_time) (to_uint (cycle_delta cycles m count))) ∧
        m1.st.last_spike_time = tt_gettime wall m.wall_ndx m.spike_time) ∧
      (cycle_delta cycles m count < threshold → m1.st = m.st) := by
  by_cases hd : threshold ≤ cycle_delta cycles m count
  · obtain ⟨st1, hp, hc, _, hlast, hcells, _⟩ := process_big_diff_spec chatty
      (tt_gettime wall m.wall_ndx m.spike_time) m.st (cycle_delta cycles m count) hi
    exact ⟨_, power_hog_iteration_spike wall cycles chatty threshold count m st1 hd hp, hc,
      fun _ => ⟨hcells, hlast⟩, fun hlt => absurd hd (Nat.not_le.mpr hlt)⟩
  · exact ⟨_, (cycle_iteration_quiet wall cycles chatty threshold count m
      (Nat.not_le.mp hd)).2, hi, fun hge => absurd hge hd, fun _ => rfl⟩

/-- The same for an iteration of the time loop; the timestamp of the spike is the
sample of the iteration. -/
theorem time_iteration_buffer (wall : Nat → Option timeval)
    (chatty threshold count : Nat) (m : Main) (hi : m.st.spike_ndx < MAX_SPIKES) :
    ∃ m1, time_iteration wall chatty threshold count m = some m1 ∧
      m.wall_ndx < m1.wall_ndx ∧
      (threshold ≤ time_delta wall m count →
        m1.st.spike_ndx ≠ m.st.spike_ndx ∧
        holds m1.st.spikes m.st.spike_ndx
          (encode (tt_time_diff (tt_gettime wall m.wall_ndx (get2 m.t_stamps count))
            m.st.last_spike_time) (to_uint (time_delta wall m count))) ∧
        m1.st.last_spike_time = tt_gettime wall m.wall_ndx (get2 m.t_stamps count)) ∧
      (time_delta wall m count < threshold → m1.st = m.st) := by
  by_cases hd : threshold ≤ time_delta wall m count
  · obtain ⟨st1, hp, _, hne, hlast, hcells, _⟩ := process_big_diff_spec chatty
      (tt_gettime wall m.wall_ndx (get2 m.t_stamps count)) m.st (time_delta wall m count) hi
    exact ⟨_, time_iteration_spike wall chatty threshold count m st1 hd hp,
      Nat.lt_add_of_pos_right (by decide),
      fun _ => ⟨hne, hcells, hlast⟩, fun hlt => absurd hd (Nat.not_le.mpr hlt)⟩
  · exact ⟨_, time_iteration_quiet wall chatty threshold count m (Nat.not_le.mp hd),
      Nat.lt_add_of_pos_right (by decide), fun hge => absurd hge hd, fun _ => rfl⟩

/-- C16 (the gap is measured from the previous recorded spike). A pass sets
`last_spike_time` to the timestamp it reads at its start. In each of the three loops
(time loop, plain cycle loop, power-hog loop) an iteration entered with the cursor
inside the buffer returns; when its delta reaches the threshold the record it writes at
the cursor has the gap `tt_time_diff` of the spike's wall-clock timestamp and
`last_spike_time`, that is the one microsecond count minus the other as
`unsigned long`, and afterwards `last_spike_time` is that spike's timestamp (in the
time loop the sample itself, read number `wall_ndx`, not the re-read number
`wall_ndx + 1`); when its delta is below the threshold it leaves `last_spike_time` and
the buffer as they were. -/
theorem gap_is_measured_from_last_spike (wall : Nat → Option timeval) (cycles : Nat → Nat)
    (chatty threshold count : Nat) (m : Main) (p : Prog)
    (hi : m.st.spike_ndx < MAX_SPIKES) :
    (pass_entry wall p).st.last_spike_time = tt_gettime wall p.vars.wall_ndx p.t0_stamp ∧
    (∃ m1, time_iteration wall chatty threshold count m = some m1 ∧
      (threshold ≤ time_delta wall m count →
        holds m1.st.spikes m.st.spike_ndx
          (encode (tt_time_diff (tt_gettime wall m.wall_ndx (get2 m.t_stamps count))
            m.st.last_spike_time) (to_uint (time_delta wall m count))) ∧
        m1.st.last_spike_time = tt_gettime wall m.wall_ndx (get2 m.t_stamps count)) ∧
      (time_delta wall m count < threshold → m1.st = m.st)) ∧
    (∃ m1, cycle_iteration wall cycles chatty threshold count m = some m1 ∧
      (threshold ≤ cycle_delta cycles m count →
        holds m1.st.spikes m.st.spike_ndx
          (encode (tt_time_diff (tt_gettime wall m.wall_ndx m.spike_time)
            m.st.last_spike_time) (to_uint (cycle_delta cycles m count))) ∧
        m1.st.last_spike_time = tt_gettime wall m.wall_ndx m.spike_time) ∧
      (cycle_delta cycles m count < threshold → m1.st = m.st)) ∧
    (∃ m1, power_hog_iteration wall cycles chatty threshold count m = some m1 ∧
      (threshold ≤ cycle_delta cycles m count →
        holds m1.st.spikes m.st.spike_ndx
          (encode (tt_time_diff (tt_gettime wall m.wall_ndx m.spike_time)
            m.st.last_spike_time) (to_uint (cycle_delta cycles m count))) ∧
        m1.st.last_spike_time = tt_gettime wall m.wall_ndx m.spike_time) ∧
      (cycle_delta cycles m count < threshold → m1.st = m.st)) ∧
    (∀ t last : timeval, tt_time_diff t last =
        (usec_of t + (ULONG_MOD - usec_of last)) % ULONG_MOD ∧
      (usec_of last ≤ usec_of t → tt_time_diff t last = usec_of t - usec_of last)) := by
  refine ⟨rfl, ?_, ?_, ?_, ?_⟩
  · obtain ⟨m1, h1, _, h2, h3⟩ := time_iteration_buffer wall chatty threshold count m hi
    exact ⟨m1, h1, fun hd => (h2 hd).2, h3⟩
  · obtain ⟨m1, h1, _, h2, h3⟩ :=
      cycle_iteration_buffer wall cycles chatty threshold count m hi
    exact ⟨m1, h1, h2, h3⟩
  · obtain ⟨m1, h1, _, h2, h3⟩ :=
      power_hog_iteration_buffer wall cycles chatty threshold count m hi
    exact ⟨m1, h1, h2, h3⟩
  · intro t last
    refine ⟨rfl, fun hle => ?_⟩
    have h1 := usec_of_lt t
    have h2 := usec_of_lt last
    unfold tt_time_diff
    have e : usec_of t + (ULONG_MOD - usec_of last) =
        (usec_of t - usec_of last) + ULONG_MOD := by omega
    rw [e, Nat.add_mod_right, Nat.mod_eq_of_lt (by omega)]

/-- An instance of C16: the pass started at 1000 us, the first spike is sampled at
1050 us and the clock is re-read at 1053 us; the record has gap 50 and
`last_spike_time` becomes 1050 us. -/
theorem gap_is_measured_from_last_spike_witness :
    (main_at (stamp 1000) 0).st.spike_ndx < MAX_SPIKES ∧
    ∃ m1, time_iteration (wall_of [1050, 1053]) 1 35 1 (main_at (stamp 1000) 0) = some m1 ∧
      m1.st.spikes 0 = { time := 50, spike := 50 } ∧
      m1.st.last_spike_time = stamp 1050 := by
  have hd : 35 ≤ time_delta (wall_of [1050, 1053]) (main_at (stamp 1000) 0) 1 := by decide
  obtain ⟨m1, h1, h2, _⟩ := (gap_is_measured_from_last_spike (wall_of [1050, 1053])
    (cycles_of []) 1 35 1 (main_at (stamp 1000) 0) (prog_init 1 35 1) (by decide)).2.1
  obtain ⟨hcells, hlast⟩ := h2 hd
  have e : encode (tt_time_diff (tt_gettime (wall_of [1050, 1053])
      (main_at (stamp 1000) 0).wall_ndx (get2 (main_at (stamp 1000) 0).t_stamps 1))
      (main_at (stamp 1000) 0).st.last_spike_time)
      (to_uint (time_delta (wall_of [1050, 1053]) (main_at (stamp 1000) 0) 1)) =
      [{ time := 50, spike := 50 }] := by decide
  rw [e] at hcells
  exact ⟨by decide, m1, h1, hcells.1, hlast⟩

/-! ## C14: a failed read of the wall clock -/

/-- C14, as stated, fails: the second read of the wall clock fails, the iteration goes
on with the value `t_stamps[0]` already held (1000 us, the start of the pass), the
delta against the previous sample (1005 us) wraps to `2^64 - 5`, which reaches the
threshold 10, and a record with gap 0 and spike field 4294967291 is appended. -/
theorem failed_read_appends_record :
    wall_of [1005] 1 = none ∧
    (for_loop (time_iteration (wall_of [1005]) 1 10) 2 (main_at (stamp 1000) 0)).map
      (fun m => (m.st.spike_ndx, m.st.spikes 0, m.wall_ndx, m.st.last_spike_time)) =
      some (1, { time := 0, spike := 4294967291 }, 3, stamp 1000) := by
  decide

/-- C14 (amended): a failed read does not stop the run. When the read made by a
time-loop iteration fails, `tt_gettime` leaves `t_stamps[count%2]` as it was, the
iteration returns having consumed the read, its delta is computed from that old
content, and a record is appended exactly when this delta reaches the threshold, with
the old content as the spike's timestamp. -/
theorem failed_read_uses_old_sample (wall : Nat → Option timeval)
    (chatty threshold count : Nat) (m : Main)
    (hf : wall m.wall_ndx = none) (hi : m.st.spike_ndx < MAX_SPIKES) :
    tt_gettime wall m.wall_ndx (get2 m.t_stamps count) = get2 m.t_stamps count ∧
    time_delta wall m count =
      tt_time_diff (get2 m.t_stamps count) (get2 m.t_stamps (dec_ulong count)) ∧
    ∃ m1, time_iteration wall chatty threshold count m = some m1 ∧
      m.wall_ndx < m1.wall_ndx ∧
      (threshold ≤ time_delta wall m count →
        m1.st.spike_ndx ≠ m.st.spike_ndx ∧
        holds m1.st.spikes m.st.spike_ndx
          (encode (tt_time_diff (get2 m.t_stamps count) m.st.last_spike_time)
            (to_uint (time_delta wall m count))) ∧
        m1.st.last_spike_time = get2 m.t_stamps count) ∧
      (time_delta wall m count < threshold → m1.st = m.st) := by
  have e : tt_gettime wall m.wall_ndx (get2 m.t_stamps count) = get2 m.t_stamps count := by
    unfold tt_gettime
    rw [hf]
  refine ⟨e, ?_, ?_⟩
  · unfold time_delta
    rw [get2_set2_same, get2_set2_dec, e]
  · obtain ⟨m1, h1, h2, h3, h4⟩ := time_iteration_buffer wall chatty threshold count m hi
    rw [e] at h3
    exact ⟨m1, h1, h2, h3, h4⟩

/-- An instance of the amended C14: every read fails, and the first iteration goes on
with the start timestamp in both elements of `t_stamps`. -/
theorem failed_read_uses_old_sample_witness :
    wall_of [] (main_at (stamp 1000) 0).wall_ndx = none ∧
    (main_at (stamp 1000) 0).st.spike_ndx < MAX_SPIKES ∧
    time_delta (wall_of []) (main_at (stamp 1000) 0) 1 = 0 :=
  ⟨by decide, by decide,
    ((failed_read_uses_old_sample (wall_of []) 1 10 1 (main_at (stamp 1000) 0)
      (by decide) (by decide)).2.1).trans (by decide)⟩

/-! ## C20 and C19: the power-hog loop against the plain cycle loop -/

/-- An iteration of the plain cycle loop and an iteration of the power-hog loop, entered
in states that agree in everything but `overhead_cycles`, both fail or end in states
that agree in everything but `overhead_cycles`. -/
theorem cycle_iterations_agree (wall : Nat → Option timeval) (cycles : Nat → Nat)
    (chatty threshold count : Nat) (m m' : Main)
    (h : forget_overhead_cycles m = forget_overhead_cycles m') :
    (power_hog_iteration wall cycles chatty threshold count m).map forget_overhead_cycles =
      (cycle_iteration wall cycles chatty threshold count m').map forget_overhead_cycles := by
  cases m with
  | mk st wall_ndx cycle_ndx t_stamps temp_stamp spike_time cycle_stamp min_spike
      overhead_seconds overhead_cycles =>
  cases m' with
  | mk st' wall_ndx' cycle_ndx' t_stamps' temp_stamp' spike_time' cycle_stamp' min_spike'
      overhead_seconds' overhead_cycles' =>
  simp only [forget_overhead_cycles, Main.mk.injEq, and_true] at h
  obtain ⟨h1, h2, h3, h4, h5, h6, h7, h8, h9⟩ := h
  subst h1 h2 h3 h4 h5 h6 h7 h8 h9
  unfold power_hog_iteration cycle_iteration
  simp only
  split
  · cases process_big_diff chatty (tt_gettime wall wall_ndx spike_time) st
        ((get2 (set2 cycle_stamp count (get_cycles cycles cycle_ndx)) count +
          (ULONG_MOD - get2 (set2 cycle_stamp count (get_cycles cycles cycle_ndx))
            (dec_ulong count))) % ULONG_MOD) with
    | none => rfl
    | some st1 => rfl
  · rfl

/-- Two loops whose bodies agree up to `overhead_cycles` agree up to `overhead_cycles`. -/
theorem loop_from_agree (f g : Nat → Main → Option Main) (loopcount : Nat)
    (hfg : ∀ count m m', forget_overhead_cycles m = forget_overhead_cycles m' →
      (f count m).map forget_overhead_cycles = (g count m').map forget_overhead_cycles) :
    ∀ (fuel count : Nat) (m m' : Main),
      forget_overhead_cycles m = forget_overhead_cycles m' →
      (loop_from f loopcount fuel count m).map forget_overhead_cycles =
        (loop_from g loopcount fuel count m').map forget_overhead_cycles := by
  intro fuel
  induction fuel with
  | zero =>
    intro count m m' h
    simp only [loop_from]
    split
    · rfl
    · simp only [Option.map_some', h]
  | succ fuel ih =>
    intro count m m' h
    simp only [loop_from]
    split
    · have hb := hfg count m m' h
      cases hf : f count m with
      | none =>
        rw [hf] at hb
        cases hg : g count m' with
        | none => rfl
        | some m2 => rw [hg] at hb; simp at hb
      | some m1 =>
        rw [hf] at hb
        cases hg : g count m' with
        | none => rw [hg] at hb; simp at hb
        | some m2 =>
          rw [hg] at hb
          simp only [Option.map_some', Option.some.injEq] at hb
          exact ih _ m1 m2 hb
    · simp only [Option.map_some', h]

/-- The power-hog loop leaves `overhead_cycles` as it found it. -/
theorem power_hog_loop_overhead (wall : Nat → Option timeval) (cycles : Nat → Nat)
    (chatty threshold loopcount : Nat) :
    ∀ (fuel count : Nat) (m m1 : Main),
      loop_from (power_hog_iteration wall cycles chatty threshold) loopcount fuel count m =
        some m1 → m1.overhead_cycles = m.overhead_cycles := by
  intro fuel
  induction fuel with
  | zero =>
    intro count m m1 h
    rw [loop_from] at h
    split at h
    · simp at h
    · simp only [Option.some.injEq] at h
      rw [← h]
  | succ fuel ih =>
    intro count m m1 h
    rw [loop_from] at h
    split at h
    · cases hb : power_hog_iteration wall cycles chatty threshold count m with
      | none => rw [hb] at h; simp at h
      | some m2 =>
        rw [hb] at h
        simp only at h
        rw [ih _ m2 m1 h]
        unfold power_hog_iteration at hb
        simp only at hb
        split at hb
        · split at hb
          · simp at hb
          · simp only [Option.some.injEq] at hb
            rw [← hb]
        · simp only [Option.some.injEq] at hb
          rw [← hb]
    · simp only [Option.some.injEq] at h
      rw [← h]

/-- C20 (the power-hog workload does not alter spike semantics). From the same
variables, the same cycle-counter values and the same wall-clock values, the cycle loop
with the `power_hog` option and the cycle loop without it have the same outcome up to
`overhead_cycles`: both fail, or both end in states that agree in every variable but
`overhead_cycles`. With the cursor inside the buffer and `loopcount` below `ULONG_MAX`
both run to their end, with the same buffer contents, cursor, printed lines, drained
gaps, clock, `last_spike_time` and `min_spike`. -/
theorem power_hog_keeps_spike_semantics (wall : Nat → Option timeval) (cycles : Nat → Nat)
    (chatty threshold loopcount : Nat) (m : Main) :
    (cycle_loop wall cycles true chatty threshold loopcount m).map forget_overhead_cycles =
      (cycle_loop wall cycles false chatty threshold loopcount m).map
        forget_overhead_cycles ∧
    (m.st.spike_ndx < MAX_SPIKES → loopcount < ULONG_MAX →
      ∃ m1 m2, cycle_loop wall cycles true chatty threshold loopcount m = some m1 ∧
        cycle_loop wall cycles false chatty threshold loopcount m = some m2 ∧
        forget_overhead_cycles m1 = forget_overhead_cycles m2 ∧
        m1.st = m2.st ∧ m1.min_spike = m2.min_spike) := by
  have hagree := loop_from_agree (power_hog_iteration wall cycles chatty threshold)
    (cycle_iteration wall cycles chatty threshold) loopcount
    (cycle_iterations_agree wall cycles chatty threshold) loopcount 1
    (read_cycle_stamp0 cycles m) (read_cycle_stamp0 cycles m) rfl
  have e1 : cycle_loop wall cycles true chatty threshold loopcount m =
      loop_from (power_hog_iteration wall cycles chatty threshold) loopcount loopcount 1
        (read_cycle_stamp0 cycles m) := by
    simp only [cycle_loop, if_true, for_loop]
  have e2 : cycle_loop wall cycles false chatty threshold loopcount m =
      loop_from (cycle_iteration wall cycles chatty threshold) loopcount loopcount 1
        (read_cycle_stamp0 cycles m) := by
    simp only [cycle_loop, Bool.false_eq_true, if_false, for_loop]
  rw [e1, e2]
  refine ⟨hagree, fun hi hl => ?_⟩
  obtain ⟨m1, h1, _⟩ := for_loop_invariant (power_hog_iteration wall cycles chatty threshold)
    loopcount (fun _ m => m.st.spike_ndx < MAX_SPIKES) hl
    (fun count m _ _ hI => by
      obtain ⟨m1, e1, c1, _⟩ :=
        power_hog_iteration_buffer wall cycles chatty threshold count m hI
      exact ⟨m1, e1, c1⟩)
    (read_cycle_stamp0 cycles m) hi
  obtain ⟨m2, h2, _⟩ := for_loop_invariant (cycle_iteration wall cycles chatty threshold)
    loopcount (fun _ m => m.st.spike_ndx < MAX_SPIKES) hl
    (fun count m _ _ hI => by
      obtain ⟨m1, e1, c1, _⟩ := cycle_iteration_buffer wall cycles chatty threshold count m hI
      exact ⟨m1, e1, c1⟩)
    (read_cycle_stamp0 cycles m) hi
  unfold for_loop at h1 h2
  rw [h1, h2] at hagree
  simp only [Option.map_some', Option.some.injEq] at hagree
  refine ⟨m1, m2, h1, h2, hagree, ?_, ?_⟩
  · have e := congrArg Main.st hagree
    exact e
  · have e := congrArg Main.min_spike hagree
    exact e

/-- An instance of C20: two iterations, the first a spike (delta 100, threshold 10),
the second quiet (delta 3); both loops end with cursor 1 and `min_spike = 3`. -/
theorem power_hog_keeps_spike_semantics_witness :
    (main_at (stamp 1000) 0).st.spike_ndx < MAX_SPIKES ∧ 2 < ULONG_MAX ∧
    ∃ m1 m2,
      cycle_loop (wall_of [2000]) (cycles_of [5000, 5100, 5107, 5110]) true 1 10 2
        (main_at (stamp 1000) 0) = some m1 ∧
      cycle_loop (wall_of [2000]) (cycles_of [5000, 5100, 5107, 5110]) false 1 10 2
        (main_at (stamp 1000) 0) = some m2 ∧
      forget_overhead_cycles m1 = forget_overhead_cycles m2 ∧
      m1.st = m2.st ∧ m1.min_spike = m2.min_spike :=
  ⟨by decide, by decide,
    (power_hog_keeps_spike_semantics (wall_of [2000]) (cycles_of [5000, 5100, 5107, 5110])
      1 10 2 (main_at (stamp 1000) 0)).2 (by decide) (by decide)⟩

/-- C19: under the `power_hog` option `overhead_cycles` is not accumulated. The same
loop of one iteration, a spike whose sample reads 5100 cycles and whose re-read after
the spike was handled reads 5107 cycles, leaves `overhead_cycles = 7` without the
option and `overhead_cycles = 0` with it, one record appended in both. -/
theorem power_hog_loop_skips_overhead_cycles :
    (cycle_loop (wall_of [2000]) (cycles_of [5000, 5100, 5107]) false 1 10 1
      (main_at (stamp 1000) 0)).map
      (fun m => (m.st.spike_ndx, m.st.spikes 0, m.cycle_stamp, m.overhead_cycles)) =
      some (1, { time := 1000, spike := 100 }, (5000, 5107), 7) ∧
    (cycle_loop (wall_of [2000]) (cycles_of [5000, 5100, 5107]) true 1 10 1
      (main_at (stamp 1000) 0)).map
      (fun m => (m.st.spike_ndx, m.st.spikes 0, m.cycle_stamp, m.overhead_cycles)) =
      some (1, { time := 1000, spike := 100 }, (5000, 5107), 0) := by
  decide

/-! ## The two passes -/

theorem loop_deltas_lt (delta : Main → Nat → Nat) (body : Nat → Main → Option Main)
    (loopcount bound : Nat) (hd : ∀ m count, delta m count < bound) :
    ∀ (fuel count : Nat) (m : Main),
      ∀ d ∈ loop_deltas delta body loopcount fuel count m, d < bound := by
  intro fuel
  induction fuel with
  | zero => intro count m d h; simp [loop_deltas] at h
  | succ fuel ih =>
    intro count m d h
    rw [loop_deltas] at h
    split at h
    · rw [List.mem_cons] at h
      rcases h with h | h
      · rw [h]
        exact hd m count
      · cases hb : body count m with
        | none => rw [hb] at h; simp at h
        | some m1 =>
          rw [hb] at h
          exact ih _ m1 d h
    · simp at h

theorem cycle_delta_lt (cycles : Nat → Nat) (m : Main) (count : Nat) :
    cycle_delta cycles m count < ULONG_MOD :=
  Nat.mod_lt _ ulong_mod_pos

theorem min_eq_ite (a d : Nat) : (if d < a then d else a) = min a d := by
  split
  · next h => exact (Nat.min_eq_right (Nat.le_of_lt h)).symm
  · next h => exact (Nat.min_eq_left (Nat.not_lt.mp h)).symm

/-- An iteration of either cycle loop lowers `min_spike` to its delta when the delta is
below the threshold and leaves `min_spike` alone otherwise. -/
theorem cycle_iteration_min_spike (wall : Nat → Option timeval) (cycles : Nat → Nat)
    (chatty threshold : Nat) (power_hog : Bool) (count : Nat) (m m1 : Main)
    (h : (if power_hog then power_hog_iteration wall cycles chatty threshold count m
      else cycle_iteration wall cycles chatty threshold count m) = some m1) :
    m1.min_spike = if cycle_delta cycles m count < threshold
      then min m.min_spike (cycle_delta cycles m count) else m.min_spike := by
  by_cases hd : threshold ≤ cycle_delta cycles m count
  · rw [if_neg (Nat.not_lt.mpr hd)]
    cases hp : process_big_diff chatty (tt_gettime wall m.wall_ndx m.spike_time)
        m.st (cycle_delta cycles m count) with
    | none =>
      unfold power_hog_iteration cycle_iteration at h
      unfold cycle_delta at hd hp
      simp only [get2_set2_same] at hd hp h
      simp only [ge_iff_le, hd, if_true, hp] at h
      cases power_hog <;> simp at h
    | some st1 =>
      rw [cycle_iteration_spike wall cycles chatty threshold count m st1 hd hp,
        power_hog_iteration_spike wall cycles chatty threshold count m st1 hd hp] at h
      cases power_hog <;> simp only [Bool.false_eq_true, if_true, if_false,
        Option.some.injEq] at h <;> subst h <;> rfl
  · have hlt := Nat.not_le.mp hd
    rw [if_pos hlt]
    obtain ⟨e1, e2⟩ := cycle_iteration_quiet wall cycles chatty threshold count m hlt
    rw [e1, e2] at h
    cases power_hog <;> simp only [Bool.false_eq_true, if_true, if_false,
      Option.some.injEq] at h <;> subst h <;> exact min_eq_ite _ _

/-- An iteration of the loop that gets an initial value for `min_spike` returns, lowers
`min_spike` to its delta and leaves the buffer state and the overhead accumulators
alone. -/
theorem min_spike_iteration_spec (cycles : Nat → Nat) (count : Nat) (m : Main) :
    ∃ m1, min_spike_iteration cycles count m = some m1 ∧
      m1.min_spike = min m.min_spike (cycle_delta cycles m count) ∧
      m1.st = m.st ∧ m1.wall_ndx = m.wall_ndx := by
  refine ⟨_, rfl, ?_, rfl, rfl⟩
  exact min_eq_ite _ _

theorem max_spikes_lt_ulong_max : MAX_SPIKES < ULONG_MAX := by decide

/-- The loop that gets an initial value for `min_spike` runs to its end and leaves the
least of the start value and its 1024 deltas; the buffer state is untouched. -/
theorem init_loop_spec (cycles : Nat → Nat) (m : Main) :
    ∃ m1, for_loop (min_spike_iteration cycles) 1024 (read_cycle_stamp0 cycles m) = some m1 ∧
      m1.min_spike = (init_deltas cycles m).foldl min m.min_spike ∧
      m1.st = m.st ∧ m1.wall_ndx = m.wall_ndx := by
  obtain ⟨m1, h1, hst, hw⟩ := for_loop_invariant (min_spike_iteration cycles) 1024
    (fun _ x => x.st = m.st ∧ x.wall_ndx = m.wall_ndx) (by decide)
    (fun count x _ _ hI => by
      obtain ⟨x1, e1, _, hs, hw⟩ := min_spike_iteration_spec cycles count x
      exact ⟨x1, e1, hs.trans hI.1, hw.trans hI.2⟩)
    (read_cycle_stamp0 cycles m) ⟨rfl, rfl⟩
  have h2 := loop_min_spike (cycle_delta cycles) (min_spike_iteration cycles) 1024 ULONG_MOD
    (fun count x x1 hx => by
      obtain ⟨x2, e2, hm, _⟩ := min_spike_iteration_spec cycles count x
      rw [e2] at hx
      simp only [Option.some.injEq] at hx
      subst hx
      rw [if_pos (cycle_delta_lt cycles x count)]
      exact hm)
    1024 1 (read_cycle_stamp0 cycles m) m1 h1
  refine ⟨m1, h1, ?_, hst, hw⟩
  rw [h2, List.filter_eq_self.mpr]
  · rfl
  · intro d hd
    simpa using loop_deltas_lt (cycle_delta cycles) (min_spike_iteration cycles) 1024
      ULONG_MOD (cycle_delta_lt cycles) 1024 1 (read_cycle_stamp0 cycles m) d hd

/-- The time loop at threshold 0 and verbosity 0 (the warm-up pass): every iteration
is a spike, so each makes two reads of the wall clock, nothing is printed and
`min_spike` is not touched. -/
theorem time_loop_warm_up (wall : Nat → Option timeval) (loopcount : Nat) (m : Main)
    (hi : m.st.spike_ndx < MAX_SPIKES) (hl : loopcount < ULONG_MAX) :
    ∃ m1, for_loop (time_iteration wall 0 0) loopcount m = some m1 ∧
      m1.st.spike_ndx < MAX_SPIKES ∧ m1.st.out = m.st.out ∧
      m1.wall_ndx = m.wall_ndx + 2 * loopcount ∧ m1.min_spike = m.min_spike := by
  obtain ⟨m1, h1, hc, ho, hw, hm⟩ := for_loop_invariant (time_iteration wall 0 0) loopcount
    (fun count x => x.st.spike_ndx < MAX_SPIKES ∧ x.st.out = m.st.out ∧
      x.wall_ndx + 2 = m.wall_ndx + 2 * count ∧ x.min_spike = m.min_spike) hl
    (fun count x _ _ hI => by
      obtain ⟨st1, hp, hc1, _, _, _, hout⟩ := process_big_diff_spec 0
        (tt_gettime wall x.wall_ndx (get2 x.t_stamps count)) x.st (time_delta wall x count)
        hI.1
      refine ⟨_, time_iteration_spike wall 0 0 count x st1 (Nat.zero_le _) hp, hc1,
        (hout rfl).trans hI.2.1, ?_, hI.2.2.2⟩
      have := hI.2.2.1
      show x.wall_ndx + 2 + 2 = m.wall_ndx + 2 * (count + 1)
      omega)
    m ⟨hi, rfl, by omega, rfl⟩
  exact ⟨m1, h1, hc, ho, by omega, hm⟩

/-- Either cycle loop at threshold 0 (the warm-up pass) runs to its end and does not
touch `min_spike`. -/
theorem cycle_loop_warm_up (wall : Nat → Option timeval) (cycles : Nat → Nat)
    (power_hog : Bool) (chatty loopcount : Nat) (m : Main)
    (hi : m.st.spike_ndx < MAX_SPIKES) (hl : loopcount < ULONG_MAX) :
    ∃ m1, cycle_loop wall cycles power_hog chatty 0 loopcount m = some m1 ∧
      m1.st.spike_ndx < MAX_SPIKES ∧ m1.min_spike = m.min_spike := by
  cases power_hog with
  | true =>
    obtain ⟨m1, h1, hc, hm⟩ := for_loop_invariant (power_hog_iteration wall cycles chatty 0)
      loopcount (fun _ x => x.st.spike_ndx < MAX_SPIKES ∧ x.min_spike = m.min_spike) hl
      (fun count x _ _ hI => by
        obtain ⟨x1, e1, c1, _⟩ := power_hog_iteration_buffer wall cycles chatty 0 count x hI.1
        have hm := cycle_iteration_min_spike wall cycles chatty 0 true count x x1
          (by simpa using e1)
        rw [if_neg (Nat.not_lt_zero _)] at hm
        exact ⟨x1, e1, c1, hm.trans hI.2⟩)
      (read_cycle_stamp0 cycles m) ⟨hi, rfl⟩
    exact ⟨m1, by simpa only [cycle_loop, if_true] using h1, hc, hm⟩
  | false =>
    obtain ⟨m1, h1, hc, hm⟩ := for_loop_invariant (cycle_iteration wall cycles chatty 0)
      loopcount (fun _ x => x.st.spike_ndx < MAX_SPIKES ∧ x.min_spike = m.min_spike) hl
      (fun count x _ _ hI => by
        obtain ⟨x1, e1, c1, _⟩ := cycle_iteration_buffer wall cycles chatty 0 count x hI.1
        have hm := cycle_iteration_min_spike wall cycles chatty 0 false count x x1
          (by simpa using e1)
        rw [if_neg (Nat.not_lt_zero _)] at hm
        exact ⟨x1, e1, c1, hm.trans hI.2⟩)
      (read_cycle_stamp0 cycles m) ⟨hi, rfl⟩
    exact ⟨m1, by simpa only [cycle_loop, Bool.false_eq_true, if_false] using h1, hc, hm⟩

/-- Pass 1 (the warm-up pass) returns from any state with the cursor inside the
buffer. It leaves the configuration of the caller in the saved copy; `min_spike` is
untouched under the time method and lowered to the least delta of the 1024-iteration
loop under the cycle method. -/
theorem pass1_spec (wall : Nat → Option timeval) (cycles : Nat → Nat) (method : Nat)
    (power_hog : Bool) (p : Prog) (hi : p.vars.st.spike_ndx < MAX_SPIKES) :
    ∃ p1, pass wall cycles method power_hog (pass1_start p) = some p1 ∧
      p1.vars.st.spike_ndx < MAX_SPIKES ∧
      p1.save_loopcount = p.loopcount ∧ p1.save_threshold = p.threshold ∧
      p1.save_chatty = p.chatty ∧
      p1.vars.min_spike = (if method = TIME_METHOD then p.vars.min_spike
        else (init_deltas cycles (pass_entry wall (pass1_start p))).foldl min
          p.vars.min_spike) := by
  have e0 : pass1_start p = { p with
      save_loopcount := p.loopcount, save_threshold := p.threshold,
      save_chatty := p.chatty, loopcount := MAX_SPIKES, threshold := 0, chatty := 0,
      warm_up := 1 } := by
    simp [pass1_start, warm_up_setup]
  by_cases hm : method = TIME_METHOD
  · obtain ⟨m1, h1, hc, _, _, hmin⟩ := time_loop_warm_up wall MAX_SPIKES
      { pass_entry wall (pass1_start p) with
        t_stamps := set2 (pass_entry wall (pass1_start p)).t_stamps 0
          (tt_gettime wall (pass1_start p).vars.wall_ndx (pass1_start p).t0_stamp) }
      (by rw [e0]; exact hi) max_spikes_lt_ulong_max
    refine ⟨{ pass1_start p with
        vars := m1
        t0_stamp := tt_gettime wall (pass1_start p).vars.wall_ndx (pass1_start p).t0_stamp },
      ?_, hc, by rw [e0], by rw [e0], by rw [e0], ?_⟩
    · unfold pass time_pass
      simp only [hm, if_true]
      have e1 : (pass1_start p).chatty = 0 := by rw [e0]
      have e2 : (pass1_start p).threshold = 0 := by rw [e0]
      have e3 : (pass1_start p).loopcount = MAX_SPIKES := by rw [e0]
      rw [e1, e2, e3, h1]
    · rw [if_pos hm]
      rw [hmin, e0]
      rfl
  · obtain ⟨m0, h0, hmin0, hst0, _⟩ := init_loop_spec cycles (pass_entry wall (pass1_start p))
    obtain ⟨m1, h1, hc, hmin⟩ := cycle_loop_warm_up wall cycles power_hog 0 MAX_SPIKES m0
      (by rw [hst0, e0]; exact hi) max_spikes_lt_ulong_max
    refine ⟨{ pass1_start p with
        vars := m1
        t0_stamp := tt_gettime wall (pass1_start p).vars.wall_ndx (pass1_start p).t0_stamp },
      ?_, hc, by rw [e0], by rw [e0], by rw [e0], ?_⟩
    · unfold pass cycle_pass
      simp only [hm, if_false]
      have e1 : (pass1_start p).chatty = 0 := by rw [e0]
      have e2 : (pass1_start p).threshold = 0 := by rw [e0]
      have e3 : (pass1_start p).loopcount = MAX_SPIKES := by rw [e0]
      rw [e1, e2, e3, h0]
      simp only
      rw [h1]
    · rw [if_neg hm]
      show m1.min_spike = _
      rw [hmin, hmin0]
      rw [e0]
      rfl

theorem pass2_start_eq (p1 : Prog) :
    pass2_start p1 = { p1 with
      warm_up := 2
      loopcount := p1.save_loopcount
      threshold := p1.save_threshold
      chatty := p1.save_chatty
      vars := { p1.vars with
        st := { p1.vars.st with spike_ndx := 0 }
        overhead_seconds := { tv_sec := 0, tv_usec := 0 }
        overhead_cycles := 0 } } := by
  simp [pass2_start, warm_up_setup]

theorem loop_deltas_head (delta : Main → Nat → Nat) (body : Nat → Main → Option Main)
    (loopcount fuel count : Nat) (m : Main) (h : count ≤ loopcount) :
    delta m count ∈ loop_deltas delta body loopcount (fuel + 1) count m := by
  rw [loop_deltas, if_pos h]
  exact List.mem_cons_self _ _

/-! ## C12: what pass 2 starts from -/

/-- C12, as stated, fails: under the cycle method, with a counter that advances by 100
between reads, `min_spike` is `ULONG_MAX` when the program starts and at most 100 when
pass 2 starts, because the 1024-iteration loop of pass 1 has lowered it and the setup
block of pass 2 does not reset it. -/
theorem warm_up_lowers_min_spike :
    (prog_init 5 10000 1).vars.min_spike = ULONG_MAX ∧ 100 < ULONG_MAX ∧
    ∃ p1, pass (fun n => some (stamp (1000 + n))) (fun n => 100 * n) CYCLES_METHOD false
        (pass1_start (prog_init 5 10000 1)) = some p1 ∧
      (pass2_start p1).vars.min_spike ≤ 100 := by
  obtain ⟨p1, h1, _, _, _, _, hmin⟩ := pass1_spec (fun n => some (stamp (1000 + n)))
    (fun n => 100 * n) CYCLES_METHOD false (prog_init 5 10000 1) (by decide)
  refine ⟨rfl, by decide, p1, h1, ?_⟩
  rw [pass2_start_eq]
  show p1.vars.min_spike ≤ 100
  rw [hmin, if_neg (by decide)]
  have hd : cycle_delta (fun n => 100 * n) (read_cycle_stamp0 (fun n => 100 * n)
      (pass_entry (fun n => some (stamp (1000 + n))) (pass1_start (prog_init 5 10000 1)))) 1 =
      100 := by decide
  have hmem := loop_deltas_head (cycle_delta (fun n => 100 * n))
    (min_spike_iteration (fun n => 100 * n)) 1024 1023 1
    (read_cycle_stamp0 (fun n => 100 * n)
      (pass_entry (fun n => some (stamp (1000 + n))) (pass1_start (prog_init 5 10000 1))))
    (by decide)
  rw [hd] at hmem
  exact foldl_min_le_mem _ _ 100 hmem

/-- C12 (amended): pass 1 returns from any state with the cursor inside the buffer, and
when pass 2 starts (after its setup block) the write cursor, `overhead_seconds` and
`overhead_cycles` are 0 and the configuration is the caller's, for either method and
every sample sequence seen in pass 1; `min_spike` holds the value it had before pass 1
under the time method, and under the cycle method the least of that value and the
deltas of the 1024-iteration loop of pass 1. -/
theorem pass2_start_values (wall : Nat → Option timeval) (cycles : Nat → Nat) (method : Nat)
    (power_hog : Bool) (p : Prog) (hi : p.vars.st.spike_ndx < MAX_SPIKES) :
    ∃ p1, pass wall cycles method power_hog (pass1_start p) = some p1 ∧
      (pass2_start p1).vars.st.spike_ndx = 0 ∧
      (pass2_start p1).vars.overhead_seconds = { tv_sec := 0, tv_usec := 0 } ∧
      (pass2_start p1).vars.overhead_cycles = 0 ∧
      (pass2_start p1).loopcount = p.loopcount ∧
      (pass2_start p1).threshold = p.threshold ∧
      (pass2_start p1).chatty = p.chatty ∧
      (pass2_start p1).vars.min_spike = (if method = TIME_METHOD then p.vars.min_spike
        else (init_deltas cycles (pass_entry wall (pass1_start p))).foldl min
          p.vars.min_spike) := by
  obtain ⟨p1, h1, _, hl, ht, hc, hmin⟩ := pass1_spec wall cycles method power_hog p hi
  refine ⟨p1, h1, ?_⟩
  rw [pass2_start_eq]
  exact ⟨rfl, rfl, rfl, hl, ht, hc, hmin⟩

/-- An instance of the amended C12 under the time method: from the initial state of
the program pass 2 starts with cursor 0 and `min_spike = ULONG_MAX`. -/
theorem pass2_start_values_witness :
    (prog_init 5 10 1).vars.st.spike_ndx < MAX_SPIKES ∧
    ∃ p1, pass (fun n => some (stamp (1000 + n))) (fun n => 100 * n) TIME_METHOD false
        (pass1_start (prog_init 5 10 1)) = some p1 ∧
      (pass2_start p1).vars.st.spike_ndx = 0 ∧
      (pass2_start p1).vars.min_spike = ULONG_MAX := by
  obtain ⟨p1, h1, h2, _, _, _, _, _, h3⟩ := pass2_start_values
    (fun n => some (stamp (1000 + n))) (fun n => 100 * n) TIME_METHOD false (prog_init 5 10 1)
    (by decide)
  exact ⟨by decide, p1, h1, h2, h3⟩

/-! ## C15: the run on the synthetic samples -/

theorem tt_time_diff_self (a : timeval) : tt_time_diff a a = 0 := by
  have h := usec_of_lt a
  unfold tt_time_diff
  have e : usec_of a + (ULONG_MOD - usec_of a) = ULONG_MOD := by omega
  rw [e, Nat.mod_self]

/-- Once `fake_data_ndx` has reached `FAKE_SAMPLE_COUNT - 1` every call of the `FAKE`
`tt_gettime` returns the last sample. -/
theorem fake_wall_saturated (n : Nat) (h : 31 ≤ n) (old : timeval) :
    tt_gettime fake_wall n old = { tv_sec := 5300, tv_usec := 1312 } := by
  have hn : ¬ n < FAKE_SAMPLE_COUNT - 1 := by
    unfold FAKE_SAMPLE_COUNT
    omega
  unfold tt_gettime fake_wall
  simp only [hn, if_false]
  decide

/-- A time loop whose samples all equal the baseline it starts from, at a threshold
above 0, runs to its end without touching the buffer state. -/
theorem time_loop_constant_clock (wall : Nat → Option timeval) (chatty threshold : Nat)
    (loopcount : Nat) (m : Main) (s : timeval)
    (hs : ∀ n old, m.wall_ndx ≤ n → tt_gettime wall n old = s)
    (hbase : get2 m.t_stamps 0 = s) (ht : 0 < threshold) (hl : loopcount < ULONG_MAX) :
    ∃ m1, for_loop (time_iteration wall chatty threshold) loopcount m = some m1 ∧
      m1.st = m.st := by
  have hM : ULONG_MOD = ULONG_MAX + 1 := by decide
  obtain ⟨m1, h1, _, hst, _⟩ := for_loop_invariant (time_iteration wall chatty threshold)
    loopcount
    (fun count x => get2 x.t_stamps (dec_ulong count) = s ∧ x.st = m.st ∧
      m.wall_ndx ≤ x.wall_ndx) hl
    (fun count x h1 h2 hI => by
      have hd : time_delta wall x count = 0 := by
        unfold time_delta
        rw [get2_set2_same, get2_set2_dec, hs _ _ hI.2.2, hI.1]
        exact tt_time_diff_self s
      have hq := time_iteration_quiet wall chatty threshold count x (by rw [hd]; exact ht)
      refine ⟨_, hq, ?_, hI.2.1, Nat.le_succ_of_le hI.2.2⟩
      have e : dec_ulong (count + 1) = count := by
        unfold dec_ulong
        have e1 : count + 1 + (ULONG_MOD - 1) = count + ULONG_MOD := by omega
        rw [e1, Nat.add_mod_right, Nat.mod_eq_of_lt (by omega)]
      show get2 (set2 x.t_stamps count (tt_gettime wall x.wall_ndx (get2 x.t_stamps count)))
        (dec_ulong (count + 1)) = s
      rw [e, get2_set2_same, hs _ _ hI.2.2])
    m ⟨hbase, rfl, le_refl _⟩
  exact ⟨m1, h1, hst⟩

/-- A pass changes only the variables of the loops and `t0_stamp`. -/
theorem pass_keeps_configuration (wall : Nat → Option timeval) (cycles : Nat → Nat)
    (method : Nat) (power_hog : Bool) (p p1 : Prog)
    (h : pass wall cycles method power_hog p = some p1) :
    p1 = { p with vars := p1.vars, t0_stamp := p1.t0_stamp } := by
  unfold pass at h
  simp only at h
  split at h
  · simp at h
  · simp only [Option.some.injEq] at h
    rw [← h]

/-- The two passes of `main`, one after the other. -/
theorem warm_up_loop_two_passes (wall : Nat → Option timeval) (cycles : Nat → Nat)
    (method : Nat) (power_hog : Bool) (p p1 p2 : Prog)
    (h1 : pass wall cycles method power_hog (pass1_start p) = some p1)
    (h2 : pass wall cycles method power_hog (pass2_start p1) = some p2) :
    warm_up_loop wall cycles method power_hog 2 { p with warm_up := 0 } =
      some { p2 with warm_up := 3 } := by
  have e1 : warm_up_setup { ({ p with warm_up := 0 } : Prog) with warm_up := 0 + 1 } =
      pass1_start p := rfl
  have k1 := pass_keeps_configuration wall cycles method power_hog _ _ h1
  have k2 := pass_keeps_configuration wall cycles method power_hog _ _ h2
  have w1 : p1.warm_up = 1 := by
    rw [k1]
    simp [pass1_start, warm_up_setup]
  have w2 : p2.warm_up = 2 := by
    rw [k2, pass2_start_eq]
  have e2 : warm_up_setup { p1 with warm_up := p1.warm_up + 1 } = pass2_start p1 := by
    rw [w1]
    rfl
  rw [warm_up_loop]
  simp only [Nat.lt_irrefl, Nat.zero_lt_succ, if_true, Nat.ofNat_pos]
  rw [e1, h1]
  simp only
  rw [warm_up_loop]
  simp only [w1, Nat.one_lt_ofNat, if_true]
  have e3 : warm_up_setup { p1 with warm_up := 1 + 1 } = pass2_start p1 := rfl
  rw [e3, h2]
  simp only
  rw [warm_up_loop]
  simp only [w2, Nat.lt_irrefl, if_false]

/-- Pass 1 under the time method: it returns, prints nothing and makes
`1 + 2 * MAX_SPIKES` reads of the wall clock. -/
theorem pass1_time_spec (wall : Nat → Option timeval) (cycles : Nat → Nat)
    (power_hog : Bool) (p : Prog) (hi : p.vars.st.spike_ndx < MAX_SPIKES) :
    ∃ p1, pass wall cycles TIME_METHOD power_hog (pass1_start p) = some p1 ∧
      p1.vars.st.spike_ndx < MAX_SPIKES ∧ p1.vars.st.out = p.vars.st.out ∧
      p1.vars.wall_ndx = p.vars.wall_ndx + 1 + 2 * MAX_SPIKES ∧
      p1.save_loopcount = p.loopcount ∧ p1.save_threshold = p.threshold ∧
      p1.save_chatty = p.chatty := by
  have e0 : pass1_start p = { p with
      save_loopcount := p.loopcount, save_threshold := p.threshold,
      save_chatty := p.chatty, loopcount := MAX_SPIKES, threshold := 0, chatty := 0,
      warm_up := 1 } := by
    simp [pass1_start, warm_up_setup]
  obtain ⟨m1, h1, hc, hout, hw, _⟩ := time_loop_warm_up wall MAX_SPIKES
    { pass_entry wall (pass1_start p) with
      t_stamps := set2 (pass_entry wall (pass1_start p)).t_stamps 0
        (tt_gettime wall (pass1_start p).vars.wall_ndx (pass1_start p).t0_stamp) }
    (by rw [e0]; exact hi) max_spikes_lt_ulong_max
  refine ⟨{ pass1_start p with
      vars := m1
      t0_stamp := tt_gettime wall (pass1_start p).vars.wall_ndx (pass1_start p).t0_stamp },
    ?_, hc, ?_, ?_, by rw [e0], by rw [e0], by rw [e0]⟩
  · unfold pass time_pass
    simp only [if_true]
    have e1 : (pass1_start p).chatty = 0 := by rw [e0]
    have e2 : (pass1_start p).threshold = 0 := by rw [e0]
    have e3 : (pass1_start p).loopcount = MAX_SPIKES := by rw [e0]
    rw [e1, e2, e3, h1]
  · show m1.st.out = _
    rw [hout, e0]
    rfl
  · show m1.wall_ndx = _
    rw [hw, e0]
    rfl

/-- The sampling part of a `FAKE` build under the time method, at any threshold above
0: the warm-up pass uses up the synthetic samples, every delta of pass 2 is 0, and the
run ends with an empty buffer and without having printed a line. -/
theorem fake_sampling_prints_nothing (cycles : Nat → Nat) (power_hog : Bool) (p : Prog)
    (hi : p.vars.st.spike_ndx < MAX_SPIKES) (ht : 0 < p.threshold)
    (hl : p.loopcount < ULONG_MAX) :
    ∃ pf, sampling fake_wall cycles TIME_METHOD power_hog p = some pf ∧
      pf.vars.st.out = p.vars.st.out ∧ pf.vars.st.spike_ndx = 0 := by
  obtain ⟨p1, h1, _, hout, hw, hsl, hst, _⟩ :=
    pass1_time_spec fake_wall cycles power_hog p hi
  have hw2 : 31 ≤ (pass2_start p1).vars.wall_ndx := by
    rw [pass2_start_eq]
    show 31 ≤ p1.vars.wall_ndx
    rw [hw, max_spikes_eq]
    omega
  have hthr : (pass2_start p1).threshold = p.threshold := by
    rw [pass2_start_eq]
    exact hst
  have hloop : (pass2_start p1).loopcount = p.loopcount := by
    rw [pass2_start_eq]
    exact hsl
  have ht0 := fake_wall_saturated (pass2_start p1).vars.wall_ndx hw2 (pass2_start p1).t0_stamp
  obtain ⟨m2, h2, hst2⟩ := time_loop_constant_clock fake_wall (pass2_start p1).chatty
    (pass2_start p1).threshold (pass2_start p1).loopcount
    { pass_entry fake_wall (pass2_start p1) with
      t_stamps := set2 (pass_entry fake_wall (pass2_start p1)).t_stamps 0
        (tt_gettime fake_wall (pass2_start p1).vars.wall_ndx (pass2_start p1).t0_stamp) }
    { tv_sec := 5300, tv_usec := 1312 }
    (fun n old hn => fake_wall_saturated n (by
      have e : (pass_entry fake_wall (pass2_start p1)).wall_ndx =
        (pass2_start p1).vars.wall_ndx + 1 := rfl
      simp only [e] at hn
      omega) old)
    (by
      show get2 (set2 _ 0 _) 0 = _
      rw [get2_set2_same, ht0])
    (by rw [hthr]; exact ht) (by rw [hloop]; exact hl)
  have hp2 : pass fake_wall cycles TIME_METHOD power_hog (pass2_start p1) =
      some { pass2_start p1 with
        vars := m2
        t0_stamp :=
          tt_gettime fake_wall (pass2_start p1).vars.wall_ndx (pass2_start p1).t0_stamp } := by
    unfold pass time_pass
    simp only [if_true]
    rw [h2]
  have hloop2 := warm_up_loop_two_passes fake_wall cycles TIME_METHOD power_hog p p1 _ h1 hp2
  have hcur : m2.st.spike_ndx = 0 := by
    rw [hst2]
    show (pass2_start p1).vars.st.spike_ndx = 0
    rw [pass2_start_eq]
  have hout2 : m2.st.out = p.vars.st.out := by
    rw [hst2]
    show (pass2_start p1).vars.st.out = _
    rw [pass2_start_eq]
    exact hout
  have hs : sampling fake_wall cycles TIME_METHOD power_hog p =
      some { pass2_start p1 with
        vars := m2
        t0_stamp :=
          tt_gettime fake_wall (pass2_start p1).vars.wall_ndx (pass2_start p1).t0_stamp
        warm_up := 3 } := by
    unfold sampling
    rw [hloop2]
    simp only [hcur, gt_iff_lt, Nat.lt_irrefl, if_false]
  exact ⟨_, hs, hout2, hcur⟩

/-- C15: with the synthetic samples of the `FAKE` build, threshold 10, loopcount 28 and
verbosity 2 under the time method, one pass run on the initial state of the program
followed by the final drain prints exactly the six rows documented in the source
(elapsed value in microseconds, spike, gap); the sampling part of `main`, which runs the
warm-up pass first, ends without printing any row. -/
theorem fake_run_prints_no_row :
    ((pass fake_wall (fun _ => 0) TIME_METHOD false (prog_init 28 10 2)).bind
      (fun p => print_big_diff p.chatty p.vars.st)).map (fun s => s.out) =
      some [{ cumulative := 118, spike := 99, this_time := 118 },
            { cumulative := 300, spike := 145, this_time := 182 },
            { cumulative := 1000309, spike := 1000007, this_time := 1000009 },
            { cumulative := 2000310, spike := 1000000, this_time := 1000001 },
            { cumulative := 4296967632, spike := 4294967295, this_time := 4294967322 },
            { cumulative := 4300000311, spike := 3032677, this_time := 3032679 }] ∧
    ∃ pf, sampling fake_wall (fun _ => 0) TIME_METHOD false (prog_init 28 10 2) = some pf ∧
      pf.vars.st.out = [] ∧ pf.vars.st.spike_ndx = 0 :=
  ⟨by decide, fake_sampling_prints_nothing (fun _ => 0) false (prog_init 28 10 2)
    (by decide) (by decide) (by decide)⟩

/-! ## C30: `parse_priority` and `parse_nice` -/

/-- C30 (priority and nice parsing never reject). For every input string
`parse_priority` and `parse_nice` return 0, because the pointer they test is the local
null `endptr` and not what `strtol` left unparsed; so the branches of the `-p` option
that print "illegal value for priority" and "illegal value for nice" are never taken:
the priority field always yields the converted value and the nice field the converted
value clamped to `MIN_NICE .. MAX_NICE`. A string without digits is taken as 0 and
trailing text is dropped. -/
theorem priority_and_nice_never_rejected (s : List Char) :
    (parse_priority s).1 = 0 ∧ (parse_nice s).1 = 0 ∧
    priority_field s = Except.ok (to_int (strtol s)) ∧
    (∃ v, nice_field s = Except.ok v ∧ MIN_NICE ≤ v ∧ v ≤ MAX_NICE ∧
      (MIN_NICE ≤ to_int (strtol s) → to_int (strtol s) ≤ MAX_NICE → v = to_int (strtol s))) ∧
    priority_field ("abc").toList = Except.ok 0 ∧
    priority_field ("12abc").toList = Except.ok 12 ∧
    nice_field ("-5x").toList = Except.ok (-5) ∧
    nice_field ("junk").toList = Except.ok 0 := by
  refine ⟨rfl, rfl, rfl, ?_, rfl, rfl, rfl, rfl⟩
  have h1 : (parse_nice s).1 = 0 := rfl
  have h2 : (parse_nice s).2 = to_int (strtol s) := rfl
  unfold nice_field
  rw [h1, h2]
  simp only [ne_eq, not_true_eq_false, if_false]
  unfold MAX_NICE MIN_NICE
  split
  · exact ⟨19, rfl, by decide, by decide, fun _ h => by omega⟩
  · split
    · exact ⟨-20, rfl, by decide, by decide, fun h _ => by omega⟩
    · exact ⟨_, rfl, by omega, by omega, fun _ _ => rfl⟩

/-! ## The sampling loop of a pass as a sequence of calls of `process_big_diff` -/

/-- What an iteration of the time loop does to the buffer state. -/
theorem time_iteration_st (wall : Nat → Option timeval) (chatty threshold count : Nat)
    (m : Main) :
    (time_iteration wall chatty threshold count m).map (fun x => x.st) =
      if threshold ≤ time_delta wall m count then
        process_big_diff chatty (time_stamp_of wall m count) m.st (time_delta wall m count)
      else some m.st := by
  by_cases hd : threshold ≤ time_delta wall m count
  · rw [if_pos hd]
    cases hp : process_big_diff chatty (time_stamp_of wall m count) m.st
        (time_delta wall m count) with
    | none =>
      unfold time_iteration
      unfold time_stamp_of at hp
      unfold time_delta at hd hp
      simp only [get2_set2_same] at hd hp ⊢
      simp only [ge_iff_le, hd, if_true, hp, Option.map_none']
    | some st1 =>
      rw [time_iteration_spike wall chatty threshold count m st1 hd hp]
      rfl
  · rw [if_neg hd, time_iteration_quiet wall chatty threshold count m (Nat.not_le.mp hd)]
    rfl

/-- What an iteration of either cycle loop does to the buffer state. -/
theorem cycle_iteration_st (wall : Nat → Option timeval) (cycles : Nat → Nat)
    (chatty threshold count : Nat) (m : Main) :
    ((cycle_iteration wall cycles chatty threshold count m).map (fun x => x.st) =
      if threshold ≤ cycle_delta cycles m count then
        process_big_diff chatty (cycle_stamp_of wall m count) m.st
          (cycle_delta cycles m count)
      else some m.st) ∧
    ((power_hog_iteration wall cycles chatty threshold count m).map (fun x => x.st) =
      if threshold ≤ cycle_delta cycles m count then
        process_big_diff chatty (cycle_stamp_of wall m count) m.st
          (cycle_delta cycles m count)
      else some m.st) := by
  by_cases hd : threshold ≤ cycle_delta cycles m count
  · rw [if_pos hd]
    cases hp : process_big_diff chatty (cycle_stamp_of wall m count) m.st
        (cycle_delta cycles m count) with
    | none =>
      unfold cycle_iteration power_hog_iteration
      unfold cycle_stamp_of at hp
      unfold cycle_delta at hd hp
      simp only [get2_set2_same] at hd hp ⊢
      simp only [ge_iff_le, hd, if_true, hp, Option.map_none', and_self]
    | some st1 =>
      rw [cycle_iteration_spike wall cycles chatty threshold count m st1 hd hp,
        power_hog_iteration_spike wall cycles chatty threshold count m st1 hd hp]
      exact ⟨rfl, rfl⟩
  · obtain ⟨e1, e2⟩ :=
      cycle_iteration_quiet wall cycles chatty threshold count m (Nat.not_le.mp hd)
    rw [if_neg hd, e1, e2]
    exact ⟨rfl, rfl⟩

/-- What an iteration of the sampling loop of a pass does to the buffer state: a call
of `process_big_diff` when the delta reaches the threshold, nothing otherwise. -/
theorem sampling_body_st (wall : Nat → Option timeval) (cycles : Nat → Nat) (method : Nat)
    (power_hog : Bool) (chatty threshold count : Nat) (m : Main) :
    (sampling_body wall cycles method power_hog chatty threshold count m).map
        (fun x => x.st) =
      if threshold ≤ sampling_delta wall cycles method m count then
        process_big_diff chatty (sampling_stamp_of wall method m count) m.st
          (sampling_delta wall cycles method m count)
      else some m.st := by
  unfold sampling_body sampling_delta sampling_stamp_of
  by_cases hm : method = TIME_METHOD
  · simp only [hm, if_true]
    exact time_iteration_st wall chatty threshold count m
  · simp only [hm, if_false]
    cases power_hog with
    | true =>
      simp only [if_true]
      exact (cycle_iteration_st wall cycles chatty threshold count m).2
    | false =>
      simp only [Bool.false_eq_true, if_false]
      exact (cycle_iteration_st wall cycles chatty threshold count m).1

/-- The cursor, the drain counter and the logs after `process_big_diff` at a cursor
below `MAX_SPIKES`: the record is written at the cursor; when the advanced cursor is
still below `MAX_SPIKES` nothing else changes, otherwise one drain runs and the cursor
is 0. -/
theorem process_big_diff_cursor (chatty : Nat) (t_stamp : timeval) (st : State) (diff : Nat)
    (h : st.spike_ndx < MAX_SPIKES) :
    ∃ st1, process_big_diff chatty t_stamp st diff = some st1 ∧
      st1.spike_ndx < MAX_SPIKES ∧ st1.last_spike_time = t_stamp ∧
      (st.spike_ndx + (encode (tt_time_diff t_stamp st.last_spike_time)
          (to_uint diff)).length < MAX_SPIKES →
        st1 = { appended st (tt_time_diff t_stamp st.last_spike_time) diff with
          last_spike_time := t_stamp }) ∧
      (MAX_SPIKES ≤ st.spike_ndx + (encode (tt_time_diff t_stamp st.last_spike_time)
          (to_uint diff)).length →
        st1.spike_ndx = 0 ∧ st1.drains = st.drains + 1) ∧
      (st.cumulative = st.drained.sum % ULONG_MOD →
        st1.cumulative = st1.drained.sum % ULONG_MOD) ∧
      st.drains ≤ st1.drains ∧
      ∃ gaps, st1.drained = st.drained ++ gaps := by
  rw [process_big_diff_eq _ _ _ _ h]
  split
  · next hge =>
    obtain ⟨hb, hl⟩ := appended_drainable st (tt_time_diff t_stamp st.last_spike_time) diff h
    obtain ⟨recs, hp⟩ := print_big_diff_effect chatty _ hb hl
    rw [hp]
    refine ⟨_, rfl, by simp only [max_spikes_eq]; norm_num, rfl, ?_, ?_, ?_, ?_, ?_⟩
    · intro hlt
      exact absurd hge (Nat.not_le.mpr hlt)
    · intro _
      exact ⟨rfl, rfl⟩
    · intro hc
      exact emit_all_clock chatty recs _ hc
    · show st.drains ≤ st.drains + 1
      omega
    · exact ⟨recs.map Prod.fst, emit_all_drained chatty recs _⟩
  · next hlt =>
    refine ⟨_, rfl, by simpa using hlt, rfl, fun _ => rfl, ?_, fun hc => hc, le_refl _,
      [], by simp [appended]⟩
    intro hge
    exact absurd hge hlt

/-- An iteration of a loop that passes its spikes to `process_big_diff`, entered with
the cursor below `MAX_SPIKES`, returns and leaves the cursor below `MAX_SPIKES`. -/
theorem body_returns (chatty threshold : Nat) (stamp_of : Main → Nat → timeval)
    (delta : Main → Nat → Nat) (body : Nat → Main → Option Main)
    (hst : ∀ count m, (body count m).map (fun x => x.st) =
      if threshold ≤ delta m count then
        process_big_diff chatty (stamp_of m count) m.st (delta m count)
      else some m.st)
    (count : Nat) (m : Main) (hi : m.st.spike_ndx < MAX_SPIKES) :
    ∃ m1, body count m = some m1 ∧ m1.st.spike_ndx < MAX_SPIKES ∧
      (threshold ≤ delta m count →
        process_big_diff chatty (stamp_of m count) m.st (delta m count) = some m1.st) ∧
      (delta m count < threshold → m1.st = m.st) := by
  have h := hst count m
  by_cases hd : threshold ≤ delta m count
  · rw [if_pos hd] at h
    obtain ⟨st1, hp, hc, _⟩ :=
      process_big_diff_cursor chatty (stamp_of m count) m.st (delta m count) hi
    rw [hp] at h
    cases hb : body count m with
    | none => rw [hb] at h; simp at h
    | some m1 =>
      rw [hb] at h
      simp only [Option.map_some', Option.some.injEq] at h
      refine ⟨m1, rfl, by rw [h]; exact hc, fun _ => by rw [hp, h], fun hlt => ?_⟩
      exact absurd hd (Nat.not_le.mpr hlt)
  · rw [if_neg hd] at h
    cases hb : body count m with
    | none => rw [hb] at h; simp at h
    | some m1 =>
      rw [hb] at h
      simp only [Option.map_some', Option.some.injEq] at h
      exact ⟨m1, rfl, by rw [h]; exact hi, fun hge => absurd hge hd, fun _ => h⟩

theorem loop_from_more_fuel (body : Nat → Main → Option Main) (loopcount extra : Nat) :
    ∀ (fuel count : Nat) (m m1 : Main), loop_from body loopcount fuel count m = some m1 →
      loop_from body loopcount (fuel + extra) count m = some m1 := by
  intro fuel
  induction fuel with
  | zero =>
    intro count m m1 h
    rw [loop_from] at h
    split at h
    · simp at h
    · next hc =>
      cases extra with
      | zero => rw [Nat.zero_add, loop_from, if_neg hc]; exact h
      | succ e => rw [Nat.zero_add, loop_from, if_neg hc]; exact h
  | succ fuel ih =>
    intro count m m1 h
    rw [Nat.add_right_comm, loop_from]
    rw [loop_from] at h
    split at h
    · next hc =>
      rw [if_pos hc]
      cases hb : body count m with
      | none => rw [hb] at h; simp at h
      | some m2 =>
        rw [hb] at h
        simp only at h ⊢
        exact ih _ m2 m1 h
    · next hc =>
      rw [if_neg hc]
      exact h

/-- A loop that runs to its end within its fuel has computed one delta for each value
of `count` from its entry to `loopcount`. -/
theorem loop_deltas_length (delta : Main → Nat → Nat) (body : Nat → Main → Option Main)
    (loopcount : Nat) (hl : loopcount < ULONG_MAX) :
    ∀ (fuel count : Nat) (m m1 : Main), count ≤ loopcount + 1 →
      loop_from body loopcount fuel count m = some m1 →
      (loop_deltas delta body loopcount fuel count m).length = loopcount + 1 - count := by
  have hM : loopcount + 1 < ULONG_MOD := by
    unfold ULONG_MAX at hl
    unfold ULONG_MOD
    omega
  intro fuel
  induction fuel with
  | zero =>
    intro count m m1 hc h
    rw [loop_from] at h
    split at h
    · simp at h
    · simp only [loop_deltas, List.length_nil]
      omega
  | succ fuel ih =>
    intro count m m1 hc h
    rw [loop_from] at h
    rw [loop_deltas]
    split at h
    · next hle =>
      rw [if_pos hle]
      cases hb : body count m with
      | none => rw [hb] at h; simp at h
      | some m2 =>
        rw [hb] at h
        simp only at h ⊢
        rw [Nat.mod_eq_of_lt (by omega)] at h ⊢
        rw [List.length_cons, ih (count + 1) m2 m1 (by omega) h]
        omega
    · next hgt =>
      rw [if_neg hgt, List.length_nil]
      omega

/-- With `loopcount = ULONG_MAX` the loop condition `count <= loopcount` holds for every
value of `count`, and the loop has no result whatever fuel it is given. -/
theorem loop_from_ulong_max (body : Nat → Main → Option Main) :
    ∀ (fuel count : Nat) (m : Main), count < ULONG_MOD →
      loop_from body ULONG_MAX fuel count m = none := by
  have hM : ULONG_MOD = ULONG_MAX + 1 := by decide
  intro fuel
  induction fuel with
  | zero =>
    intro count m hc
    rw [loop_from, if_pos (by omega)]
  | succ fuel ih =>
    intro count m hc
    rw [loop_from, if_pos (by omega)]
    cases body count m with
    | none => rfl
    | some m1 => exact ih _ m1 (Nat.mod_lt _ ulong_mod_pos)

/-- The sampling loop of a pass, entered with the cursor below `MAX_SPIKES` and with
`loopcount` below `ULONG_MAX`, runs to its end and leaves the cursor below
`MAX_SPIKES`. -/
theorem sampling_loop_returns (wall : Nat → Option timeval) (cycles : Nat → Nat)
    (method : Nat) (power_hog : Bool) (chatty threshold loopcount : Nat) (m : Main)
    (hi : m.st.spike_ndx < MAX_SPIKES) (hl : loopcount < ULONG_MAX) :
    ∃ m1, for_loop (sampling_body wall cycles method power_hog chatty threshold)
        loopcount m = some m1 ∧ m1.st.spike_ndx < MAX_SPIKES :=
  for_loop_invariant (sampling_body wall cycles method power_hog chatty threshold) loopcount
    (fun _ x => x.st.spike_ndx < MAX_SPIKES) hl
    (fun count x _ _ hI => by
      obtain ⟨x1, e1, c1, _⟩ := body_returns chatty threshold
        (sampling_stamp_of wall method) (sampling_delta wall cycles method)
        (sampling_body wall cycles method power_hog chatty threshold)
        (sampling_body_st wall cycles method power_hog chatty threshold) count x hI
      exact ⟨x1, e1, c1⟩)
    m hi

/-! ## C25: termination of the sampling loop -/

/-- C25, as stated, fails: with `loopcount = ULONG_MAX` (the value `strtoul` returns for
`-l 18446744073709551615`) the condition `count <= loopcount` is true for every
`unsigned long` `count`, the increment wraps, and the loop has no result for any amount
of fuel: it never terminates. -/
theorem loop_never_ends_at_ulong_max :
    ULONG_MAX = 18446744073709551615 ∧
    ∀ fuel : Nat,
      loop_from (time_iteration (fun n => some (stamp n)) 1 10) ULONG_MAX fuel 1
        (main_at (stamp 0) 0) = none :=
  ⟨by decide, fun fuel => loop_from_ulong_max _ fuel 1 _ (by decide)⟩

/-- C25 (amended): for every `loopcount` below `ULONG_MAX`, the sampling loop
`for (count = 1; count <= loopcount; count++)` of either method, entered with the
cursor inside the buffer, performs exactly `loopcount` iterations and then terminates:
it has a result with fuel for `loopcount` iterations, it has computed `loopcount`
deltas, and more fuel does not change the result. -/
theorem loop_runs_loopcount_iterations (wall : Nat → Option timeval) (cycles : Nat → Nat)
    (method : Nat) (power_hog : Bool) (chatty threshold loopcount : Nat) (m : Main)
    (hi : m.st.spike_ndx < MAX_SPIKES) (hl : loopcount < ULONG_MAX) :
    ∃ m1, for_loop (sampling_body wall cycles method power_hog chatty threshold)
        loopcount m = some m1 ∧
      (loop_deltas (sampling_delta wall cycles method)
        (sampling_body wall cycles method power_hog chatty threshold)
        loopcount loopcount 1 m).length = loopcount ∧
      ∀ extra, loop_from (sampling_body wall cycles method power_hog chatty threshold)
        loopcount (loopcount + extra) 1 m = some m1 := by
  obtain ⟨m1, h1, _⟩ := sampling_loop_returns wall cycles method power_hog chatty threshold
    loopcount m hi hl
  refine ⟨m1, h1, ?_, fun extra => ?_⟩
  · rw [loop_deltas_length _ _ loopcount hl loopcount 1 m m1 (by omega) h1]
    omega
  · exact loop_from_more_fuel _ loopcount extra loopcount 1 m m1 h1

/-- An instance of the amended C25: a time loop with `loopcount = 3`. -/
theorem loop_runs_loopcount_iterations_witness :
    (main_at (stamp 1000) 0).st.spike_ndx < MAX_SPIKES ∧ 3 < ULONG_MAX ∧
    ∃ m1, for_loop (sampling_body (wall_of [1050, 1053, 1060, 1061]) (cycles_of [])
        TIME_METHOD false 1 35) 3 (main_at (stamp 1000) 0) = some m1 ∧
      (loop_deltas (sampling_delta (wall_of [1050, 1053, 1060, 1061]) (cycles_of [])
          TIME_METHOD)
        (sampling_body (wall_of [1050, 1053, 1060, 1061]) (cycles_of []) TIME_METHOD false
          1 35) 3 3 1 (main_at (stamp 1000) 0)).length = 3 := by
  obtain ⟨m1, h1, h2, _⟩ := loop_runs_loopcount_iterations
    (wall_of [1050, 1053, 1060, 1061]) (cycles_of []) TIME_METHOD false 1 35 3
    (main_at (stamp 1000) 0) (by decide) (by decide)
  exact ⟨by decide, by decide, m1, h1, h2⟩

/-! ## C26: the capacity of the buffer -/

/-- C26, as stated, fails: the cell of index `MAX_SPIKES + 2` is inside the array (it
can be read and written) and the first index outside is `MAX_SPIKES + 3`, while the
cursor value at which `process_big_diff` drains is `MAX_SPIKES`: an append that brings
the cursor to `MAX_SPIKES - 1` triggers no drain and the next one does. The capacity is
the flush threshold plus 3, not plus 2. -/
theorem capacity_exceeds_threshold_plus_two :
    (load touched (MAX_SPIKES + 2)).isSome = true ∧
    (store touched (MAX_SPIKES + 2) { time := 0, spike := 0 }).isSome = true ∧
    (load touched (MAX_SPIKES + 3)).isSome = false ∧
    MAX_SPIKES + 3 ≠ MAX_SPIKES + 2 ∧
    ∃ st1 st2,
      process_big_diff 0 (stamp 10)
        { fresh touched (stamp 0) with spike_ndx := MAX_SPIKES - 2 } 5 = some st1 ∧
      st1.spike_ndx = MAX_SPIKES - 1 ∧ st1.drains = 0 ∧
      process_big_diff 0 (stamp 20) st1 5 = some st2 ∧
      st2.spike_ndx = 0 ∧ st2.drains = 1 := by
  refine ⟨by decide, by decide, by decide, by decide, ?_⟩
  obtain ⟨st1, h1, _, hl1, hno, _, _⟩ := process_big_diff_cursor 0 (stamp 10)
    { fresh touched (stamp 0) with spike_ndx := MAX_SPIKES - 2 } 5 (by decide)
  have e1 := hno (by decide)
  have hc1 : st1.spike_ndx = MAX_SPIKES - 1 := by rw [e1]; decide
  have hd1 : st1.drains = 0 := by rw [e1]; rfl
  obtain ⟨st2, h2, _, _, _, hdr, _⟩ := process_big_diff_cursor 0 (stamp 20) st1 5
    (by rw [hc1]; decide)
  have hlen : (encode (tt_time_diff (stamp 20) st1.last_spike_time) (to_uint 5)).length = 1 := by
    rw [hl1]
    decide
  obtain ⟨hc2, hd2⟩ := hdr (by rw [hc1, hlen]; decide)
  exact ⟨st1, st2, h1, hc1, hd1, h2, hc2, by rw [hd2, hd1]⟩

/-- C26 (amended): the capacity of the buffer, the dimension of the array `spikes`, is
`MAX_SPIKES + 3 = 1024` (a cell can be read or written exactly when its index is below
it), where `MAX_SPIKES = 1021` is the flush threshold: an append at a cursor below
`MAX_SPIKES` triggers no drain while the advanced cursor is below `MAX_SPIKES`, and
exactly one drain, leaving the cursor at 0, once it reaches `MAX_SPIKES`. -/
theorem capacity_is_threshold_plus_three :
    (∀ (s : Nat → spike_data_struct) (i : Nat),
      (load s i).isSome = true ↔ i < MAX_SPIKES + 3) ∧
    (∀ (s : Nat → spike_data_struct) (i : Nat) (c : spike_data_struct),
      (store s i c).isSome = true ↔ i < MAX_SPIKES + 3) ∧
    MAX_SPIKES = 1021 ∧ MAX_SPIKES + 3 = 1024 ∧
    ∀ (chatty : Nat) (t_stamp : timeval) (st : State) (diff : Nat),
      st.spike_ndx < MAX_SPIKES →
      ∃ st1, process_big_diff chatty t_stamp st diff = some st1 ∧
        (st.spike_ndx + (encode (tt_time_diff t_stamp st.last_spike_time)
            (to_uint diff)).length < MAX_SPIKES →
          st1.drains = st.drains ∧
          st1.spike_ndx = st.spike_ndx +
            (encode (tt_time_diff t_stamp st.last_spike_time) (to_uint diff)).length) ∧
        (MAX_SPIKES ≤ st.spike_ndx + (encode (tt_time_diff t_stamp st.last_spike_time)
            (to_uint diff)).length →
          st1.drains = st.drains + 1 ∧ st1.spike_ndx = 0) := by
  refine ⟨?_, ?_, rfl, rfl, ?_⟩
  · intro s i
    unfold load
    split <;> simp_all
  · intro s i c
    unfold store
    split <;> simp_all
  · intro chatty t_stamp st diff hi
    obtain ⟨st1, h1, _, _, hno, hdr, _⟩ := process_big_diff_cursor chatty t_stamp st diff hi
    refine ⟨st1, h1, fun hlt => ?_, fun hge => ?_⟩
    · rw [hno hlt]
      exact ⟨rfl, rfl⟩
    · obtain ⟨a, b⟩ := hdr hge
      exact ⟨b, a⟩

/-- A pass is the entry into its sampling loop followed by the loop. -/
theorem pass_eq (wall : Nat → Option timeval) (cycles : Nat → Nat) (method : Nat)
    (power_hog : Bool) (p : Prog) :
    pass wall cycles method power_hog p =
      ((sampling_entry wall cycles method p).bind
        (fun m => for_loop (sampling_body wall cycles method power_hog p.chatty p.threshold)
          p.loopcount m)).map
        (fun m1 => { p with
          vars := m1
          t0_stamp := tt_gettime wall p.vars.wall_ndx p.t0_stamp }) := by
  unfold pass sampling_entry sampling_body time_pass cycle_pass cycle_loop
  by_cases hm : method = TIME_METHOD
  · simp only [hm, if_true, Option.some_bind]
    cases for_loop (time_iteration wall p.chatty p.threshold) p.loopcount _ <;> rfl
  · simp only [hm, if_false]
    cases for_loop (min_spike_iteration cycles) 1024
        (read_cycle_stamp0 cycles (pass_entry wall p)) with
    | none => rfl
    | some m0 =>
      simp only [Option.map_some', Option.some_bind]
      cases power_hog with
      | true =>
        simp only [if_true]
        cases for_loop (power_hog_iteration wall cycles p.chatty p.threshold) p.loopcount _ <;>
          rfl
      | false =>
        simp only [Bool.false_eq_true, if_false]
        cases for_loop (cycle_iteration wall cycles p.chatty p.threshold) p.loopcount _ <;>
          rfl

/-- The sampling loop of a pass is entered with the buffer state of the start of the
pass, `last_spike_time` being the timestamp read there, after one read of the wall
clock; `min_spike` is as at the start under the time method and lowered by the
1024-iteration loop under the cycle method. -/
theorem sampling_entry_spec (wall : Nat → Option timeval) (cycles : Nat → Nat)
    (method : Nat) (p : Prog) :
    ∃ m, sampling_entry wall cycles method p = some m ∧
      m.st = (pass_entry wall p).st ∧ m.wall_ndx = p.vars.wall_ndx + 1 ∧
      m.min_spike = (if method = TIME_METHOD then p.vars.min_spike
        else (init_deltas cycles (pass_entry wall p)).foldl min p.vars.min_spike) := by
  unfold sampling_entry
  by_cases hm : method = TIME_METHOD
  · simp only [hm, if_true]
    exact ⟨_, rfl, rfl, rfl, rfl⟩
  · simp only [hm, if_false]
    obtain ⟨m0, h0, hmin, hst, hw⟩ := init_loop_spec cycles (pass_entry wall p)
    rw [h0]
    exact ⟨_, rfl, hst, hw, hmin⟩

/-- A pass entered with the cursor below `MAX_SPIKES` and `loopcount` below `ULONG_MAX`
returns and leaves the cursor below `MAX_SPIKES`. -/
theorem pass_returns (wall : Nat → Option timeval) (cycles : Nat → Nat) (method : Nat)
    (power_hog : Bool) (p : Prog) (hi : p.vars.st.spike_ndx < MAX_SPIKES)
    (hl : p.loopcount < ULONG_MAX) :
    ∃ m m1, sampling_entry wall cycles method p = some m ∧
      for_loop (sampling_body wall cycles method power_hog p.chatty p.threshold)
        p.loopcount m = some m1 ∧
      m1.st.spike_ndx < MAX_SPIKES ∧
      pass wall cycles method power_hog p = some { p with
        vars := m1
        t0_stamp := tt_gettime wall p.vars.wall_ndx p.t0_stamp } := by
  obtain ⟨m, hm, hst, _⟩ := sampling_entry_spec wall cycles method p
  obtain ⟨m1, h1, hc⟩ := sampling_loop_returns wall cycles method power_hog p.chatty
    p.threshold p.loopcount m (by rw [hst]; exact hi) hl
  refine ⟨m, m1, hm, h1, hc, ?_⟩
  rw [pass_eq, hm]
  simp only [Option.some_bind, h1, Option.map_some']

/-! ## C22: the configuration in force during pass 2 -/

/-- The loop `while ( warm_up++ < 2 )` entered with `warm_up = 0` and fuel for at least
two passes is pass 1 followed by pass 2, and nothing more. -/
theorem warm_up_loop_eq (wall : Nat → Option timeval) (cycles : Nat → Nat)
    (method : Nat) (power_hog : Bool) (p p1 : Prog) (fuel : Nat)
    (h1 : pass wall cycles method power_hog (pass1_start p) = some p1) :
    warm_up_loop wall cycles method power_hog (fuel + 2) { p with warm_up := 0 } =
      (pass wall cycles method power_hog (pass2_start p1)).map
        (fun p2 => { p2 with warm_up := 3 }) := by
  have e1 : warm_up_setup { ({ p with warm_up := 0 } : Prog) with warm_up := 0 + 1 } =
      pass1_start p := rfl
  have k1 := pass_keeps_configuration wall cycles method power_hog _ _ h1
  have w1 : p1.warm_up = 1 := by
    rw [k1]
    simp [pass1_start, warm_up_setup]
  rw [warm_up_loop]
  simp only [Nat.lt_irrefl, Nat.zero_lt_succ, if_true, Nat.ofNat_pos]
  rw [e1, h1]
  simp only
  rw [warm_up_loop]
  simp only [w1, Nat.one_lt_ofNat, if_true]
  have e3 : warm_up_setup { p1 with warm_up := 1 + 1 } = pass2_start p1 := rfl
  rw [e3]
  cases h2 : pass wall cycles method power_hog (pass2_start p1) with
  | none => rfl
  | some p2 =>
    have k2 := pass_keeps_configuration wall cycles method power_hog _ _ h2
    have w2 : p2.warm_up = 2 := by
      rw [k2, pass2_start_eq]
    simp only [Option.map_some']
    cases fuel with
    | zero => rw [warm_up_loop]; simp only [w2, Nat.lt_irrefl, if_false]
    | succ f => rw [warm_up_loop]; simp only [w2, Nat.lt_irrefl, if_false]

/-- C22 (the warm-up restores the configuration). Pass 1 runs with `loopcount`,
`threshold` and `chatty` forced to `MAX_SPIKES`, 0 and 0 and returns from any state with
the cursor inside the buffer; pass 2 starts with the `loopcount`, `threshold` and
`chatty` of the caller, whatever they are, and keeps them to its end; and the loop
`while ( warm_up++ < 2 )` is pass 1 followed by pass 2 and nothing more, whatever fuel
beyond two passes it is given: the sampling loop is run exactly twice. -/
theorem warm_up_restores_configuration (wall : Nat → Option timeval) (cycles : Nat → Nat)
    (method : Nat) (power_hog : Bool) (p : Prog) (hi : p.vars.st.spike_ndx < MAX_SPIKES) :
    (pass1_start p).loopcount = MAX_SPIKES ∧ (pass1_start p).threshold = 0 ∧
    (pass1_start p).chatty = 0 ∧
    ∃ p1, pass wall cycles method power_hog (pass1_start p) = some p1 ∧
      (pass2_start p1).loopcount = p.loopcount ∧
      (pass2_start p1).threshold = p.threshold ∧
      (pass2_start p1).chatty = p.chatty ∧
      (∀ p2, pass wall cycles method power_hog (pass2_start p1) = some p2 →
        p2.loopcount = p.loopcount ∧ p2.threshold = p.threshold ∧ p2.chatty = p.chatty) ∧
      (p.loopcount < ULONG_MAX →
        ∃ p2, pass wall cycles method power_hog (pass2_start p1) = some p2) ∧
      ∀ fuel, warm_up_loop wall cycles method power_hog (fuel + 2) { p with warm_up := 0 } =
        (pass wall cycles method power_hog (pass2_start p1)).map
          (fun p2 => { p2 with warm_up := 3 }) := by
  have e0 : pass1_start p = { p with
      save_loopcount := p.loopcount, save_threshold := p.threshold,
      save_chatty := p.chatty, loopcount := MAX_SPIKES, threshold := 0, chatty := 0,
      warm_up := 1 } := by
    simp [pass1_start, warm_up_setup]
  obtain ⟨p1, h1, hc, hl, ht, hch, _⟩ := pass1_spec wall cycles method power_hog p hi
  have a1 : (pass2_start p1).loopcount = p.loopcount := by rw [pass2_start_eq]; exact hl
  have a2 : (pass2_start p1).threshold = p.threshold := by rw [pass2_start_eq]; exact ht
  have a3 : (pass2_start p1).chatty = p.chatty := by rw [pass2_start_eq]; exact hch
  refine ⟨by rw [e0], by rw [e0], by rw [e0], p1, h1, a1, a2, a3, ?_, ?_, ?_⟩
  · intro p2 h2
    have k2 := pass_keeps_configuration wall cycles method power_hog _ _ h2
    rw [k2]
    exact ⟨a1, a2, a3⟩
  · intro hlt
    obtain ⟨_, m1, _, _, _, h2⟩ := pass_returns wall cycles method power_hog (pass2_start p1)
      (by rw [pass2_start_eq]; show 0 < MAX_SPIKES; decide) (by rw [a1]; exact hlt)
    exact ⟨_, h2⟩
  · intro fuel
    exact warm_up_loop_eq wall cycles method power_hog p p1 fuel h1

/-- An instance of C22: from the initial state with `loopcount = 5`, `threshold = 10`
and `chatty = 1`, pass 2 starts with exactly these values. -/
theorem warm_up_restores_configuration_witness :
    (prog_init 5 10 1).vars.st.spike_ndx < MAX_SPIKES ∧
    ∃ p1, pass (fun n => some (stamp (1000 + n))) (fun n => 100 * n) TIME_METHOD false
        (pass1_start (prog_init 5 10 1)) = some p1 ∧
      (pass2_start p1).loopcount = 5 ∧ (pass2_start p1).threshold = 10 ∧
      (pass2_start p1).chatty = 1 := by
  obtain ⟨_, _, _, p1, h1, a1, a2, a3, _⟩ := warm_up_restores_configuration
    (fun n => some (stamp (1000 + n))) (fun n => 100 * n) TIME_METHOD false (prog_init 5 10 1)
    (by decide)
  exact ⟨by decide, p1, h1, a1, a2, a3⟩

/-! ## C21: what the warm-up pass exercises -/

/-- A loop carries an invariant to its end when each iteration keeps it, given that
the call of `process_big_diff` the iteration makes, if any, has a property that all
the calls of the loop have. -/
theorem loop_from_traced (stamp_of : Main → Nat → timeval) (delta : Main → Nat → Nat)
    (threshold : Nat) (body : Nat → Main → Option Main) (loopcount : Nat)
    (I : Nat → Main → Prop) (P : timeval × Nat × Nat → Prop) (hl : loopcount < ULONG_MAX)
    (hbody : ∀ count m, 1 ≤ count → count ≤ loopcount → I count m →
      (threshold ≤ delta m count →
        P (stamp_of m count, tt_time_diff (stamp_of m count) m.st.last_spike_time,
          delta m count)) →
      ∃ m1, body count m = some m1 ∧ I (count + 1) m1) :
    ∀ (fuel count : Nat) (m : Main), 1 ≤ count → count ≤ loopcount + 1 →
      loopcount + 1 ≤ count + fuel →
      (∀ e ∈ loop_spikes stamp_of delta threshold body loopcount fuel count m, P e) →
      I count m →
      ∃ m1, loop_from body loopcount fuel count m = some m1 ∧ I (loopcount + 1) m1 := by
  have hM : loopcount + 1 < ULONG_MOD := by
    unfold ULONG_MAX at hl
    unfold ULONG_MOD
    omega
  intro fuel
  induction fuel with
  | zero =>
    intro count m _ h2 h3 _ hI
    have hc : count = loopcount + 1 := by omega
    subst hc
    exact ⟨m, by simp [loop_from], hI⟩
  | succ fuel ih =>
    intro count m h1 h2 h3 hP hI
    by_cases hc : count ≤ loopcount
    · rw [loop_spikes, if_pos hc] at hP
      obtain ⟨m1, e1, hI1⟩ := hbody count m h1 hc hI (fun hd => by
        apply hP
        rw [if_pos hd]
        simp)
      rw [e1] at hP
      simp only at hP
      rw [Nat.mod_eq_of_lt (by omega)] at hP
      obtain ⟨m2, e2, hI2⟩ := ih (count + 1) m1 (by omega) (by omega) (by omega)
        (fun e he => hP e (List.mem_append_right _ he)) hI1
      refine ⟨m2, ?_, hI2⟩
      rw [loop_from, if_pos hc, e1]
      simp only
      rw [Nat.mod_eq_of_lt (by omega)]
      exact e2
    · have hc1 : count = loopcount + 1 := by omega
      subst hc1
      exact ⟨m, by rw [loop_from, if_neg hc], hI⟩

/-- At threshold 0 every iteration makes a call of `process_big_diff`. -/
theorem loop_spikes_length_zero (stamp_of : Main → Nat → timeval) (delta : Main → Nat → Nat)
    (body : Nat → Main → Option Main) (loopcount : Nat) :
    ∀ (fuel count : Nat) (m : Main),
      (loop_spikes stamp_of delta 0 body loopcount fuel count m).length =
        (loop_deltas delta body loopcount fuel count m).length := by
  intro fuel
  induction fuel with
  | zero => intro count m; rfl
  | succ fuel ih =>
    intro count m
    rw [loop_spikes, loop_deltas]
    split
    · rw [if_pos (Nat.zero_le _)]
      cases body count m with
      | none => rfl
      | some m1 =>
        simp only [List.singleton_append, List.length_cons]
        rw [ih]
    · rfl

/-- A loop of `MAX_SPIKES` iterations at threshold 0, entered with the cursor below
`MAX_SPIKES`, drains the buffer at least once. -/
theorem warm_up_loop_drains (chatty : Nat) (stamp_of : Main → Nat → timeval)
    (delta : Main → Nat → Nat) (body : Nat → Main → Option Main)
    (hst : ∀ count m, (body count m).map (fun x => x.st) =
      if 0 ≤ delta m count then
        process_big_diff chatty (stamp_of m count) m.st (delta m count)
      else some m.st)
    (m : Main) (hi : m.st.spike_ndx < MAX_SPIKES) :
    ∃ m1, for_loop body MAX_SPIKES m = some m1 ∧ m1.st.spike_ndx < MAX_SPIKES ∧
      m.st.drains < m1.st.drains := by
  obtain ⟨m1, h1, hc, hd, hn⟩ := for_loop_invariant body MAX_SPIKES
    (fun count x => x.st.spike_ndx < MAX_SPIKES ∧ m.st.drains ≤ x.st.drains ∧
      (x.st.drains = m.st.drains → count ≤ x.st.spike_ndx + 1))
    max_spikes_lt_ulong_max
    (fun count x _ _ hI => by
      obtain ⟨x1, e1, c1, hp, _⟩ := body_returns chatty 0 stamp_of delta body hst count x hI.1
      obtain ⟨st1, hp1, _, _, hno, hdr, _, hmono, _⟩ :=
        process_big_diff_cursor chatty (stamp_of x count) x.st (delta x count) hI.1
      have e : st1 = x1.st := by
        have := hp (Nat.zero_le _)
        rw [hp1] at this
        exact Option.some.inj this
      subst e
      have hpos := encode_length_pos
        (tt_time_diff (stamp_of x count) x.st.last_spike_time) (to_uint (delta x count))
      refine ⟨x1, e1, c1, le_trans hI.2.1 hmono, fun heq => ?_⟩
      by_cases hlt : x.st.spike_ndx + (encode (tt_time_diff (stamp_of x count)
          x.st.last_spike_time) (to_uint (delta x count))).length < MAX_SPIKES
      · have e2 := hno hlt
        have hc2 : x1.st.spike_ndx = x.st.spike_ndx + (encode (tt_time_diff
            (stamp_of x count) x.st.last_spike_time) (to_uint (delta x count))).length := by
          rw [e2]
          rfl
        have hd2 : x1.st.drains = x.st.drains := by
          rw [e2]
          rfl
        have := hI.2.2 (by omega)
        omega
      · have := (hdr (Nat.not_lt.mp hlt)).2
        have := hI.2.1
        omega)
    m ⟨hi, le_refl _, fun _ => by omega⟩
  refine ⟨m1, h1, hc, ?_⟩
  rcases Nat.lt_or_ge m.st.drains m1.st.drains with h | h
  · exact h
  · have := hn (by omega)
    omega

/-- A loop of `MAX_SPIKES` iterations at threshold 0, entered with an empty buffer,
all of whose gaps fit in 32 bits, drains the buffer exactly once, in its last
iteration, and ends with the cursor at 0. -/
theorem warm_up_loop_drains_once (chatty : Nat) (stamp_of : Main → Nat → timeval)
    (delta : Main → Nat → Nat) (body : Nat → Main → Option Main)
    (hst : ∀ count m, (body count m).map (fun x => x.st) =
      if 0 ≤ delta m count then
        process_big_diff chatty (stamp_of m count) m.st (delta m count)
      else some m.st)
    (m : Main) (h0 : m.st.spike_ndx = 0)
    (hfit : ∀ e ∈ loop_spikes stamp_of delta 0 body MAX_SPIKES MAX_SPIKES 1 m,
      e.2.1 < UINT_MOD) :
    ∃ m1, for_loop body MAX_SPIKES m = some m1 ∧ m1.st.spike_ndx = 0 ∧
      m1.st.drains = m.st.drains + 1 := by
  obtain ⟨m1, h1, _, hend⟩ := loop_from_traced stamp_of delta 0 body MAX_SPIKES
    (fun count x => (count ≤ MAX_SPIKES →
        x.st.spike_ndx + 1 = count ∧ x.st.drains = m.st.drains) ∧
      (count = MAX_SPIKES + 1 → x.st.spike_ndx = 0 ∧ x.st.drains = m.st.drains + 1))
    (fun e => e.2.1 < UINT_MOD) max_spikes_lt_ulong_max
    (fun count x hc1 hc2 hI hP => by
      obtain ⟨hcur, hdr0⟩ := hI.1 hc2
      have hi : x.st.spike_ndx < MAX_SPIKES := by omega
      obtain ⟨x1, e1, c1, hp, _⟩ := body_returns chatty 0 stamp_of delta body hst count x hi
      obtain ⟨st1, hp1, _, _, hno, hdr, _⟩ :=
        process_big_diff_cursor chatty (stamp_of x count) x.st (delta x count) hi
      have e : st1 = x1.st := by
        have := hp (Nat.zero_le _)
        rw [hp1] at this
        exact Option.some.inj this
      subst e
      have hlen : (encode (tt_time_diff (stamp_of x count) x.st.last_spike_time)
          (to_uint (delta x count))).length = 1 := by
        rw [encode_length, if_pos (hP (Nat.zero_le _))]
      rw [hlen] at hno hdr
      refine ⟨x1, e1, fun hle => ?_, fun heq => ?_⟩
      · have e2 := hno (by omega)
        rw [e2]
        refine ⟨?_, hdr0⟩
        show x.st.spike_ndx + (encode (tt_time_diff (stamp_of x count) x.st.last_spike_time)
          (to_uint (delta x count))).length + 1 = count + 1
        omega
      · obtain ⟨a, b⟩ := hdr (by omega)
        exact ⟨a, by omega⟩)
    MAX_SPIKES 1 m (le_refl _) (by omega) (by omega) hfit
    ⟨fun _ => ⟨by omega, rfl⟩, fun h => by rw [max_spikes_eq] at h; omega⟩
  obtain ⟨a, b⟩ := hend rfl
  exact ⟨m1, h1, a, b⟩

theorem pass1_start_configuration (p : Prog) :
    (pass1_start p).chatty = 0 ∧ (pass1_start p).threshold = 0 ∧
    (pass1_start p).loopcount = MAX_SPIKES ∧ (pass1_start p).vars = p.vars ∧
    (pass1_start p).t0_stamp = p.t0_stamp := by
  simp [pass1_start, warm_up_setup]

/-- C21 (the warm-up pass exercises the encoder and a flush). Pass 1, entered with the
cursor inside the buffer, returns for every sample sequence and either method; it runs
`MAX_SPIKES` iterations, every delta reaches the forced threshold 0, so every iteration
makes a call of `process_big_diff`, and the buffer is drained at least once before the
pass ends. When the pass is entered with an empty buffer (as in the program) and every
gap fits in 32 bits, exactly one drain happens and the cursor is 0 at the end of the
pass. -/
theorem warm_up_pass_appends_and_drains (wall : Nat → Option timeval) (cycles : Nat → Nat)
    (method : Nat) (power_hog : Bool) (p : Prog) (hi : p.vars.st.spike_ndx < MAX_SPIKES) :
    ∃ p1, pass wall cycles method power_hog (pass1_start p) = some p1 ∧
      (pass_deltas wall cycles method power_hog (pass1_start p)).length = MAX_SPIKES ∧
      (∀ d ∈ pass_deltas wall cycles method power_hog (pass1_start p),
        (pass1_start p).threshold ≤ d) ∧
      (pass_spikes wall cycles method power_hog (pass1_start p)).length = MAX_SPIKES ∧
      p.vars.st.drains < p1.vars.st.drains ∧
      (p.vars.st.spike_ndx = 0 →
        (∀ e ∈ pass_spikes wall cycles method power_hog (pass1_start p), e.2.1 < UINT_MOD) →
        p1.vars.st.drains = p.vars.st.drains + 1 ∧ p1.vars.st.spike_ndx = 0) := by
  obtain ⟨e1, e2, e3, e4, _⟩ := pass1_start_configuration p
  obtain ⟨m, hm, hst, _⟩ := sampling_entry_spec wall cycles method (pass1_start p)
  have hcur : m.st.spike_ndx = p.vars.st.spike_ndx := by
    rw [hst]
    show (pass1_start p).vars.st.spike_ndx = _
    rw [e4]
  have hdr : m.st.drains = p.vars.st.drains := by
    rw [hst]
    show (pass1_start p).vars.st.drains = _
    rw [e4]
  obtain ⟨m1, h1, _, hd1⟩ := warm_up_loop_drains 0 (sampling_stamp_of wall method)
    (sampling_delta wall cycles method) (sampling_body wall cycles method power_hog 0 0)
    (sampling_body_st wall cycles method power_hog 0 0) m (by rw [hcur]; exact hi)
  have hp : pass wall cycles method power_hog (pass1_start p) = some { pass1_start p with
      vars := m1
      t0_stamp :=
        tt_gettime wall (pass1_start p).vars.wall_ndx (pass1_start p).t0_stamp } := by
    rw [pass_eq, hm]
    simp only [Option.some_bind, e1, e2, e3, h1, Option.map_some']
  have hdel : pass_deltas wall cycles method power_hog (pass1_start p) =
      loop_deltas (sampling_delta wall cycles method)
        (sampling_body wall cycles method power_hog 0 0) MAX_SPIKES MAX_SPIKES 1 m := by
    simp only [pass_deltas, hm, e1, e2, e3]
  have hspk : pass_spikes wall cycles method power_hog (pass1_start p) =
      loop_spikes (sampling_stamp_of wall method) (sampling_delta wall cycles method) 0
        (sampling_body wall cycles method power_hog 0 0) MAX_SPIKES MAX_SPIKES 1 m := by
    simp only [pass_spikes, hm, e1, e2, e3]
  have hlen := loop_deltas_length (sampling_delta wall cycles method)
    (sampling_body wall cycles method power_hog 0 0) MAX_SPIKES max_spikes_lt_ulong_max
    MAX_SPIKES 1 m m1 (by omega) h1
  refine ⟨_, hp, ?_, ?_, ?_, ?_, ?_⟩
  · rw [hdel, hlen]
    omega
  · intro d _
    rw [e2]
    exact Nat.zero_le d
  · rw [hspk, loop_spikes_length_zero, hlen]
    omega
  · show p.vars.st.drains < m1.st.drains
    rw [← hdr]
    exact hd1
  · intro h0 hfit
    rw [hspk] at hfit
    obtain ⟨m2, h2, hc2, hd2⟩ := warm_up_loop_drains_once 0 (sampling_stamp_of wall method)
      (sampling_delta wall cycles method) (sampling_body wall cycles method power_hog 0 0)
      (sampling_body_st wall cycles method power_hog 0 0) m (by rw [hcur]; exact h0) hfit
    rw [h1] at h2
    simp only [Option.some.injEq] at h2
    subst h2
    show m1.st.drains = p.vars.st.drains + 1 ∧ m1.st.spike_ndx = 0
    rw [← hdr]
    exact ⟨hd2, hc2⟩

/-- An instance of C21: pass 1 of the program started on a clock that advances one
microsecond per read drains the buffer. -/
theorem warm_up_pass_appends_and_drains_witness :
    (prog_init 5 10 1).vars.st.spike_ndx < MAX_SPIKES ∧
    ∃ p1, pass (fun n => some (stamp (1000 + n))) (fun n => 100 * n) TIME_METHOD false
        (pass1_start (prog_init 5 10 1)) = some p1 ∧
      (prog_init 5 10 1).vars.st.drains < p1.vars.st.drains := by
  obtain ⟨p1, h1, _, _, _, h2, _⟩ := warm_up_pass_appends_and_drains
    (fun n => some (stamp (1000 + n))) (fun n => 100 * n) TIME_METHOD false (prog_init 5 10 1)
    (by decide)
  exact ⟨by decide, p1, h1, h2⟩

/-! ## C27: what is recovered of a record -/

/-- One append at cursor 0 followed by a drain, for a record that is not stored as the
marker: the drain decodes the one record, adds its gap to the clock and logs it. -/
theorem append_then_drain (chatty : Nat) (t_stamp : timeval) (st : State) (gap diff : Nat)
    (h0 : st.spike_ndx = 0)
    (hgap : tt_time_diff t_stamp st.last_spike_time = gap)
    (hm : ¬ (gap = 0 ∧ diff % UINT_MOD = 0)) :
    ∃ st1 st2, process_big_diff chatty t_stamp st diff = some st1 ∧
      print_big_diff chatty st1 = some st2 ∧
      st2.spike_ndx = 0 ∧ st2.drained = st.drained ++ [gap] ∧
      st2.cumulative = (st.cumulative + gap) % ULONG_MOD := by
  have hlen := encode_length_le gap (to_uint diff)
  have hg : gap < ULONG_MOD := hgap ▸ tt_time_diff_lt _ _
  have h1 := process_big_diff_no_drain chatty t_stamp st gap diff
    (by rw [h0, max_spikes_eq]; omega) hgap
  have h2 := print_big_diff_decodes chatty
    { appended st gap diff with last_spike_time := t_stamp } [(gap, to_uint diff)]
    (by
      intro r hr
      rw [List.mem_singleton] at hr
      subst hr
      exact ⟨hg, hm⟩)
    (by
      rw [encode_all_singleton]
      simp only [appended, h0]
      exact holds_write_cells _ _ _)
    (by rw [encode_all_singleton]; simp [appended, h0])
    (by simp only [appended, h0, max_spikes_eq]; omega)
  refine ⟨_, _, h1, h2, rfl, ?_, ?_⟩
  · simp only [emit_all, emit, appended]
  · simp only [emit_all, emit, appended]

/-- C27, as stated, fails: at verbosity 0 the record with gap 1000 and magnitude 77 is
appended and drained, the drain adds the gap to the clock, and no tuple is yielded. -/
theorem drain_at_verbosity_zero_yields_no_tuple :
    round_trip 0 (stamp 1000) (fresh touched (stamp 0)) 77 = some [] ∧
    ((process_big_diff 0 (stamp 1000) (fresh touched (stamp 0)) 77).bind
      (print_big_diff 0)).map (fun s => (s.cumulative, s.drained, s.out)) =
      some (1000, [1000], []) := by
  decide

/-- C27 (amended): for every gap and every 64-bit magnitude other than the pairs with
gap 0 and magnitude divisible by `2^32`, appending the pair to an empty buffer and
draining decodes exactly one record; its gap is recovered in full (it is the value
added to the clock and logged, at every verbosity), and at verbosity above 0 the drain
yields the one tuple (gap, magnitude mod `2^32`), which is the pair appended exactly
when the magnitude fits in 32 bits; at verbosity 0 it yields no tuple. -/
theorem stored_magnitude_is_truncated (chatty : Nat) (t_stamp : timeval) (st : State)
    (gap diff : Nat) (h0 : st.spike_ndx = 0)
    (hgap : tt_time_diff t_stamp st.last_spike_time = gap)
    (hm : ¬ (gap = 0 ∧ diff % UINT_MOD = 0)) :
    round_trip chatty t_stamp st diff =
      some (if 0 < chatty then [(gap, diff % UINT_MOD)] else []) ∧
    (diff % UINT_MOD = diff ↔ diff < UINT_MOD) ∧
    ∃ st1 st2, process_big_diff chatty t_stamp st diff = some st1 ∧
      print_big_diff chatty st1 = some st2 ∧
      st2.spike_ndx = 0 ∧ st2.drained = st.drained ++ [gap] ∧
      st2.cumulative = (st.cumulative + gap) % ULONG_MOD := by
  refine ⟨round_trip_eq chatty t_stamp st gap diff h0 hgap hm, ?_,
    append_then_drain chatty t_stamp st gap diff h0 hgap hm⟩
  constructor
  · intro h
    rw [← h]
    exact Nat.mod_lt _ uint_mod_pos
  · exact Nat.mod_eq_of_lt

/-- Instances of the amended C27: gap `2^32 + 5` with magnitude `2^32 + 77` yields
`(2^32 + 5, 77)` at verbosity 1. -/
theorem stored_magnitude_is_truncated_witness :
    (fresh touched (stamp 0)).spike_ndx = 0 ∧
    tt_time_diff (stamp (2 ^ 32 + 5)) (fresh touched (stamp 0)).last_spike_time = 2 ^ 32 + 5 ∧
    ¬ (2 ^ 32 + 5 = 0 ∧ (2 ^ 32 + 77) % UINT_MOD = 0) ∧
    round_trip 1 (stamp (2 ^ 32 + 5)) (fresh touched (stamp 0)) (2 ^ 32 + 77) =
      some [(2 ^ 32 + 5, 77)] :=
  ⟨rfl, by decide, by decide,
    (stored_magnitude_is_truncated 1 (stamp (2 ^ 32 + 5)) (fresh touched (stamp 0))
      (2 ^ 32 + 5) (2 ^ 32 + 77) rfl (by decide) (by decide)).1.trans (by decide)⟩

/-! ## C29: the gaps of a pass telescope -/

theorem tt_time_diff_of_le (t last : timeval) (h : usec_of last ≤ usec_of t) :
    tt_time_diff t last = usec_of t - usec_of last := by
  have h1 := usec_of_lt t
  have h2 := usec_of_lt last
  unfold tt_time_diff
  have e : usec_of t + (ULONG_MOD - usec_of last) =
      (usec_of t - usec_of last) + ULONG_MOD := by omega
  rw [e, Nat.add_mod_right, Nat.mod_eq_of_lt (by omega)]

/-- Unsigned differences add up: `(b - a) + (c - b) = c - a` modulo `2^64`. -/
theorem tt_time_diff_add (a b c : timeval) (s : Nat)
    (hs : s % ULONG_MOD = tt_time_diff c b) :
    (tt_time_diff b a + s) % ULONG_MOD = tt_time_diff c a := by
  have ha := usec_of_lt a
  have hb := usec_of_lt b
  have hc := usec_of_lt c
  rw [Nat.add_mod, hs]
  unfold tt_time_diff
  unfold ULONG_MOD at *
  omega

/-- Whenever `process_big_diff` returns, `last_spike_time` is the timestamp passed. -/
theorem process_big_diff_last (chatty : Nat) (t_stamp : timeval) (st st1 : State)
    (diff : Nat) (h : process_big_diff chatty t_stamp st diff = some st1) :
    st1.last_spike_time = t_stamp := by
  unfold process_big_diff at h
  simp only at h
  split at h
  · simp at h
  · split at h
    · split at h
      · simp at h
      · simp only [Option.some.injEq] at h
        rw [← h]
    · simp only [Option.some.injEq] at h
      rw [← h]

/-- After an iteration that returns, `last_spike_time` is the timestamp of the
iteration when its delta reached the threshold, and is unchanged otherwise. -/
theorem body_last_spike_time (chatty threshold : Nat) (stamp_of : Main → Nat → timeval)
    (delta : Main → Nat → Nat) (body : Nat → Main → Option Main)
    (hst : ∀ count m, (body count m).map (fun x => x.st) =
      if threshold ≤ delta m count then
        process_big_diff chatty (stamp_of m count) m.st (delta m count)
      else some m.st)
    (count : Nat) (m m1 : Main) (hb : body count m = some m1) :
    m1.st.last_spike_time =
      if threshold ≤ delta m count then stamp_of m count else m.st.last_spike_time := by
  have h := hst count m
  rw [hb] at h
  simp only [Option.map_some'] at h
  split
  · next hd =>
    rw [if_pos hd] at h
    exact process_big_diff_last chatty _ _ _ _ h.symm
  · next hd =>
    rw [if_neg hd] at h
    simp only [Option.some.injEq] at h
    rw [h]

/-- The gaps of the calls of `process_big_diff` made by a loop telescope: the sum of
the gaps of the first `k` calls is, modulo `2^64`, the difference between the timestamp
of the `k`-th call and the `last_spike_time` the loop was entered with. -/
theorem loop_spikes_telescope (chatty threshold : Nat) (stamp_of : Main → Nat → timeval)
    (delta : Main → Nat → Nat) (body : Nat → Main → Option Main) (loopcount : Nat)
    (hst : ∀ count m, (body count m).map (fun x => x.st) =
      if threshold ≤ delta m count then
        process_big_diff chatty (stamp_of m count) m.st (delta m count)
      else some m.st) :
    ∀ (fuel count : Nat) (m : Main) (pre : List (timeval × Nat × Nat))
      (e : timeval × Nat × Nat) (post : List (timeval × Nat × Nat)),
      loop_spikes stamp_of delta threshold body loopcount fuel count m = pre ++ e :: post →
      ((pre ++ [e]).map (fun x => x.2.1)).sum % ULONG_MOD =
        tt_time_diff e.1 m.st.last_spike_time := by
  intro fuel
  induction fuel with
  | zero =>
    intro count m pre e post h
    simp [loop_spikes] at h
  | succ fuel ih =>
    intro count m pre e post h
    rw [loop_spikes] at h
    split at h
    · cases hb : body count m with
      | none =>
        rw [hb] at h
        simp only [List.append_nil] at h
        split at h
        · cases pre with
          | nil =>
            simp only [List.nil_append, List.cons.injEq] at h
            rw [← h.1]
            simp only [List.nil_append, List.map_cons, List.map_nil, List.sum_cons,
              List.sum_nil, Nat.add_zero]
            exact Nat.mod_eq_of_lt (tt_time_diff_lt _ _)
          | cons a as =>
            simp only [List.cons_append, List.cons.injEq] at h
            have := h.2
            simp at this
        · simp at h
      | some m1 =>
        rw [hb] at h
        simp only at h
        have hlast := body_last_spike_time chatty threshold stamp_of delta body hst count m m1 hb
        split at h
        · next hd =>
          rw [if_pos hd] at hlast
          cases pre with
          | nil =>
            simp only [List.nil_append, List.singleton_append, List.cons.injEq] at h
            rw [← h.1]
            simp only [List.nil_append, List.map_cons, List.map_nil, List.sum_cons,
              List.sum_nil, Nat.add_zero]
            exact Nat.mod_eq_of_lt (tt_time_diff_lt _ _)
          | cons a as =>
            simp only [List.cons_append, List.singleton_append, List.cons.injEq] at h
            have h2 := ih _ m1 as e post h.2
            rw [hlast] at h2
            rw [← h.1]
            simp only [List.cons_append, List.map_cons, List.sum_cons]
            exact tt_time_diff_add _ _ _ _ h2
        · next hd =>
          rw [if_neg hd] at hlast
          simp only [List.nil_append] at h
          have h2 := ih _ m1 pre e post h
          rw [hlast] at h2
          exact h2
    · exact absurd h (by simp)

/-- Each call of `process_big_diff` in the trace of a loop has the gap between its
timestamp and the timestamp of the call before it (the `last_spike_time` at the entry
of the loop for the first). -/
theorem loop_spikes_gap (chatty threshold : Nat) (stamp_of : Main → Nat → timeval)
    (delta : Main → Nat → Nat) (body : Nat → Main → Option Main) (loopcount : Nat)
    (hst : ∀ count m, (body count m).map (fun x => x.st) =
      if threshold ≤ delta m count then
        process_big_diff chatty (stamp_of m count) m.st (delta m count)
      else some m.st) :
    ∀ (fuel count : Nat) (m : Main) (pre : List (timeval × Nat × Nat))
      (e : timeval × Nat × Nat) (post : List (timeval × Nat × Nat)),
      loop_spikes stamp_of delta threshold body loopcount fuel count m = pre ++ e :: post →
      e.2.1 = tt_time_diff e.1
        ((pre.map (fun x => x.1)).getLastD m.st.last_spike_time) := by
  intro fuel
  induction fuel with
  | zero =>
    intro count m pre e post h
    simp [loop_spikes] at h
  | succ fuel ih =>
    intro count m pre e post h
    rw [loop_spikes] at h
    split at h
    · cases hb : body count m with
      | none =>
        rw [hb] at h
        simp only [List.append_nil] at h
        split at h
        · cases pre with
          | nil =>
            simp only [List.nil_append, List.cons.injEq] at h
            rw [← h.1]
            rfl
          | cons a as =>
            simp only [List.cons_append, List.cons.injEq] at h
            have := h.2
            simp at this
        · simp at h
      | some m1 =>
        rw [hb] at h
        simp only at h
        have hlast := body_last_spike_time chatty threshold stamp_of delta body hst count m m1 hb
        split at h
        · next hd =>
          rw [if_pos hd] at hlast
          cases pre with
          | nil =>
            simp only [List.nil_append, List.singleton_append, List.cons.injEq] at h
            rw [← h.1]
            rfl
          | cons a as =>
            simp only [List.cons_append, List.singleton_append, List.cons.injEq] at h
            have h2 := ih _ m1 as e post h.2
            rw [hlast] at h2
            rw [h2, ← h.1]
            cases as with
            | nil => rfl
            | cons b bs => simp [List.getLastD]
        · next hd =>
          rw [if_neg hd] at hlast
          simp only [List.nil_append] at h
          have h2 := ih _ m1 pre e post h
          rw [hlast] at h2
          exact h2
    · exact absurd h (by simp)

theorem pass_spikes_eq (wall : Nat → Option timeval) (cycles : Nat → Nat) (method : Nat)
    (power_hog : Bool) (p : Prog) (m : Main)
    (hm : sampling_entry wall cycles method p = some m) :
    pass_spikes wall cycles method power_hog p =
      loop_spikes (sampling_stamp_of wall method) (sampling_delta wall cycles method)
        p.threshold (sampling_body wall cycles method power_hog p.chatty p.threshold)
        p.loopcount p.loopcount 1 m := by
  simp only [pass_spikes, hm]

theorem pass_deltas_eq (wall : Nat → Option timeval) (cycles : Nat → Nat) (method : Nat)
    (power_hog : Bool) (p : Prog) (m : Main)
    (hm : sampling_entry wall cycles method p = some m) :
    pass_deltas wall cycles method power_hog p =
      loop_deltas (sampling_delta wall cycles method)
        (sampling_body wall cycles method power_hog p.chatty p.threshold)
        p.loopcount p.loopcount 1 m := by
  simp only [pass_deltas, hm]

/-- C29 (the gaps telescope within a pass). A pass of either method, entered with the
cursor inside the buffer and `loopcount` below `ULONG_MAX`, returns; each call of
`process_big_diff` it makes has the gap between its timestamp and the timestamp of the
call before (for the first, the timestamp `t0` read at the start of the pass); and for
every `k >= 1` the sum, modulo `2^64`, of the gaps of the first `k` calls is
`tt_time_diff` of the timestamp of the `k`-th call and `t0`, that is the one
microsecond count minus the other as `unsigned long`, the plain difference when the
`k`-th timestamp is not before `t0`. -/
theorem gaps_telescope_within_pass (wall : Nat → Option timeval) (cycles : Nat → Nat)
    (method : Nat) (power_hog : Bool) (p : Prog)
    (hi : p.vars.st.spike_ndx < MAX_SPIKES) (hl : p.loopcount < ULONG_MAX) :
    ∃ p1, pass wall cycles method power_hog p = some p1 ∧
      ∀ (pre : List (timeval × Nat × Nat)) (e : timeval × Nat × Nat)
        (post : List (timeval × Nat × Nat)),
        pass_spikes wall cycles method power_hog p = pre ++ e :: post →
        e.2.1 = tt_time_diff e.1 ((pre.map (fun x => x.1)).getLastD
          (tt_gettime wall p.vars.wall_ndx p.t0_stamp)) ∧
        ((pre ++ [e]).map (fun x => x.2.1)).sum % ULONG_MOD =
          tt_time_diff e.1 (tt_gettime wall p.vars.wall_ndx p.t0_stamp) ∧
        (usec_of (tt_gettime wall p.vars.wall_ndx p.t0_stamp) ≤ usec_of e.1 →
          ((pre ++ [e]).map (fun x => x.2.1)).sum % ULONG_MOD =
            usec_of e.1 - usec_of (tt_gettime wall p.vars.wall_ndx p.t0_stamp)) := by
  obtain ⟨m, m1, hm, _, _, hp⟩ := pass_returns wall cycles method power_hog p hi hl
  obtain ⟨m', hm', hst, _⟩ := sampling_entry_spec wall cycles method p
  rw [hm] at hm'
  simp only [Option.some.injEq] at hm'
  subst hm'
  have hlast : m.st.last_spike_time = tt_gettime wall p.vars.wall_ndx p.t0_stamp := by
    rw [hst]
    rfl
  refine ⟨_, hp, fun pre e post h => ?_⟩
  rw [pass_spikes_eq wall cycles method power_hog p m hm] at h
  have h1 := loop_spikes_gap p.chatty p.threshold (sampling_stamp_of wall method)
    (sampling_delta wall cycles method)
    (sampling_body wall cycles method power_hog p.chatty p.threshold) p.loopcount
    (sampling_body_st wall cycles method power_hog p.chatty p.threshold)
    p.loopcount 1 m pre e post h
  have h2 := loop_spikes_telescope p.chatty p.threshold (sampling_stamp_of wall method)
    (sampling_delta wall cycles method)
    (sampling_body wall cycles method power_hog p.chatty p.threshold) p.loopcount
    (sampling_body_st wall cycles method power_hog p.chatty p.threshold)
    p.loopcount 1 m pre e post h
  rw [hlast] at h1 h2
  exact ⟨h1, h2, fun hle => by rw [h2, tt_time_diff_of_le _ _ hle]⟩

/-- An instance of C29: a pass started at 1000 us with spikes sampled at 1050 us and
1100 us; the gaps are 50 and 50, and their sum is 1100 - 1000. -/
theorem gaps_telescope_within_pass_witness :
    (prog_init 4 35 1).vars.st.spike_ndx < MAX_SPIKES ∧ (prog_init 4 35 1).loopcount < ULONG_MAX ∧
    pass_spikes (wall_of [1000, 1050, 1053, 1060, 1100, 1101, 1102]) (cycles_of [])
      TIME_METHOD false (prog_init 4 35 1) =
      [(stamp 1050, 50, 50), (stamp 1100, 50, 40)] ∧
    (50 + 50) % ULONG_MOD = tt_time_diff (stamp 1100) (stamp 1000) := by
  have htrace : pass_spikes (wall_of [1000, 1050, 1053, 1060, 1100, 1101, 1102])
      (cycles_of []) TIME_METHOD false (prog_init 4 35 1) =
      [(stamp 1050, 50, 50)] ++ (stamp 1100, 50, 40) :: [] := by decide
  obtain ⟨_, _, h⟩ := gaps_telescope_within_pass
    (wall_of [1000, 1050, 1053, 1060, 1100, 1101, 1102]) (cycles_of []) TIME_METHOD false
    (prog_init 4 35 1) (by decide) (by decide)
  have h2 := (h [(stamp 1050, 50, 50)] (stamp 1100, 50, 40) [] htrace).2.1
  exact ⟨by decide, by decide, htrace, h2⟩

/-! ## C28: the gap dominates the delta under the time method -/

/-- Every call of `process_big_diff` in the trace of a loop has a property that each
iteration establishes for its own call, given an invariant of the loop. -/
theorem loop_spikes_forall (stamp_of : Main → Nat → timeval) (delta : Main → Nat → Nat)
    (threshold : Nat) (body : Nat → Main → Option Main) (loopcount : Nat)
    (I : Nat → Main → Prop) (P : timeval × Nat × Nat → Prop) (hl : loopcount < ULONG_MAX)
    (hbody : ∀ count m, 1 ≤ count → count ≤ loopcount → I count m →
      (threshold ≤ delta m count →
        P (stamp_of m count, tt_time_diff (stamp_of m count) m.st.last_spike_time,
          delta m count)) ∧
      ∀ m1, body count m = some m1 → I (count + 1) m1) :
    ∀ (fuel count : Nat) (m : Main), 1 ≤ count → I count m →
      ∀ e ∈ loop_spikes stamp_of delta threshold body loopcount fuel count m, P e := by
  have hM : loopcount + 1 < ULONG_MOD := by
    unfold ULONG_MAX at hl
    unfold ULONG_MOD
    omega
  intro fuel
  induction fuel with
  | zero =>
    intro count m _ _ e he
    simp [loop_spikes] at he
  | succ fuel ih =>
    intro count m h1 hI e he
    rw [loop_spikes] at he
    split at he
    · next hc =>
      obtain ⟨hP, hnext⟩ := hbody count m h1 hc hI
      rw [List.mem_append] at he
      rcases he with he | he
      · split at he
        · next hd =>
          rw [List.mem_singleton] at he
          rw [he]
          exact hP hd
        · simp at he
      · cases hb : body count m with
        | none => rw [hb] at he; simp at he
        | some m1 =>
          rw [hb] at he
          simp only at he
          rw [Nat.mod_eq_of_lt (by omega)] at he
          exact ih (count + 1) m1 (by omega) (hnext m1 hb) e he
    · simp at he

/-- One iteration of the time loop on a wall clock that never fails and never steps
back: it returns, the baseline of the next iteration is again at or after
`last_spike_time`, and when the delta reaches the threshold the gap is at least the
delta. -/
theorem time_iteration_monotone (w : Nat → timeval)
    (hmono : ∀ i j, i ≤ j → usec_of (w i) ≤ usec_of (w j))
    (chatty threshold count : Nat) (m : Main) (hc : count + 1 < ULONG_MOD)
    (hi : m.st.spike_ndx < MAX_SPIKES) (hI : baseline_after_last w count m) :
    time_delta (fun n => some (w n)) m count ≤
      tt_time_diff (time_stamp_of (fun n => some (w n)) m count) m.st.last_spike_time ∧
    ∃ m1, time_iteration (fun n => some (w n)) chatty threshold count m = some m1 ∧
      m1.st.spike_ndx < MAX_SPIKES ∧ baseline_after_last w (count + 1) m1 := by
  obtain ⟨hle, k, hk, hbase⟩ := hI
  have hs : ∀ old, tt_gettime (fun n => some (w n)) m.wall_ndx old = w m.wall_ndx :=
    fun _ => rfl
  have hbs : usec_of (get2 m.t_stamps (dec_ulong count)) ≤ usec_of (w m.wall_ndx) := by
    rw [hbase]
    exact hmono k m.wall_ndx (Nat.le_of_lt hk)
  have hd : time_delta (fun n => some (w n)) m count =
      usec_of (w m.wall_ndx) - usec_of (get2 m.t_stamps (dec_ulong count)) := by
    unfold time_delta
    rw [get2_set2_same, get2_set2_dec, hs]
    exact tt_time_diff_of_le _ _ hbs
  have hg : tt_time_diff (time_stamp_of (fun n => some (w n)) m count)
      m.st.last_spike_time = usec_of (w m.wall_ndx) - usec_of m.st.last_spike_time := by
    unfold time_stamp_of
    rw [hs]
    exact tt_time_diff_of_le _ _ (le_trans hle hbs)
  have hdec : dec_ulong (count + 1) = count := by
    unfold dec_ulong
    have e1 : count + 1 + (ULONG_MOD - 1) = count + ULONG_MOD := by omega
    rw [e1, Nat.add_mod_right, Nat.mod_eq_of_lt (by omega)]
  refine ⟨by rw [hd, hg]; omega, ?_⟩
  by_cases hthr : threshold ≤ time_delta (fun n => some (w n)) m count
  · obtain ⟨st1, hp, hc1, _, hlast, _⟩ := process_big_diff_spec chatty
      (tt_gettime (fun n => some (w n)) m.wall_ndx (get2 m.t_stamps count)) m.st
      (time_delta (fun n => some (w n)) m count) hi
    refine ⟨_, time_iteration_spike (fun n => some (w n)) chatty threshold count m st1 hthr hp,
      hc1, ?_, m.wall_ndx + 1, Nat.lt_succ_self _, ?_⟩
    · show usec_of st1.last_spike_time ≤ usec_of (get2 (set2 _ count _) (dec_ulong (count + 1)))
      rw [hdec, get2_set2_same, hlast, hs]
      exact hmono _ _ (Nat.le_succ _)
    · show get2 (set2 _ count _) (dec_ulong (count + 1)) = _
      rw [hdec, get2_set2_same]
      rfl
  · refine ⟨_, time_iteration_quiet (fun n => some (w n)) chatty threshold count m
      (Nat.not_le.mp hthr), hi, ?_, m.wall_ndx, Nat.lt_succ_self _, ?_⟩
    · show usec_of m.st.last_spike_time ≤
        usec_of (get2 (set2 _ count _) (dec_ulong (count + 1)))
      rw [hdec, get2_set2_same, hs]
      exact le_trans hle hbs
    · show get2 (set2 _ count _) (dec_ulong (count + 1)) = _
      rw [hdec, get2_set2_same]
      rfl

/-- C28 (the gap dominates the magnitude under the time method). On a wall clock that
never fails and whose samples are non-decreasing, a pass of the time method entered
with the cursor inside the buffer returns; the baseline timestamp is at or after
`last_spike_time` when the sampling loop is entered and every iteration keeps it so;
hence every call of `process_big_diff` of the pass has a gap at least equal to its
delta, and with a threshold of at least 1 a gap of at least 1: the record is not the
pair `(0, 0)`, and when the gap fits in 32 bits the one cell written is not the escape
marker. -/
theorem gap_dominates_delta (w : Nat → timeval)
    (hmono : ∀ i j, i ≤ j → usec_of (w i) ≤ usec_of (w j))
    (cycles : Nat → Nat) (power_hog : Bool) (p : Prog)
    (hi : p.vars.st.spike_ndx < MAX_SPIKES) (hl : p.loopcount < ULONG_MAX)
    (ht : 1 ≤ p.threshold) :
    ∃ m0 p1, sampling_entry (fun n => some (w n)) cycles TIME_METHOD p = some m0 ∧
      baseline_after_last w 1 m0 ∧
      pass (fun n => some (w n)) cycles TIME_METHOD power_hog p = some p1 ∧
      (∀ count m, 1 ≤ count → count ≤ p.loopcount → m.st.spike_ndx < MAX_SPIKES →
        baseline_after_last w count m →
        ∃ m1, time_iteration (fun n => some (w n)) p.chatty p.threshold count m = some m1 ∧
          m1.st.spike_ndx < MAX_SPIKES ∧ baseline_after_last w (count + 1) m1) ∧
      ∀ e ∈ pass_spikes (fun n => some (w n)) cycles TIME_METHOD power_hog p,
        e.2.2 ≤ e.2.1 ∧ 1 ≤ e.2.1 ∧ decodable (e.2.1, to_uint e.2.2) ∧
        (e.2.1 < UINT_MOD →
          encode e.2.1 (to_uint e.2.2) = [{ time := e.2.1, spike := to_uint e.2.2 }] ∧
          as_ulong { time := e.2.1, spike := to_uint e.2.2 } ≠ 0) := by
  have hM : ULONG_MOD = ULONG_MAX + 1 := by decide
  obtain ⟨m0, m1, hm0, _, _, hp⟩ :=
    pass_returns (fun n => some (w n)) cycles TIME_METHOD power_hog p hi hl
  have hm0' : m0 = { pass_entry (fun n => some (w n)) p with
      t_stamps := set2 (pass_entry (fun n => some (w n)) p).t_stamps 0
        (tt_gettime (fun n => some (w n)) p.vars.wall_ndx p.t0_stamp) } := by
    have := hm0
    simp only [sampling_entry, if_true, Option.some.injEq] at this
    exact this.symm
  have hentry : baseline_after_last w 1 m0 := by
    rw [hm0']
    refine ⟨?_, p.vars.wall_ndx, Nat.lt_succ_self _, ?_⟩
    · show usec_of (w p.vars.wall_ndx) ≤ usec_of (get2 (set2 _ 0 _) (dec_ulong 1))
      have e : dec_ulong 1 = 0 := by decide
      rw [e, get2_set2_same]
      exact le_refl _
    · show get2 (set2 _ 0 _) (dec_ulong 1) = _
      have e : dec_ulong 1 = 0 := by decide
      rw [e, get2_set2_same]
      rfl
  have hcur0 : m0.st.spike_ndx < MAX_SPIKES := by
    rw [hm0']
    exact hi
  have hstep : ∀ count m, 1 ≤ count → count ≤ p.loopcount → m.st.spike_ndx < MAX_SPIKES →
      baseline_after_last w count m →
      ∃ m1, time_iteration (fun n => some (w n)) p.chatty p.threshold count m = some m1 ∧
        m1.st.spike_ndx < MAX_SPIKES ∧ baseline_after_last w (count + 1) m1 :=
    fun count m _ hc hcur hI =>
      (time_iteration_monotone w hmono p.chatty p.threshold count m (by omega) hcur hI).2
  refine ⟨m0, _, hm0, hentry, hp, hstep, ?_⟩
  have eb : sampling_body (fun n => some (w n)) cycles TIME_METHOD power_hog p.chatty
      p.threshold = time_iteration (fun n => some (w n)) p.chatty p.threshold := by
    simp [sampling_body]
  have ed : sampling_delta (fun n => some (w n)) cycles TIME_METHOD =
      time_delta (fun n => some (w n)) := by
    simp [sampling_delta]
  have es : sampling_stamp_of (fun n => some (w n)) TIME_METHOD =
      time_stamp_of (fun n => some (w n)) := by
    simp [sampling_stamp_of]
  rw [pass_spikes_eq _ cycles TIME_METHOD power_hog p m0 hm0, eb, ed, es]
  have hall := loop_spikes_forall (time_stamp_of (fun n => some (w n)))
    (time_delta (fun n => some (w n))) p.threshold
    (time_iteration (fun n => some (w n)) p.chatty p.threshold) p.loopcount
    (fun count m => m.st.spike_ndx < MAX_SPIKES ∧ baseline_after_last w count m)
    (fun e => e.2.2 ≤ e.2.1 ∧ p.threshold ≤ e.2.2 ∧ e.2.1 < ULONG_MOD) hl
    (fun count m _ hc hI => by
      obtain ⟨hle, m1, e1, c1, b1⟩ := time_iteration_monotone w hmono p.chatty p.threshold
        count m (by omega) hI.1 hI.2
      refine ⟨fun hd => ⟨hle, hd, tt_time_diff_lt _ _⟩, fun m2 e2 => ?_⟩
      rw [e1] at e2
      simp only [Option.some.injEq] at e2
      subst e2
      exact ⟨c1, b1⟩)
    p.loopcount 1 m0 (le_refl _) ⟨hcur0, hentry⟩
  intro e he
  obtain ⟨h1, h2, h3⟩ := hall e he
  have hpos : 1 ≤ e.2.1 := by omega
  refine ⟨h1, hpos, ⟨h3, fun hz => by omega⟩, fun hfit => ⟨by simp [encode, hfit], ?_⟩⟩
  rw [Ne, as_ulong_eq_zero_iff]
  intro hz
  have := hz.1
  simp only at this
  omega

/-- An instance of C28: a clock that advances 50 us per read up to its fifth read, with
threshold 35: every call of `process_big_diff` of the pass has its gap at least equal
to its delta. -/
theorem gap_dominates_delta_witness :
    (∀ i j : Nat, i ≤ j →
      usec_of ((fun n => stamp (1000 + 50 * min n 5)) i) ≤
        usec_of ((fun n => stamp (1000 + 50 * min n 5)) j)) ∧
    (prog_init 4 35 1).vars.st.spike_ndx < MAX_SPIKES ∧
    (prog_init 4 35 1).loopcount < ULONG_MAX ∧ 1 ≤ (prog_init 4 35 1).threshold ∧
    ∃ p1, pass (fun n => some ((fun n => stamp (1000 + 50 * min n 5)) n)) (cycles_of [])
        TIME_METHOD false (prog_init 4 35 1) = some p1 ∧
      ∀ e ∈ pass_spikes (fun n => some ((fun n => stamp (1000 + 50 * min n 5)) n))
          (cycles_of []) TIME_METHOD false (prog_init 4 35 1), e.2.2 ≤ e.2.1 := by
  have hmono : ∀ i j : Nat, i ≤ j →
      usec_of ((fun n => stamp (1000 + 50 * min n 5)) i) ≤
        usec_of ((fun n => stamp (1000 + 50 * min n 5)) j) := by
    intro i j hij
    have hb : ∀ n : Nat, 1000 + 50 * min n 5 < ULONG_MOD := by
      intro n
      unfold ULONG_MOD
      omega
    show usec_of (stamp (1000 + 50 * min i 5)) ≤ usec_of (stamp (1000 + 50 * min j 5))
    rw [usec_of_stamp (hb i), usec_of_stamp (hb j)]
    omega
  obtain ⟨_, p1, _, _, hp, _, hall⟩ := gap_dominates_delta
    (fun n => stamp (1000 + 50 * min n 5)) hmono (cycles_of []) false (prog_init 4 35 1)
    (by decide) (by decide) (by decide)
  exact ⟨hmono, by decide, by decide, by decide, p1, hp, fun e he => (hall e he).1⟩

/-! ## The value of `min_spike` at the end of the run -/

/-- An iteration of the sampling loop of a pass lowers `min_spike` to its delta when
the delta is below the threshold and leaves it alone otherwise. -/
theorem sampling_body_min_spike (wall : Nat → Option timeval) (cycles : Nat → Nat)
    (method : Nat) (power_hog : Bool) (chatty threshold count : Nat) (m m1 : Main)
    (h : sampling_body wall cycles method power_hog chatty threshold count m = some m1) :
    m1.min_spike = if sampling_delta wall cycles method m count < threshold
      then min m.min_spike (sampling_delta wall cycles method m count) else m.min_spike := by
  unfold sampling_body at h
  unfold sampling_delta
  by_cases hm : method = TIME_METHOD
  · simp only [hm, if_true] at h ⊢
    exact time_iteration_min_spike wall chatty threshold count m m1 h
  · simp only [hm, if_false] at h ⊢
    refine cycle_iteration_min_spike wall cycles chatty threshold power_hog count m m1 ?_
    cases power_hog with
    | true => simpa using h
    | false => simpa using h

/-- The value of `min_spike` after a pass: the least of its value at the entry of the
sampling loop and the deltas of the sampling loop that were below the threshold. -/
theorem pass_min_spike (wall : Nat → Option timeval) (cycles : Nat → Nat) (method : Nat)
    (power_hog : Bool) (q : Prog) (hi : q.vars.st.spike_ndx < MAX_SPIKES)
    (hl : q.loopcount < ULONG_MAX) :
    ∃ q1, pass wall cycles method power_hog q = some q1 ∧
      q1.vars.st.spike_ndx < MAX_SPIKES ∧
      q1.vars.min_spike =
        ((pass_deltas wall cycles method power_hog q).filter
          (fun d => decide (d < q.threshold))).foldl min
          (if method = TIME_METHOD then q.vars.min_spike
            else (init_deltas cycles (pass_entry wall q)).foldl min q.vars.min_spike) := by
  obtain ⟨m, m1, hm, h1, hc, hp⟩ := pass_returns wall cycles method power_hog q hi hl
  obtain ⟨m', hm', _, _, hmin⟩ := sampling_entry_spec wall cycles method q
  rw [hm] at hm'
  simp only [Option.some.injEq] at hm'
  subst hm'
  have h2 := loop_min_spike (sampling_delta wall cycles method)
    (sampling_body wall cycles method power_hog q.chatty q.threshold) q.loopcount q.threshold
    (sampling_body_min_spike wall cycles method power_hog q.chatty q.threshold)
    q.loopcount 1 m m1 h1
  refine ⟨_, hp, hc, ?_⟩
  show m1.min_spike = _
  rw [h2, hmin, pass_deltas_eq wall cycles method power_hog q m hm]

/-- The sampling part of `main`, entered with the cursor inside the buffer and the
configured `loopcount` below `ULONG_MAX`, returns: it is pass 1, pass 2 and the final
drain, which leaves `min_spike` as pass 2 left it. -/
theorem sampling_spec (wall : Nat → Option timeval) (cycles : Nat → Nat) (method : Nat)
    (power_hog : Bool) (p : Prog) (hi : p.vars.st.spike_ndx < MAX_SPIKES)
    (hl : p.loopcount < ULONG_MAX) :
    ∃ p1 p2 pf, pass wall cycles method power_hog (pass1_start p) = some p1 ∧
      pass wall cycles method power_hog (pass2_start p1) = some p2 ∧
      sampling wall cycles method power_hog p = some pf ∧
      pf.vars.min_spike = p2.vars.min_spike ∧
      (pass2_start p1).threshold = p.threshold ∧
      (pass2_start p1).vars.min_spike = p1.vars.min_spike := by
  obtain ⟨p1, h1, _, hsl, hst, _⟩ := pass1_spec wall cycles method power_hog p hi
  have a1 : (pass2_start p1).loopcount = p.loopcount := by rw [pass2_start_eq]; exact hsl
  have a2 : (pass2_start p1).threshold = p.threshold := by rw [pass2_start_eq]; exact hst
  obtain ⟨_, m2, _, _, hc2, h2⟩ := pass_returns wall cycles method power_hog (pass2_start p1)
    (by rw [pass2_start_eq]; show 0 < MAX_SPIKES; decide) (by rw [a1]; exact hl)
  have hloop := warm_up_loop_eq wall cycles method power_hog p p1 0 h1
  rw [h2] at hloop
  simp only [Option.map_some', Nat.zero_add] at hloop
  have hmin2 : (pass2_start p1).vars.min_spike = p1.vars.min_spike := by rw [pass2_start_eq]
  have hfin : ∃ pf, sampling wall cycles method power_hog p = some pf ∧
      pf.vars.min_spike = m2.min_spike := by
    unfold sampling
    rw [hloop]
    simp only
    split
    · obtain ⟨recs, hpr⟩ := print_big_diff_effect (pass2_start p1).chatty m2.st
        (by omega) (by omega)
      rw [hpr]
      exact ⟨_, rfl, rfl⟩
    · exact ⟨_, rfl, rfl⟩
  obtain ⟨pf, hs, hmin⟩ := hfin
  exact ⟨p1, _, pf, h1, h2, hs, hmin, a2, hmin2⟩

theorem foldl_min_eq_iff (l : List Nat) (a top : Nat) (ha : a ≤ top)
    (hl : ∀ d ∈ l, d ≤ top) :
    l.foldl min a = top ↔ a = top ∧ ∀ d ∈ l, d = top := by
  constructor
  · intro h
    have h1 := foldl_min_le_init l a
    refine ⟨by omega, fun d hd => ?_⟩
    have h2 := foldl_min_le_mem l a d hd
    have h3 := hl d hd
    omega
  · rintro ⟨h1, h2⟩
    rcases foldl_min_mem l a with h | h
    · rw [h, h1]
    · exact h2 _ h

theorem filter_foldl_min_eq_iff (l : List Nat) (a threshold : Nat)
    (ht : threshold ≤ ULONG_MAX) (ha : a ≤ ULONG_MAX) :
    (l.filter (fun d => decide (d < threshold))).foldl min a = ULONG_MAX ↔
      a = ULONG_MAX ∧ ∀ d ∈ l, threshold ≤ d := by
  rw [foldl_min_eq_iff _ a ULONG_MAX ha (fun d hd => by
    have := (List.mem_filter.mp hd).2
    simp only [decide_eq_true_eq] at this
    omega)]
  constructor
  · rintro ⟨h1, h2⟩
    refine ⟨h1, fun d hd => ?_⟩
    by_contra hlt
    have hm : d ∈ l.filter (fun d => decide (d < threshold)) :=
      List.mem_filter.mpr ⟨hd, by simpa using hlt⟩
    have := h2 d hm
    omega
  · rintro ⟨h1, h2⟩
    refine ⟨h1, fun d hd => ?_⟩
    have hf := List.mem_filter.mp hd
    have h3 := h2 d hf.1
    have h4 := hf.2
    simp only [decide_eq_true_eq] at h4
    omega

theorem init_deltas_le (cycles : Nat → Nat) (m : Main) :
    ∀ d ∈ init_deltas cycles m, d ≤ ULONG_MAX := by
  intro d hd
  have := loop_deltas_lt (cycle_delta cycles) (min_spike_iteration cycles) 1024
    ULONG_MOD (cycle_delta_lt cycles) 1024 1 (read_cycle_stamp0 cycles m) d hd
  have hM : ULONG_MOD = ULONG_MAX + 1 := by decide
  omega

/-- Every delta in the trace of a loop has a property that each iteration establishes
for its own delta, given an invariant of the loop. -/
theorem loop_deltas_forall (delta : Main → Nat → Nat) (body : Nat → Main → Option Main)
    (loopcount : Nat) (I : Nat → Main → Prop) (P : Nat → Prop) (hl : loopcount < ULONG_MAX)
    (hbody : ∀ count m, 1 ≤ count → count ≤ loopcount → I count m →
      P (delta m count) ∧ ∀ m1, body count m = some m1 → I (count + 1) m1) :
    ∀ (fuel count : Nat) (m : Main), 1 ≤ count → I count m →
      ∀ d ∈ loop_deltas delta body loopcount fuel count m, P d := by
  have hM : loopcount + 1 < ULONG_MOD := by
    unfold ULONG_MAX at hl
    unfold ULONG_MOD
    omega
  intro fuel
  induction fuel with
  | zero =>
    intro count m _ _ d hd
    simp [loop_deltas] at hd
  | succ fuel ih =>
    intro count m h1 hI d hd
    rw [loop_deltas] at hd
    split at hd
    · next hc =>
      obtain ⟨hP, hnext⟩ := hbody count m h1 hc hI
      rw [List.mem_cons] at hd
      rcases hd with hd | hd
      · rw [hd]
        exact hP
      · cases hb : body count m with
        | none => rw [hb] at hd; simp at hd
        | some m1 =>
          rw [hb] at hd
          simp only at hd
          rw [Nat.mod_eq_of_lt (by omega)] at hd
          exact ih (count + 1) m1 (by omega) (hnext m1 hb) d hd
    · simp at hd

/-- After an iteration of either cycle loop the baseline of the next iteration is the
last value read from the cycle counter. -/
theorem cycle_body_baseline (wall : Nat → Option timeval) (cycles : Nat → Nat)
    (power_hog : Bool) (chatty threshold count : Nat) (m m1 : Main)
    (hc : count + 1 < ULONG_MOD)
    (h : (if power_hog then power_hog_iteration wall cycles chatty threshold count m
      else cycle_iteration wall cycles chatty threshold count m) = some m1) :
    get2 m1.cycle_stamp (dec_ulong (count + 1)) = get_cycles cycles (m1.cycle_ndx - 1) ∧
    1 ≤ m1.cycle_ndx := by
  have hdec : dec_ulong (count + 1) = count := by
    unfold dec_ulong
    have e1 : count + 1 + (ULONG_MOD - 1) = count + ULONG_MOD := by omega
    rw [e1, Nat.add_mod_right, Nat.mod_eq_of_lt (by omega)]
  rw [hdec]
  by_cases hd : threshold ≤ cycle_delta cycles m count
  · cases hp : process_big_diff chatty (tt_gettime wall m.wall_ndx m.spike_time)
        m.st (cycle_delta cycles m count) with
    | none =>
      unfold power_hog_iteration cycle_iteration at h
      unfold cycle_delta at hd hp
      simp only [get2_set2_same] at hd hp h
      simp only [ge_iff_le, hd, if_true, hp] at h
      cases power_hog <;> simp at h
    | some st1 =>
      rw [cycle_iteration_spike wall cycles chatty threshold count m st1 hd hp,
        power_hog_iteration_spike wall cycles chatty threshold count m st1 hd hp] at h
      cases power_hog <;> simp only [Bool.false_eq_true, if_true, if_false,
        Option.some.injEq] at h <;> subst h <;>
        exact ⟨by rw [get2_set2_same]; rfl, Nat.le_add_left 1 _⟩
  · obtain ⟨e1, e2⟩ :=
      cycle_iteration_quiet wall cycles chatty threshold count m (Nat.not_le.mp hd)
    rw [e1, e2] at h
    cases power_hog <;> simp only [Bool.false_eq_true, if_true, if_false,
      Option.some.injEq] at h <;> subst h <;>
      exact ⟨by rw [get2_set2_same]; rfl, Nat.le_add_left 1 _⟩

/-- On a cycle counter that advances by 100 between reads every delta of the sampling
loop of a cycle-method pass is 100. -/
theorem constant_rate_pass_deltas (wall : Nat → Option timeval) (method : Nat)
    (power_hog : Bool) (q : Prog) (hm : method ≠ TIME_METHOD)
    (hl : q.loopcount < ULONG_MAX) :
    ∀ d ∈ pass_deltas wall (fun n => 100 * n) method power_hog q, d = 100 := by
  have hM : ULONG_MOD = ULONG_MAX + 1 := by decide
  cases he : sampling_entry wall (fun n => 100 * n) method q with
  | none =>
    intro d hd
    simp [pass_deltas, he] at hd
  | some m2 =>
    rw [pass_deltas_eq wall _ method power_hog q m2 he]
    have he2 := he
    simp only [sampling_entry, hm, if_false, Option.map_eq_some'] at he2
    obtain ⟨m0, _, hm2⟩ := he2
    have eb : sampling_body wall (fun n => 100 * n) method power_hog q.chatty q.threshold =
        fun count m =>
          if power_hog then power_hog_iteration wall (fun n => 100 * n) q.chatty q.threshold
            count m
          else cycle_iteration wall (fun n => 100 * n) q.chatty q.threshold count m := by
      funext count m
      simp only [sampling_body, hm, if_false]
      cases power_hog <;> rfl
    have ed : sampling_delta wall (fun n => 100 * n) method =
        cycle_delta (fun n => 100 * n) := by
      simp [sampling_delta, hm]
    rw [eb, ed]
    exact loop_deltas_forall (cycle_delta (fun n => 100 * n)) _ q.loopcount
      (fun count m => get2 m.cycle_stamp (dec_ulong count) =
          get_cycles (fun n => 100 * n) (m.cycle_ndx - 1) ∧ 1 ≤ m.cycle_ndx)
      (fun d => d = 100) hl
      (fun count m _ hc hI => by
        refine ⟨?_, fun m1 hb => cycle_body_baseline wall (fun n => 100 * n) power_hog
          q.chatty q.threshold count m m1 (by omega) hb⟩
        obtain ⟨hbase, hpos⟩ := hI
        unfold cycle_delta
        rw [get2_set2_same, get2_set2_dec, hbase]
        unfold get_cycles
        simp only
        unfold ULONG_MOD
        omega)
      q.loopcount 1 m2 (le_refl _)
      (by
        rw [← hm2]
        have e : dec_ulong 1 = 0 := by decide
        show get2 (read_cycle_stamp0 (fun n => 100 * n) m0).cycle_stamp (dec_ulong 1) =
            get_cycles (fun n => 100 * n)
              ((read_cycle_stamp0 (fun n => 100 * n) m0).cycle_ndx - 1) ∧
          1 ≤ (read_cycle_stamp0 (fun n => 100 * n) m0).cycle_ndx
        rw [e]
        exact ⟨by simp only [read_cycle_stamp0]; rw [get2_set2_same]; rfl,
          Nat.le_add_left 1 _⟩)

/-- The number of deltas a pass computes is its `loopcount`. -/
theorem pass_deltas_length (wall : Nat → Option timeval) (cycles : Nat → Nat) (method : Nat)
    (power_hog : Bool) (q : Prog) (hi : q.vars.st.spike_ndx < MAX_SPIKES)
    (hl : q.loopcount < ULONG_MAX) :
    (pass_deltas wall cycles method power_hog q).length = q.loopcount := by
  obtain ⟨m, m1, hm, h1, _, _⟩ := pass_returns wall cycles method power_hog q hi hl
  rw [pass_deltas_eq wall cycles method power_hog q m hm,
    loop_deltas_length _ _ q.loopcount hl q.loopcount 1 m m1 (by omega) h1]
  omega

/-! ## C24: `min_spike` as a sentinel -/

/-- C24, as stated, fails under the cycle method: with a counter that advances by 100
between reads, threshold 100 and loopcount 5, every iteration of the sampling loop of
both passes is a spike (every delta of pass 1 reaches the threshold 0, every delta of
pass 2 reaches 100, and pass 2 runs 5 iterations), yet `min_spike` is at most 100 at the
end of the run, not `ULONG_MAX`: the 1024-iteration loop that gets an initial value has
lowered it. -/
theorem min_spike_lowered_with_every_iteration_a_spike :
    (prog_init 5 100 1).vars.min_spike = ULONG_MAX ∧ 100 < ULONG_MAX ∧
    ∃ p1 pf,
      pass (fun n => some (stamp (1000 + n))) (fun n => 100 * n) CYCLES_METHOD false
        (pass1_start (prog_init 5 100 1)) = some p1 ∧
      sampling (fun n => some (stamp (1000 + n))) (fun n => 100 * n) CYCLES_METHOD false
        (prog_init 5 100 1) = some pf ∧
      (∀ d ∈ pass_deltas (fun n => some (stamp (1000 + n))) (fun n => 100 * n) CYCLES_METHOD
        false (pass1_start (prog_init 5 100 1)), (pass1_start (prog_init 5 100 1)).threshold ≤ d) ∧
      (pass2_start p1).threshold = 100 ∧
      (∀ d ∈ pass_deltas (fun n => some (stamp (1000 + n))) (fun n => 100 * n) CYCLES_METHOD
        false (pass2_start p1), (pass2_start p1).threshold ≤ d) ∧
      (pass_deltas (fun n => some (stamp (1000 + n))) (fun n => 100 * n) CYCLES_METHOD
        false (pass2_start p1)).length = 5 ∧
      pf.vars.min_spike ≤ 100 := by
  obtain ⟨p1, p2, pf, h1, h2, hs, hmin, hthr, hmin2⟩ := sampling_spec
    (fun n => some (stamp (1000 + n))) (fun n => 100 * n) CYCLES_METHOD false
    (prog_init 5 100 1) (by decide) (by decide)
  obtain ⟨p1', h1', _, hsl, _, _, hmin1⟩ := pass1_spec
    (fun n => some (stamp (1000 + n))) (fun n => 100 * n) CYCLES_METHOD false
    (prog_init 5 100 1) (by decide)
  rw [h1] at h1'
  simp only [Option.some.injEq] at h1'
  subst h1'
  have hloop : (pass2_start p1).loopcount = 5 := by rw [pass2_start_eq]; exact hsl
  obtain ⟨q1, hq, _, hminq⟩ := pass_min_spike
    (fun n => some (stamp (1000 + n))) (fun n => 100 * n) CYCLES_METHOD false (pass2_start p1)
    (by rw [pass2_start_eq]; show 0 < MAX_SPIKES; decide) (by rw [hloop]; decide)
  rw [h2] at hq
  simp only [Option.some.injEq] at hq
  subst hq
  refine ⟨rfl, by decide, p1, pf, h1, hs, ?_, hthr, ?_, ?_, ?_⟩
  · intro d _
    rw [(pass1_start_configuration (prog_init 5 100 1)).2.1]
    exact Nat.zero_le d
  · intro d hd
    rw [hthr, constant_rate_pass_deltas _ CYCLES_METHOD false (pass2_start p1) (by decide)
      (by rw [hloop]; decide) d hd]
    exact le_refl 100
  · rw [pass_deltas_length _ _ _ _ _ (by rw [pass2_start_eq]; show 0 < MAX_SPIKES; decide)
      (by rw [hloop]; decide), hloop]
  · rw [hmin, hminq, if_neg (by decide), hmin2, hmin1, if_neg (by decide)]
    refine le_trans (foldl_min_le_init _ _) (le_trans (foldl_min_le_init _ _) ?_)
    have hd : cycle_delta (fun n => 100 * n) (read_cycle_stamp0 (fun n => 100 * n)
        (pass_entry (fun n => some (stamp (1000 + n))) (pass1_start (prog_init 5 100 1)))) 1 =
        100 := by decide
    have hmem := loop_deltas_head (cycle_delta (fun n => 100 * n))
      (min_spike_iteration (fun n => 100 * n)) 1024 1023 1
      (read_cycle_stamp0 (fun n => 100 * n)
        (pass_entry (fun n => some (stamp (1000 + n))) (pass1_start (prog_init 5 100 1))))
      (by decide)
    rw [hd] at hmem
    exact foldl_min_le_mem _ _ 100 hmem

/-- C24 (amended): the sampling part of `main`, entered with `min_spike = ULONG_MAX`,
the cursor inside the buffer and `loopcount` below `ULONG_MAX`, returns, and every
iteration of pass 1 is a spike. Under the time method `min_spike` still equals
`ULONG_MAX` at the end if and only if every iteration of the sampling loop of pass 2
was a spike. Under the cycle method it equals `ULONG_MAX` if and only if, in addition,
every delta of the 1024-iteration loop that gets an initial value was `ULONG_MAX`, in
pass 1 and in pass 2. -/
theorem min_spike_sentinel (wall : Nat → Option timeval) (cycles : Nat → Nat) (method : Nat)
    (power_hog : Bool) (p : Prog) (hi : p.vars.st.spike_ndx < MAX_SPIKES)
    (hl : p.loopcount < ULONG_MAX) (ht : p.threshold ≤ ULONG_MAX)
    (h0 : p.vars.min_spike = ULONG_MAX) :
    ∃ p1 pf, pass wall cycles method power_hog (pass1_start p) = some p1 ∧
      sampling wall cycles method power_hog p = some pf ∧
      (∀ d ∈ pass_deltas wall cycles method power_hog (pass1_start p),
        (pass1_start p).threshold ≤ d) ∧
      (method = TIME_METHOD →
        (pf.vars.min_spike = ULONG_MAX ↔
          ∀ d ∈ pass_deltas wall cycles method power_hog (pass2_start p1), p.threshold ≤ d)) ∧
      (method ≠ TIME_METHOD →
        (pf.vars.min_spike = ULONG_MAX ↔
          (∀ d ∈ init_deltas cycles (pass_entry wall (pass1_start p)), d = ULONG_MAX) ∧
          (∀ d ∈ init_deltas cycles (pass_entry wall (pass2_start p1)), d = ULONG_MAX) ∧
          ∀ d ∈ pass_deltas wall cycles method power_hog (pass2_start p1),
            p.threshold ≤ d)) := by
  obtain ⟨p1, p2, pf, h1, h2, hs, hmin, hthr, hmin2⟩ :=
    sampling_spec wall cycles method power_hog p hi hl
  obtain ⟨p1', h1', _, hsl, _, _, hmin1⟩ := pass1_spec wall cycles method power_hog p hi
  rw [h1] at h1'
  simp only [Option.some.injEq] at h1'
  subst h1'
  have hloop : (pass2_start p1).loopcount = p.loopcount := by rw [pass2_start_eq]; exact hsl
  obtain ⟨q1, hq, _, hminq⟩ := pass_min_spike wall cycles method power_hog (pass2_start p1)
    (by rw [pass2_start_eq]; show 0 < MAX_SPIKES; decide) (by rw [hloop]; exact hl)
  rw [h2] at hq
  simp only [Option.some.injEq] at hq
  subst hq
  rw [hthr, hmin2] at hminq
  refine ⟨p1, pf, h1, hs, ?_, fun hm => ?_, fun hm => ?_⟩
  · intro d _
    rw [(pass1_start_configuration p).2.1]
    exact Nat.zero_le d
  · rw [if_pos hm] at hminq hmin1
    rw [hmin, hminq, hmin1, h0,
      filter_foldl_min_eq_iff _ ULONG_MAX p.threshold ht (le_refl _)]
    exact ⟨fun h => h.2, fun h => ⟨rfl, h⟩⟩
  · rw [if_neg hm] at hminq hmin1
    have hle1 : p1.vars.min_spike ≤ ULONG_MAX := by
      rw [hmin1, h0]
      exact foldl_min_le_init _ _
    rw [hmin, hminq, filter_foldl_min_eq_iff _ _ p.threshold ht
        (le_trans (foldl_min_le_init _ _) hle1),
      foldl_min_eq_iff _ _ ULONG_MAX hle1 (init_deltas_le cycles _),
      hmin1, h0, foldl_min_eq_iff _ _ ULONG_MAX (le_refl _) (init_deltas_le cycles _)]
    constructor
    · rintro ⟨⟨⟨_, a⟩, b⟩, c⟩
      exact ⟨a, b, c⟩
    · rintro ⟨a, b, c⟩
      exact ⟨⟨⟨rfl, a⟩, b⟩, c⟩

/-- An instance of the amended C24 under the time method: the program started with
`loopcount = 5` and `threshold = 10`. -/
theorem min_spike_sentinel_witness :
    (prog_init 5 10 1).vars.st.spike_ndx < MAX_SPIKES ∧
    (prog_init 5 10 1).loopcount < ULONG_MAX ∧ (prog_init 5 10 1).threshold ≤ ULONG_MAX ∧
    (prog_init 5 10 1).vars.min_spike = ULONG_MAX ∧
    ∃ p1 pf, pass (fun n => some (stamp (1000 + n))) (fun n => 100 * n) TIME_METHOD false
        (pass1_start (prog_init 5 10 1)) = some p1 ∧
      sampling (fun n => some (stamp (1000 + n))) (fun n => 100 * n) TIME_METHOD false
        (prog_init 5 10 1) = some pf ∧
      (pf.vars.min_spike = ULONG_MAX ↔
        ∀ d ∈ pass_deltas (fun n => some (stamp (1000 + n))) (fun n => 100 * n) TIME_METHOD
          false (pass2_start p1), (prog_init 5 10 1).threshold ≤ d) := by
  obtain ⟨p1, pf, h1, h2, _, h3, _⟩ := min_spike_sentinel
    (fun n => some (stamp (1000 + n))) (fun n => 100 * n) TIME_METHOD false (prog_init 5 10 1)
    (by decide) (by decide) (by decide) rfl
  exact ⟨by decide, by decide, by decide, rfl, p1, pf, h1, h2, h3 rfl⟩

/-! ## The program against the bookkeeping of logical records -/

theorem encode_all_append (as bs : List (Nat × Nat)) :
    encode_all (as ++ bs) = encode_all as ++ encode_all bs := by
  induction as with
  | nil => rfl
  | cons a as ih =>
    rw [List.cons_append]
    simp only [encode_all, ih, List.append_assoc]

/-- Cells written at or after the end of a run of cells leave the run in place. -/
theorem holds_write_cells_keep (cs : List spike_data_struct) :
    ∀ (s : Nat → spike_data_struct) (j i : Nat) (new_cells : List spike_data_struct),
      holds s j cs → j + cs.length ≤ i → holds (write_cells s i new_cells) j cs := by
  induction cs with
  | nil => intro s j i new_cells _ _; trivial
  | cons c cs ih =>
    intro s j i new_cells h hle
    simp only [List.length_cons] at hle
    simp only [holds] at h ⊢
    exact ⟨by rw [write_cells_below _ _ _ _ (by omega)]; exact h.1,
      ih s (j + 1) i new_cells h.2 (by omega)⟩

theorem clock_after_append (as bs : List ((Nat × Nat) × Bool)) :
    ∀ c : Nat, clock_after c (as ++ bs) = clock_after (clock_after c as) bs := by
  induction as with
  | nil => intro c; rfl
  | cons a as ih =>
    intro c
    rw [List.cons_append]
    simp only [clock_after, ih]

theorem printed_rows_append (as bs : List ((Nat × Nat) × Bool)) :
    ∀ c : Nat, printed_rows c (as ++ bs) =
      printed_rows c as ++ printed_rows (clock_after c as) bs := by
  induction as with
  | nil => intro c; rfl
  | cons a as ih =>
    intro c
    rw [List.cons_append]
    simp only [printed_rows, clock_after, ih, List.append_assoc]

/-- The clock after a list of drained records is the clock before plus the sum of their
gaps, modulo `2^64`. -/
theorem clock_after_sum (ds : List ((Nat × Nat) × Bool)) :
    ∀ c : Nat, c < ULONG_MOD →
      clock_after c ds = (c + (ds.map (fun d => d.1.1)).sum) % ULONG_MOD := by
  induction ds with
  | nil => intro c hc; simp [clock_after, Nat.mod_eq_of_lt hc]
  | cons d ds ih =>
    intro c _
    rw [clock_after, ih _ (Nat.mod_lt _ ulong_mod_pos), List.map_cons, List.sum_cons,
      Nat.mod_add_mod, Nat.add_assoc]

/-- Decoding a list of records at verbosity `chatty` moves the clock and prints as the
bookkeeping says. -/
theorem emit_all_ledger (chatty : Nat) (recs : List (Nat × Nat)) :
    ∀ st : State,
      (emit_all chatty st recs).cumulative =
        clock_after st.cumulative (recs.map (fun r => (r, decide (0 < chatty)))) ∧
      (emit_all chatty st recs).out =
        st.out ++ printed_rows st.cumulative (recs.map (fun r => (r, decide (0 < chatty)))) := by
  induction recs with
  | nil => intro st; simp [emit_all, clock_after, printed_rows]
  | cons r rs ih =>
    intro st
    obtain ⟨h1, h2⟩ := ih (emit chatty st r.1 r.2)
    simp only [emit_all, List.map_cons, clock_after, printed_rows]
    refine ⟨h1, ?_⟩
    rw [h2]
    by_cases hc : 0 < chatty
    · simp [emit, hc]
    · simp [emit, hc]

/-- A drain of a tracked state decodes the pending records. -/
theorem drain_tracked (c0 : Nat) (out0 : List Row) (l : Ledger) (st : State) (chatty : Nat)
    (h : tracked c0 out0 l st) :
    ∃ st1, print_big_diff chatty st = some st1 ∧
      tracked c0 out0 (ledger_flush l chatty l.pending l.last) st1 := by
  obtain ⟨hh, hn, hb, hv, hl, hc, ho⟩ := h
  obtain ⟨e1, e2⟩ := emit_all_ledger chatty l.pending st
  refine ⟨_, print_big_diff_decodes chatty st l.pending hv hh hn (by omega), ?_⟩
  refine ⟨trivial, rfl, by show 0 < MAX_SPIKES; decide, fun r hr => absurd hr (by simp [ledger_flush]),
    ?_, ?_, ?_⟩
  · show (emit_all chatty st l.pending).last_spike_time = l.last
    rw [emit_all_last_spike_time]
    exact hl
  · show (emit_all chatty st l.pending).cumulative = clock_after c0 (l.drained ++ _)
    rw [e1, clock_after_append, hc]
  · show (emit_all chatty st l.pending).out = out0 ++ printed_rows c0 (l.drained ++ _)
    rw [e2, printed_rows_append, ho, hc, List.append_assoc]

/-- An append to a tracked state of a spike whose record is not stored as the marker
returns, and the state stays tracked. -/
theorem append_tracked (c0 : Nat) (out0 : List Row) (l : Ledger) (st : State)
    (chatty : Nat) (t_stamp : timeval) (diff : Nat) (h : tracked c0 out0 l st)
    (hm : ¬ (tt_time_diff t_stamp l.last = 0 ∧ to_uint diff = 0)) :
    ∃ st1, process_big_diff chatty t_stamp st diff = some st1 ∧
      tracked c0 out0 (ledger_step l (Op.append chatty t_stamp diff)) st1 := by
  obtain ⟨hh, hn, hb, hv, hl, hc, ho⟩ := h
  have hcells : encode_all (l.pending ++ [(tt_time_diff t_stamp l.last, to_uint diff)]) =
      encode_all l.pending ++ encode (tt_time_diff t_stamp l.last) (to_uint diff) := by
    rw [encode_all_append, encode_all_singleton]
  have hv1 : ∀ r ∈ l.pending ++ [(tt_time_diff t_stamp l.last, to_uint diff)],
      decodable r := by
    intro r hr
    rw [List.mem_append, List.mem_singleton] at hr
    rcases hr with hr | hr
    · exact hv r hr
    · rw [hr]
      exact ⟨tt_time_diff_lt _ _, hm⟩
  have hh1 : holds (appended st (tt_time_diff t_stamp l.last) diff).spikes 0
      (encode_all (l.pending ++ [(tt_time_diff t_stamp l.last, to_uint diff)])) := by
    rw [hcells, holds_append]
    refine ⟨holds_write_cells_keep _ _ _ _ _ hh (by omega), ?_⟩
    rw [Nat.zero_add, ← hn]
    exact holds_write_cells _ _ _
  have hn1 : (appended st (tt_time_diff t_stamp l.last) diff).spike_ndx =
      (encode_all (l.pending ++ [(tt_time_diff t_stamp l.last, to_uint diff)])).length := by
    rw [hcells, List.length_append, ← hn]
    rfl
  have hlen := encode_length_le (tt_time_diff t_stamp l.last) (to_uint diff)
  rw [process_big_diff_eq _ _ _ _ hb, hl]
  by_cases hfull : MAX_SPIKES ≤ (appended st (tt_time_diff t_stamp l.last) diff).spike_ndx
  · rw [if_pos hfull]
    have hd := print_big_diff_decodes chatty
      (appended st (tt_time_diff t_stamp l.last) diff) _ hv1 hh1 hn1
      (by rw [hn1, hcells, List.length_append, ← hn]; omega)
    rw [hd]
    obtain ⟨e1, e2⟩ := emit_all_ledger chatty
      (l.pending ++ [(tt_time_diff t_stamp l.last, to_uint diff)])
      (appended st (tt_time_diff t_stamp l.last) diff)
    have hstep : ledger_step l (Op.append chatty t_stamp diff) =
        ledger_flush l chatty (l.pending ++ [(tt_time_diff t_stamp l.last, to_uint diff)])
          t_stamp := by
      rw [ledger_step, if_pos (by rw [← hn1]; exact hfull)]
    rw [hstep]
    refine ⟨_, rfl, trivial, rfl, by show 0 < MAX_SPIKES; decide,
      fun r hr => absurd hr (by simp [ledger_flush]), rfl, ?_, ?_⟩
    · show (emit_all chatty _ _).cumulative = clock_after c0 (l.drained ++ _)
      rw [e1, clock_after_append]
      show clock_after st.cumulative _ = _
      rw [hc]
    · show (emit_all chatty _ _).out = out0 ++ printed_rows c0 (l.drained ++ _)
      rw [e2, printed_rows_append]
      show st.out ++ printed_rows st.cumulative _ = _
      rw [ho, hc, List.append_assoc]
  · rw [if_neg hfull]
    have hstep : ledger_step l (Op.append chatty t_stamp diff) =
        { l with
          pending := l.pending ++ [(tt_time_diff t_stamp l.last, to_uint diff)]
          last := t_stamp } := by
      rw [ledger_step, if_neg (by rw [← hn1]; exact hfull)]
    rw [hstep]
    exact ⟨_, rfl, hh1, hn1, Nat.not_le.mp hfull, hv1, rfl, hc, ho⟩

theorem ledger_run_append (as bs : List Op) :
    ∀ l : Ledger, ledger_run l (as ++ bs) = ledger_run (ledger_run l as) bs := by
  induction as with
  | nil => intro l; rfl
  | cons a as ih =>
    intro l
    rw [List.cons_append]
    simp only [ledger_run, ih]

/-- Every record appended is either drained or pending, in the order of detection; and
the drained records only grow. -/
theorem ledger_step_records (l : Ledger) (op : Op) :
    (ledger_step l op).drained.map Prod.fst ++ (ledger_step l op).pending =
      l.drained.map Prod.fst ++ l.pending ++ appended_records l.last [op] ∧
    (∃ more, (ledger_step l op).drained = l.drained ++ more) ∧
    ∀ ops, appended_records l.last (op :: ops) =
      appended_records l.last [op] ++ appended_records (ledger_step l op).last ops := by
  cases op with
  | append chatty t_stamp diff =>
    by_cases hfull : MAX_SPIKES ≤
        (encode_all (l.pending ++ [(tt_time_diff t_stamp l.last, to_uint diff)])).length
    · simp only [ledger_step, if_pos hfull, ledger_flush, appended_records]
      refine ⟨by simp [Function.comp_def], ⟨_, rfl⟩, fun ops => by simp⟩
    · simp only [ledger_step, if_neg hfull, appended_records]
      refine ⟨by simp, ⟨[], by simp⟩, fun ops => by simp⟩
  | drain chatty =>
    simp only [ledger_step, ledger_flush, appended_records]
    refine ⟨by simp [Function.comp_def], ⟨_, rfl⟩, fun ops => by simp⟩

theorem ledger_run_records (ops : List Op) :
    ∀ l : Ledger,
      (ledger_run l ops).drained.map Prod.fst ++ (ledger_run l ops).pending =
        l.drained.map Prod.fst ++ l.pending ++ appended_records l.last ops ∧
      ∃ more, (ledger_run l ops).drained = l.drained ++ more := by
  induction ops with
  | nil => intro l; exact ⟨by simp [ledger_run, appended_records], [], by simp [ledger_run]⟩
  | cons op ops ih =>
    intro l
    obtain ⟨h1, ⟨m1, h2⟩, h3⟩ := ledger_step_records l op
    obtain ⟨h4, m2, h5⟩ := ih (ledger_step l op)
    refine ⟨?_, m1 ++ m2, ?_⟩
    · rw [ledger_run, h4, h1, h3 ops]
      simp only [List.append_assoc]
    · rw [ledger_run, h5, h2, List.append_assoc]

/-- One call on a tracked state, the record of an append not being stored as the marker,
returns and keeps the state tracked. -/
theorem step_tracked (c0 : Nat) (out0 : List Row) (l : Ledger) (st : State) (op : Op)
    (h : tracked c0 out0 l st)
    (hm : ∀ r ∈ appended_records l.last [op], ¬ (r.1 = 0 ∧ r.2 = 0)) :
    ∃ st1, step st op = some st1 ∧ tracked c0 out0 (ledger_step l op) st1 := by
  cases op with
  | append chatty t_stamp diff =>
    exact append_tracked c0 out0 l st chatty t_stamp diff h
      (hm (tt_time_diff t_stamp l.last, to_uint diff) (by simp [appended_records]))
  | drain chatty => exact drain_tracked c0 out0 l st chatty h

/-- A sequence of calls on a tracked state, no appended record being stored as the
marker, returns and keeps the state tracked: the program does what the bookkeeping of
logical records says. -/
theorem run_tracked (c0 : Nat) (out0 : List Row) (ops : List Op) :
    ∀ (l : Ledger) (st : State), tracked c0 out0 l st →
      (∀ r ∈ appended_records l.last ops, ¬ (r.1 = 0 ∧ r.2 = 0)) →
      ∃ st1, run st ops = some st1 ∧ tracked c0 out0 (ledger_run l ops) st1 := by
  induction ops with
  | nil => intro l st h _; exact ⟨st, rfl, h⟩
  | cons op ops ih =>
    intro l st h hm
    obtain ⟨_, _, h3⟩ := ledger_step_records l op
    rw [h3 ops] at hm
    obtain ⟨st1, e1, t1⟩ := step_tracked c0 out0 l st op h
      (fun r hr => hm r (List.mem_append_left _ hr))
    obtain ⟨st2, e2, t2⟩ := ih (ledger_step l op) st1 t1
      (fun r hr => hm r (List.mem_append_right _ hr))
    exact ⟨st2, by simp only [run, e1, e2], t2⟩

/-- An empty buffer is tracked by the empty bookkeeping. -/
theorem tracked_start (st : State) (h0 : st.spike_ndx = 0) :
    tracked st.cumulative st.out (ledger_start st.last_spike_time) st := by
  refine ⟨trivial, h0, by rw [h0]; decide, fun r hr => absurd hr (by simp [ledger_start]),
    rfl, rfl, by simp [ledger_start, printed_rows]⟩

theorem appended_records_append (as bs : List Op) :
    ∀ l : Ledger, appended_records l.last (as ++ bs) =
      appended_records l.last as ++ appended_records (ledger_run l as).last bs := by
  induction as with
  | nil => intro l; rfl
  | cons a as ih =>
    intro l
    obtain ⟨_, _, h3⟩ := ledger_step_records l a
    rw [List.cons_append, h3 (as ++ bs), h3 as, ih (ledger_step l a), ledger_run,
      List.append_assoc]

/-- C8, as stated, fails: when the wall clock steps back by one microsecond between
two spikes the second record has gap `2^64 - 1`, neither record is stored as the
marker, and the drain of the second takes the clock from 1000 down to 999, which is not
the sum of the two drained gaps. -/
theorem clock_can_decrease :
    appended_records (stamp 0)
      [Op.append 1 (stamp 1000) 50, Op.drain 1, Op.append 1 (stamp 999) 50, Op.drain 1] =
      [(1000, 50), (2 ^ 64 - 1, 50)] ∧
    drained_gaps (stamp 0)
      [Op.append 1 (stamp 1000) 50, Op.drain 1, Op.append 1 (stamp 999) 50, Op.drain 1] =
      [1000, 2 ^ 64 - 1] ∧
    (run (fresh touched (stamp 0)) [Op.append 1 (stamp 1000) 50, Op.drain 1]).map
      (fun s => (s.cumulative, s.out)) =
      some (1000, [{ cumulative := 1000, spike := 50, this_time := 1000 }]) ∧
    (run (fresh touched (stamp 0))
      [Op.append 1 (stamp 1000) 50, Op.drain 1, Op.append 1 (stamp 999) 50, Op.drain 1]).map
      (fun s => (s.cumulative, s.out)) =
      some (999, [{ cumulative := 1000, spike := 50, this_time := 1000 },
        { cumulative := 999, spike := 50, this_time := 2 ^ 64 - 1 }]) ∧
    ¬ (1000 ≤ 999) ∧ 999 ≠ 1000 + (2 ^ 64 - 1) := by
  decide

/-- C8 (amended): after any sequence of appends and drains from an empty buffer with
the clock at 0, in which no appended record has gap 0 together with a magnitude that is
a multiple of `2^32`, the records drained so far are the first of the appended records,
in the order in which their spikes were detected, the rest being the records in the
buffer; the clock of `print_big_diff` equals the sum of the gaps of the drained records
modulo `2^64`; and whenever that sum is below `2^64` the clock equals the sum and is
greater than or equal to its value at every earlier point of the run. -/
theorem cumulative_clock_is_sum_mod (spikes : Nat → spike_data_struct) (last : timeval)
    (ops1 ops2 : List Op)
    (hm : ∀ r ∈ appended_records last (ops1 ++ ops2), ¬ (r.1 = 0 ∧ r.2 = 0)) :
    ∃ st1 st2, run (fresh spikes last) ops1 = some st1 ∧ run st1 ops2 = some st2 ∧
      run (fresh spikes last) (ops1 ++ ops2) = some st2 ∧
      (ledger_run (ledger_start last) (ops1 ++ ops2)).drained.map Prod.fst ++
        (ledger_run (ledger_start last) (ops1 ++ ops2)).pending =
        appended_records last (ops1 ++ ops2) ∧
      holds st2.spikes 0
        (encode_all (ledger_run (ledger_start last) (ops1 ++ ops2)).pending) ∧
      st2.spike_ndx =
        (encode_all (ledger_run (ledger_start last) (ops1 ++ ops2)).pending).length ∧
      st1.cumulative = (drained_gaps last ops1).sum % ULONG_MOD ∧
      st2.cumulative = (drained_gaps last (ops1 ++ ops2)).sum % ULONG_MOD ∧
      (∃ more, drained_gaps last (ops1 ++ ops2) = drained_gaps last ops1 ++ more) ∧
      ((drained_gaps last (ops1 ++ ops2)).sum < ULONG_MOD →
        st2.cumulative = (drained_gaps last (ops1 ++ ops2)).sum ∧
        st1.cumulative ≤ st2.cumulative) := by
  have hsplit := appended_records_append ops1 ops2 (ledger_start last)
  have hm1 : ∀ r ∈ appended_records (ledger_start last).last ops1,
      ¬ (r.1 = 0 ∧ r.2 = 0) := fun r hr => hm r (by
    show r ∈ appended_records (ledger_start last).last (ops1 ++ ops2)
    rw [hsplit]
    exact List.mem_append_left _ hr)
  have hm2 : ∀ r ∈ appended_records (ledger_run (ledger_start last) ops1).last ops2,
      ¬ (r.1 = 0 ∧ r.2 = 0) := fun r hr => hm r (by
    show r ∈ appended_records (ledger_start last).last (ops1 ++ ops2)
    rw [hsplit]
    exact List.mem_append_right _ hr)
  have t0 : tracked 0 [] (ledger_start last) (fresh spikes last) :=
    tracked_start (fresh spikes last) rfl
  obtain ⟨st1, e1, t1⟩ := run_tracked 0 [] ops1 (ledger_start last) (fresh spikes last) t0 hm1
  obtain ⟨st2, e2, t2⟩ := run_tracked 0 [] ops2 (ledger_run (ledger_start last) ops1) st1 t1 hm2
  rw [← ledger_run_append] at t2
  obtain ⟨hrec, _⟩ := ledger_run_records (ops1 ++ ops2) (ledger_start last)
  obtain ⟨_, more, hmore⟩ := ledger_run_records ops2 (ledger_run (ledger_start last) ops1)
  rw [← ledger_run_append] at hmore
  have c1 : st1.cumulative = (drained_gaps last ops1).sum % ULONG_MOD := by
    rw [t1.2.2.2.2.2.1, clock_after_sum _ 0 ulong_mod_pos, Nat.zero_add]
    rfl
  have c2 : st2.cumulative = (drained_gaps last (ops1 ++ ops2)).sum % ULONG_MOD := by
    rw [t2.2.2.2.2.2.1, clock_after_sum _ 0 ulong_mod_pos, Nat.zero_add]
    rfl
  have hg : drained_gaps last (ops1 ++ ops2) =
      drained_gaps last ops1 ++ more.map (fun d => d.1.1) := by
    unfold drained_gaps
    rw [hmore, List.map_append]
  refine ⟨st1, st2, e1, e2, ?_, ?_, t2.1, t2.2.1, c1, c2, ⟨_, hg⟩, fun hlt => ?_⟩
  · rw [run_append, e1]
    exact e2
  · rw [hrec]
    simp [ledger_start]
  · rw [c2, c1, Nat.mod_eq_of_lt hlt]
    rw [hg, List.sum_append] at hlt ⊢
    rw [Nat.mod_eq_of_lt (by omega)]
    exact ⟨rfl, by omega⟩

/-- An instance of the amended C8: two spikes, each followed by a drain; the clock is
1000 after the first drain and 1500 after the second. -/
theorem cumulative_clock_is_sum_mod_witness :
    (∀ r ∈ appended_records (stamp 0)
        ([Op.append 1 (stamp 1000) 50, Op.drain 1] ++ [Op.append 1 (stamp 1500) 7, Op.drain 1]),
      ¬ (r.1 = 0 ∧ r.2 = 0)) ∧
    drained_gaps (stamp 0)
      ([Op.append 1 (stamp 1000) 50, Op.drain 1] ++ [Op.append 1 (stamp 1500) 7, Op.drain 1]) =
      [1000, 500] ∧
    ∃ st1 st2, run (fresh touched (stamp 0)) [Op.append 1 (stamp 1000) 50, Op.drain 1] =
        some st1 ∧
      run (fresh touched (stamp 0))
        ([Op.append 1 (stamp 1000) 50, Op.drain 1] ++ [Op.append 1 (stamp 1500) 7, Op.drain 1]) =
        some st2 ∧
      st1.cumulative = (drained_gaps (stamp 0)
        [Op.append 1 (stamp 1000) 50, Op.drain 1]).sum % ULONG_MOD ∧
      st2.cumulative = (drained_gaps (stamp 0)
        ([Op.append 1 (stamp 1000) 50, Op.drain 1] ++
          [Op.append 1 (stamp 1500) 7, Op.drain 1])).sum % ULONG_MOD ∧
      st1.cumulative ≤ st2.cumulative := by
  have hlt : (drained_gaps (stamp 0)
      ([Op.append 1 (stamp 1000) 50, Op.drain 1] ++
        [Op.append 1 (stamp 1500) 7, Op.drain 1])).sum < ULONG_MOD := by decide
  obtain ⟨st1, st2, e1, _, e3, _, _, _, c1, c2, _, hle⟩ := cumulative_clock_is_sum_mod touched
    (stamp 0) [Op.append 1 (stamp 1000) 50, Op.drain 1]
    [Op.append 1 (stamp 1500) 7, Op.drain 1] (by decide)
  exact ⟨by decide, by decide, st1, st2, e1, e3, c1, c2, (hle hlt).2⟩

end HPTimeTest
